import Mathlib

/-
  Verification development for the ezlb declarative IPVS load balancer.

  The Go sources are shallowly embedded below: pure Go functions become Lean
  functions, the in-memory fake IPVS handle becomes explicit state passing on
  a `Kernel` value, fallible Go functions returning `(T, error)` become
  `Except String T`, and Go machine integers become `Int`/`Nat` with an
  explicit `% 65536` where Go performs a `uint16` conversion.

  Scope note: the embedding restricts IP-address literals to strict IPv4
  dotted-quad form (the only form used by the repository configs and tests).
  For such literals Go `net.ParseIP` followed by `net.IP.String()` returns
  the input unchanged, so the embedding represents a parsed `net.IP` by its
  canonical string.
-/

namespace Ezlb

/-! ## Association lists (the embedding of Go maps)

Go map reads/writes become first-match association-list operations. Map
iteration order in Go is unspecified but fixed within one range loop; the
embedding iterates in insertion order, one deterministic choice among those
the source allows. -/

/-- Association-list lookup with first-match semantics, modelling a Go map read. -/
def alookup {α β : Type} [DecidableEq α] : List (α × β) → α → Option β
  | [], _ => none
  | (a, b) :: t, x => if a = x then some b else alookup t x

/-- Association-list insert: replace the first binding of the key in place,
or append a fresh binding, modelling a Go map write. -/
def ainsert {α β : Type} [DecidableEq α] : List (α × β) → α → β → List (α × β)
  | [], x, v => [(x, v)]
  | (a, b) :: t, x, v => if a = x then (x, v) :: t else (a, b) :: ainsert t x v

/-- Association-list erase: drop the first binding of the key, modelling a Go
map delete (on lists whose keys are nodup, which all reachable states are). -/
def aerase {α β : Type} [DecidableEq α] : List (α × β) → α → List (α × β)
  | [], _ => []
  | (a, b) :: t, x => if a = x then t else (a, b) :: aerase t x

/-- Keys of an association list. -/
def akeys {α β : Type} (l : List (α × β)) : List α := l.map Prod.fst

/-! ## String primitives from the Go standard library

Only the behaviour the repository relies on is modelled, but each model
follows the structure of the corresponding Go function. -/

/-- Index of the last occurrence of a character in a list of characters,
modelling the byte scan in Go `net.SplitHostPort`. -/
def lastIdxOf (c : Char) : List Char → Option Nat
  | [] => none
  | x :: t =>
    match lastIdxOf c t with
    | some i => some (i + 1)
    | none => if x = c then some 0 else none

/-- Index of the first occurrence of a character in a list of characters. -/
def firstIdxOf (c : Char) : List Char → Option Nat
  | [] => none
  | x :: t => if x = c then some 0 else (firstIdxOf c t).map (· + 1)

/-- Model of Go `net.SplitHostPort`: split `host:port` at the last colon.
A bracketed host `[h]:port` may contain colons; an unbracketed host must not.
Stray brackets are rejected as in the Go source. Errors collapse to `none`
(no claim depends on the error text of this helper). -/
def splitHostPort (s : String) : Option (String × String) :=
  let cs := s.data
  match lastIdxOf ':' cs with
  | none => none
  | some i =>
    if cs.head? = some '[' then
      match firstIdxOf ']' cs with
      | none => none
      | some e =>
        if e + 1 = cs.length then none
        else if e + 1 = i then
          let host := (cs.take e).drop 1
          let port := cs.drop (i + 1)
          if (cs.drop 1).contains '[' ∨ (cs.drop (e + 1)).contains ']' then none
          else some (String.mk host, String.mk port)
        else none
    else
      let host := cs.take i
      let port := cs.drop (i + 1)
      if host.contains ':' ∨ cs.contains '[' ∨ cs.contains ']' then none
      else some (String.mk host, String.mk port)

/-- Decimal digit test. -/
def isDigit (c : Char) : Bool := '0' ≤ c ∧ c ≤ '9'

/-- Value of a decimal digit. -/
def digitVal (c : Char) : Nat := c.toNat - '0'.toNat

/-- Decimal value of a digit string (assumes all digits). -/
def digitsToNat (cs : List Char) : Nat :=
  cs.foldl (fun acc c => acc * 10 + digitVal c) 0

/-- Model of Go `strconv.Atoi`: optional sign, at least one digit, all
digits, result within the 64-bit int range. -/
def atoi (s : String) : Option Int :=
  let cs := s.data
  let (neg, ds) :=
    match cs with
    | '+' :: t => (false, t)
    | '-' :: t => (true, t)
    | t => (false, t)
  if ds = [] then none
  else if ds.all isDigit then
    let n : Int := digitsToNat ds
    let v : Int := if neg then -n else n
    if -(2 ^ 63) ≤ v ∧ v ≤ 2 ^ 63 - 1 then some v else none
  else none

/-- Go `uint16(x)` conversion on an int: truncation modulo 2^16. -/
def uint16OfInt (i : Int) : Nat := (i % 65536).toNat

/-- One dotted-quad field of an IPv4 literal: 1 to 3 decimal digits, value
at most 255, and no leading zero (Go `net.ParseIP` rejects leading zeros). -/
def isIPv4Field (cs : List Char) : Bool :=
  cs ≠ [] ∧ cs.length ≤ 3 ∧ cs.all isDigit ∧ digitsToNat cs ≤ 255 ∧
    (cs.length = 1 ∨ cs.head? ≠ some '0')

/-- Split a character list at a separator character. -/
def splitOn (sep : Char) : List Char → List (List Char)
  | [] => [[]]
  | c :: t =>
    let r := splitOn sep t
    if c = sep then [] :: r
    else
      match r with
      | [] => [[c]]
      | g :: gs => (c :: g) :: gs

/-- Strict IPv4 dotted-quad test: exactly four valid fields. -/
def isIPv4 (s : String) : Bool :=
  match splitOn '.' s.data with
  | [a, b, c, d] => isIPv4Field a ∧ isIPv4Field b ∧ isIPv4Field c ∧ isIPv4Field d
  | _ => false

/-- Model of Go `net.ParseIP` restricted to IPv4 literals, representing the
parsed address by its canonical string (for strict dotted-quad input, Go
`ParseIP` then `String()` round-trips to the input). -/
def parseIP (s : String) : Option String :=
  if isIPv4 s then some s else none

/-! ### Go `time.ParseDuration`

Used by the config accessors and by validation; no claim depends on the
numeric value of a parsed duration, only on success or failure, but the model
follows the structure of the Go parser (sign, repeated number-fraction-unit
segments). Durations are integer nanoseconds; the fractional part is computed
with integer division where Go uses floating point, a deviation that is
invisible to every claim. -/

/-- Nanoseconds per unit, from the Go `unitMap`. -/
def unitScale : List Char → Option Int
  | ['n', 's'] => some 1
  | ['u', 's'] => some 1000
  | ['µ', 's'] => some 1000
  | ['μ', 's'] => some 1000
  | ['m', 's'] => some 1000000
  | ['s'] => some 1000000000
  | ['m'] => some 60000000000
  | ['h'] => some 3600000000000
  | _ => none

/-- Take the leading run satisfying a predicate, returning it and the rest. -/
def takeWhileSplit (p : Char → Bool) : List Char → List Char × List Char
  | [] => ([], [])
  | c :: t =>
    if p c then
      let (a, b) := takeWhileSplit p t
      (c :: a, b)
    else ([], c :: t)

/-- Segment loop of `time.ParseDuration`; `fuel` bounds recursion by input
length. -/
def parseDurationGo (fuel : Nat) (cs : List Char) (acc : Int) : Option Int :=
  match fuel with
  | 0 => none
  | fuel + 1 =>
    match cs with
    | [] => some acc
    | _ =>
      let (intPart, rest1) := takeWhileSplit isDigit cs
      let (fracPart, rest2) :=
        match rest1 with
        | '.' :: t => takeWhileSplit isDigit t
        | _ => ([], rest1)
      let hadDot := rest1 ≠ rest2 ∨ (rest1.head? = some '.')
      if intPart = [] ∧ fracPart = [] then none
      else
        let (unit, rest3) := takeWhileSplit (fun c => ¬ isDigit c ∧ c ≠ '.') rest2
        match unitScale unit with
        | none => none
        | some scale =>
          let v : Int := digitsToNat intPart * scale
          let f : Int :=
            if hadDot ∧ fracPart ≠ [] then
              (digitsToNat fracPart * scale) / (10 ^ fracPart.length)
            else 0
          parseDurationGo fuel rest3 (acc + v + f)

/-- Model of Go `time.ParseDuration`. -/
def parseDuration (s : String) : Option Int :=
  let cs := s.data
  let (neg, body) :=
    match cs with
    | '-' :: t => (true, t)
    | '+' :: t => (false, t)
    | t => (false, t)
  if body = ['0'] then some 0
  else if body = [] then none
  else
    match body.head? with
    | some c =>
      if isDigit c ∨ c = '.' then
        (parseDurationGo (body.length + 1) body 0).map (fun d => if neg then -d else d)
      else none
    | none => none

/-! ## Package config (src/unnamed/part_003)

Types and accessors of the configuration model, and `Validate`. -/

/-- Per-service health check parameters (Go `config.HealthCheckConfig`). -/
structure HealthCheckConfig where
  Enabled : Option Bool
  Type_ : String
  Interval : String
  Timeout : String
  FailCount : Int
  RiseCount : Int
  HTTPPath : String
  HTTPExpectedStatus : Int
deriving DecidableEq

/-- A real server entry (Go `config.BackendConfig`). -/
structure BackendConfig where
  Address : String
  Weight : Int
deriving DecidableEq

/-- A virtual service entry (Go `config.ServiceConfig`). The `FullNAT` and
`SnatIP` fields are present in the current repository configuration type;
the copy of the config source in this snapshot predates them, so they are
taken from the specification data model (full_nat, snat_ip) and the
reconciler tests that set them. -/
structure ServiceConfig where
  Name : String
  Listen : String
  Protocol : String
  Scheduler : String
  FullNAT : Bool
  SnatIP : String
  HealthCheck : HealthCheckConfig
  Backends : List BackendConfig
deriving DecidableEq

/-- Top-level configuration (Go `config.Config`); the global section carries
only the log level, irrelevant to every claim, and is omitted. -/
structure Config where
  Services : List ServiceConfig
deriving DecidableEq

/-- Whether health checking is enabled; nil defaults to true
(Go `HealthCheckConfig.IsEnabled`). -/
def HealthCheckConfig.IsEnabled (h : HealthCheckConfig) : Bool :=
  match h.Enabled with
  | none => true
  | some b => b

/-- Health check interval in nanoseconds, defaulting to 5s when unset or
invalid (Go `HealthCheckConfig.GetInterval`). -/
def HealthCheckConfig.GetInterval (h : HealthCheckConfig) : Int :=
  if h.Interval = "" then 5000000000
  else
    match parseDuration h.Interval with
    | none => 5000000000
    | some d => d

/-- Health check timeout in nanoseconds, defaulting to 3s when unset or
invalid (Go `HealthCheckConfig.GetTimeout`). -/
def HealthCheckConfig.GetTimeout (h : HealthCheckConfig) : Int :=
  if h.Timeout = "" then 3000000000
  else
    match parseDuration h.Timeout with
    | none => 3000000000
    | some d => d

/-- Health check type, defaulting to "tcp" (Go `HealthCheckConfig.GetType`). -/
def HealthCheckConfig.GetType (h : HealthCheckConfig) : String :=
  if h.Type_ = "" then "tcp" else h.Type_

/-- HTTP health check path, defaulting to "/" (Go `GetHTTPPath`). -/
def HealthCheckConfig.GetHTTPPath (h : HealthCheckConfig) : String :=
  if h.HTTPPath = "" then "/" else h.HTTPPath

/-- Expected HTTP status, defaulting to 200 (Go `GetHTTPExpectedStatus`). -/
def HealthCheckConfig.GetHTTPExpectedStatus (h : HealthCheckConfig) : Int :=
  if h.HTTPExpectedStatus ≤ 0 then 200 else h.HTTPExpectedStatus

/-- Consecutive failure threshold, defaulting to 3 (Go `GetFailCount`). -/
def HealthCheckConfig.GetFailCount (h : HealthCheckConfig) : Int :=
  if h.FailCount ≤ 0 then 3 else h.FailCount

/-- Consecutive success threshold, defaulting to 2 (Go `GetRiseCount`). -/
def HealthCheckConfig.GetRiseCount (h : HealthCheckConfig) : Int :=
  if h.RiseCount ≤ 0 then 2 else h.RiseCount

/-- Supported IPVS scheduler names (Go `validSchedulers`). -/
def validSchedulers : List String := ["rr", "wrr", "lc", "wlc", "dh", "sh"]

/-- Supported protocols (Go `validProtocols`). -/
def validProtocols : List String := ["tcp", "udp"]

/-- Backend-level checks of `config.Validate`, in source order: address
nonempty, splits as host:port, host parses as an IP, port neither empty nor
"0", address not a duplicate, weight positive. Returns the updated duplicate
set. -/
def validateBackends (svcName : String) : List BackendConfig → List String →
    Except String Unit
  | [], _ => .ok ()
  | b :: rest, backendSet =>
    if b.Address = "" then .error (svcName ++ ": backend address is required")
    else
      match splitHostPort b.Address with
      | none => .error (svcName ++ ": invalid backend address " ++ b.Address)
      | some (backendHost, backendPort) =>
        if parseIP backendHost = none then
          .error (svcName ++ ": invalid backend IP " ++ backendHost)
        else if backendPort = "" ∨ backendPort = "0" then
          .error (svcName ++ ": backend port must be a positive number")
        else if backendSet.contains b.Address then
          .error (svcName ++ ": duplicate backend address " ++ b.Address)
        else if b.Weight ≤ 0 then
          .error (svcName ++ ": backend weight must be a positive integer")
        else validateBackends svcName rest (b.Address :: backendSet)

/-- Health check section checks of `config.Validate`, in source order;
applied only when the health check is enabled. -/
def validateHealthCheck (svcName : String) (hc : HealthCheckConfig) :
    Except String Unit :=
  if hc.Interval ≠ "" ∧ parseDuration hc.Interval = none then
    .error (svcName ++ ": invalid health_check.interval")
  else if hc.Timeout ≠ "" ∧ parseDuration hc.Timeout = none then
    .error (svcName ++ ": invalid health_check.timeout")
  else
    let checkType := hc.GetType
    if checkType ≠ "tcp" ∧ checkType ≠ "http" then
      .error (svcName ++ ": unsupported health_check.type " ++ checkType)
    else if checkType = "http" then
      if hc.HTTPPath ≠ "" ∧ hc.HTTPPath.data.head? ≠ some '/' then
        .error (svcName ++ ": health_check.http_path must start with a slash")
      else if hc.HTTPExpectedStatus ≠ 0 ∧
          (hc.HTTPExpectedStatus < 100 ∨ hc.HTTPExpectedStatus > 599) then
        .error (svcName ++ ": health_check.http_expected_status must be between 100 and 599")
      else .ok ()
    else .ok ()

/-- The per-service protocol local of `config.Validate`: the configured
protocol, defaulted to "tcp" when empty. -/
def normalizeProtocol (svc : ServiceConfig) : String :=
  if svc.Protocol = "" then "tcp" else svc.Protocol

/-- Health check section of the per-service loop of `config.Validate`:
checked only when enabled. -/
def healthCheckGate (svc : ServiceConfig) : Except String Unit :=
  if svc.HealthCheck.IsEnabled then validateHealthCheck svc.Name svc.HealthCheck
  else .ok ()

/-- Per-service loop body of `config.Validate`, threading the duplicate-name
and duplicate-listen sets and emitting the service with its protocol
defaulted (Go mutates `cfg.Services[i].Protocol` in place). -/
def validateServices : List ServiceConfig → List String → List String →
    Except String (List ServiceConfig)
  | [], _, _ => .ok []
  | svc :: rest, nameSet, listenSet =>
    if svc.Name = "" then .error "service name is required"
    else if nameSet.contains svc.Name then
      .error ("duplicate service name " ++ svc.Name)
    else
      match splitHostPort svc.Listen with
      | none => .error (svc.Name ++ ": invalid listen address " ++ svc.Listen)
      | some (host, port) =>
        if parseIP host = none then
          .error (svc.Name ++ ": invalid listen IP " ++ host)
        else if port = "" ∨ port = "0" then
          .error (svc.Name ++ ": listen port must be a positive number")
        else
          let protocol := normalizeProtocol svc
          if ¬ validProtocols.contains protocol then
            .error (svc.Name ++ ": unsupported protocol " ++ protocol)
          else
            let listenKey := svc.Listen ++ "/" ++ protocol
            if listenSet.contains listenKey then
              .error (svc.Name ++ ": duplicate listen address " ++ svc.Listen)
            else if ¬ validSchedulers.contains svc.Scheduler then
              .error (svc.Name ++ ": unsupported scheduler " ++ svc.Scheduler)
            else
              match healthCheckGate svc with
              | .error e => .error e
              | .ok () =>
                if svc.Backends = [] then
                  .error (svc.Name ++ ": at least one backend is required")
                else
                  match validateBackends svc.Name svc.Backends [] with
                  | .error e => .error e
                  | .ok () =>
                    match validateServices rest (svc.Name :: nameSet)
                        (listenKey :: listenSet) with
                    | .error e => .error e
                    | .ok out => .ok ({ svc with Protocol := protocol } :: out)

/-- Model of `config.Validate` (src/unnamed/part_003 lines 202-316): checks a
configuration and returns it with protocols defaulted. -/
def Validate (cfg : Config) : Except String Config :=
  if cfg.Services = [] then .error "at least one service must be defined"
  else
    match validateServices cfg.Services [] [] with
    | .error e => .error e
    | .ok out => .ok { Services := out }

/-! ## Package lvs: types and conversions (src/pkg/lvs/types.go,
src/pkg/lvs/ipvs_models.go)

A parsed `net.IP` is represented by its canonical string (see the scope note
at the top of the file); `uint16` ports become `Nat` values produced by
`uint16OfInt`. Statistics fields and other fields never read by the
reconciler or the fake handle are omitted. -/

/-- Identity of an IPVS virtual service (Go `lvs.ServiceKey`). -/
structure ServiceKey where
  Address : String
  Port : Nat
  Protocol : Nat
deriving DecidableEq

/-- Identity of an IPVS destination within a service (Go `lvs.DestinationKey`). -/
structure DestinationKey where
  Address : String
  Port : Nat
deriving DecidableEq

/-- An IPVS virtual service (Go `lvs.Service`). -/
structure Service where
  Address : String
  Protocol : Nat
  Port : Nat
  SchedName : String
  Netmask : Nat
  AddressFamily : Nat
deriving DecidableEq

/-- An IPVS destination (Go `lvs.Destination`). -/
structure Destination where
  Address : String
  Port : Nat
  Weight : Int
  ConnectionFlags : Nat
  AddressFamily : Nat
deriving DecidableEq

/-- Masquerading forwarding method (Go `lvs.ConnectionFlagMasq`). -/
def ConnectionFlagMasq : Nat := 0

/-- Protocol name to kernel protocol number (Go `protocolFromString`):
tcp is 6, udp is 17. -/
def protocolFromString (protocol : String) : Except String Nat :=
  if protocol = "tcp" then .ok 6
  else if protocol = "udp" then .ok 17
  else .error ("unsupported protocol: " ++ protocol)

/-- Address family of a parsed IP (Go `addressFamilyFromIP`); in the IPv4
scope of this embedding `To4` is never nil, so the family is AF_INET = 2. -/
def addressFamilyFromIP (_ : String) : Nat := 2

/-- Netmask for an address family (Go `netmaskFromFamily`). -/
def netmaskFromFamily (family : Nat) : Nat :=
  if family = 2 then 0xFFFFFFFF else 128

/-- ServiceKey from a service configuration (Go `ServiceKeyFromConfig`):
splits the listen address and keeps the raw host string. -/
def ServiceKeyFromConfig (svcCfg : ServiceConfig) : Except String ServiceKey :=
  match splitHostPort svcCfg.Listen with
  | none => .error ("invalid listen address " ++ svcCfg.Listen)
  | some (host, portStr) =>
    match atoi portStr with
    | none => .error ("invalid port " ++ portStr)
    | some port =>
      match protocolFromString svcCfg.Protocol with
      | .error e => .error e
      | .ok protocol =>
        .ok { Address := host, Port := uint16OfInt port, Protocol := protocol }

/-- ServiceKey from a kernel service (Go `ServiceKeyFromIPVS`):
uses the String form of the stored address. -/
def ServiceKeyFromIPVS (svc : Service) : ServiceKey :=
  { Address := svc.Address, Port := svc.Port, Protocol := svc.Protocol }

/-- DestinationKey from a kernel destination (Go `DestinationKeyFromIPVS`). -/
def DestinationKeyFromIPVS (dst : Destination) : DestinationKey :=
  { Address := dst.Address, Port := dst.Port }

/-- Convert a service configuration to a kernel service record
(Go `ConfigToIPVSService`). -/
def ConfigToIPVSService (svcCfg : ServiceConfig) : Except String Service :=
  match splitHostPort svcCfg.Listen with
  | none => .error ("invalid listen address " ++ svcCfg.Listen)
  | some (host, portStr) =>
    match atoi portStr with
    | none => .error ("invalid port " ++ portStr)
    | some port =>
      match parseIP host with
      | none => .error ("invalid IP address " ++ host)
      | some ipAddress =>
        match protocolFromString svcCfg.Protocol with
        | .error e => .error e
        | .ok protocol =>
          let family := addressFamilyFromIP ipAddress
          .ok { Address := ipAddress, Protocol := protocol,
                Port := uint16OfInt port, SchedName := svcCfg.Scheduler,
                AddressFamily := family, Netmask := netmaskFromFamily family }

/-- Convert a backend configuration to a kernel destination record
(Go `ConfigToIPVSDestination`). -/
def ConfigToIPVSDestination (backendCfg : BackendConfig) : Except String Destination :=
  match splitHostPort backendCfg.Address with
  | none => .error ("invalid backend address " ++ backendCfg.Address)
  | some (host, portStr) =>
    match atoi portStr with
    | none => .error ("invalid port " ++ portStr)
    | some port =>
      match parseIP host with
      | none => .error ("invalid IP address " ++ host)
      | some ipAddress =>
        let family := addressFamilyFromIP ipAddress
        .ok { Address := ipAddress, Port := uint16OfInt port,
              Weight := backendCfg.Weight, ConnectionFlags := ConnectionFlagMasq,
              AddressFamily := family }

/-! ## The in-memory IPVS binding (src/pkg/lvs/ipvs_handle_fake.go)

The fake handle is a mutex-protected pair of maps; the embedding is a value
of type `Kernel` threaded through the operations. Deep-copying of stored
entities (`cloneService`, `cloneDestination`) is the identity on the pure
values of the embedding, so it is not represented. -/

/-- Key under which the fake handle stores a service
(Go `makeFakeServiceKey`): derived from the stored value. -/
def makeFakeServiceKey (svc : Service) : ServiceKey :=
  { Address := svc.Address, Port := svc.Port, Protocol := svc.Protocol }

/-- Key under which the fake handle stores a destination
(Go `makeFakeDestinationKey`). -/
def makeFakeDestinationKey (dst : Destination) : DestinationKey :=
  { Address := dst.Address, Port := dst.Port }

/-- The two maps of the fake IPVS handle (Go `fakeHandle`). -/
structure Kernel where
  services : List (ServiceKey × Service)
  destinations : List (ServiceKey × List (DestinationKey × Destination))
deriving DecidableEq

/-- The empty kernel table, the state of a fresh fake handle. -/
def Kernel.empty : Kernel := { services := [], destinations := [] }

/-- Go `fakeHandle.NewService`: fails when the key is present, else stores
the service and an empty destination map under it. -/
def Kernel.newService (k : Kernel) (svc : Service) : Except String Kernel :=
  let key := makeFakeServiceKey svc
  match alookup k.services key with
  | some _ => .error "service already exists"
  | none =>
    .ok { services := k.services ++ [(key, svc)],
          destinations := k.destinations ++ [(key, [])] }

/-- Go `fakeHandle.UpdateService`: fails when the key is absent, else
replaces the stored service. -/
def Kernel.updateService (k : Kernel) (svc : Service) : Except String Kernel :=
  let key := makeFakeServiceKey svc
  match alookup k.services key with
  | none => .error "service not found"
  | some _ => .ok { k with services := ainsert k.services key svc }

/-- Go `fakeHandle.DelService`: fails when the key is absent, else removes
the service and its destination map. -/
def Kernel.delService (k : Kernel) (svc : Service) : Except String Kernel :=
  let key := makeFakeServiceKey svc
  match alookup k.services key with
  | none => .error "service not found"
  | some _ =>
    .ok { services := aerase k.services key,
          destinations := aerase k.destinations key }

/-- Go `fakeHandle.GetServices`: a snapshot of all stored services. -/
def Kernel.getServices (k : Kernel) : List Service :=
  k.services.map Prod.snd

/-- Go `fakeHandle.NewDestination`: fails when the service is absent or the
destination key is present, else stores the destination. -/
def Kernel.newDestination (k : Kernel) (svc : Service) (dst : Destination) :
    Except String Kernel :=
  let svcKey := makeFakeServiceKey svc
  match alookup k.destinations svcKey with
  | none => .error "service not found"
  | some dstMap =>
    let dstKey := makeFakeDestinationKey dst
    match alookup dstMap dstKey with
    | some _ => .error "destination already exists"
    | none =>
      .ok { k with destinations :=
              ainsert k.destinations svcKey (dstMap ++ [(dstKey, dst)]) }

/-- Go `fakeHandle.UpdateDestination`: fails when the service or the
destination is absent, else replaces the stored destination. -/
def Kernel.updateDestination (k : Kernel) (svc : Service) (dst : Destination) :
    Except String Kernel :=
  let svcKey := makeFakeServiceKey svc
  match alookup k.destinations svcKey with
  | none => .error "service not found"
  | some dstMap =>
    let dstKey := makeFakeDestinationKey dst
    match alookup dstMap dstKey with
    | none => .error "destination not found"
    | some _ =>
      .ok { k with destinations :=
              ainsert k.destinations svcKey (ainsert dstMap dstKey dst) }

/-- Go `fakeHandle.DelDestination`: fails when the service or the
destination is absent, else removes the destination. -/
def Kernel.delDestination (k : Kernel) (svc : Service) (dst : Destination) :
    Except String Kernel :=
  let svcKey := makeFakeServiceKey svc
  match alookup k.destinations svcKey with
  | none => .error "service not found"
  | some dstMap =>
    let dstKey := makeFakeDestinationKey dst
    match alookup dstMap dstKey with
    | none => .error "destination not found"
    | some _ =>
      .ok { k with destinations :=
              ainsert k.destinations svcKey (aerase dstMap dstKey) }

/-- Go `fakeHandle.GetDestinations`: fails when the service is absent, else
returns a snapshot of its destinations. -/
def Kernel.getDestinations (k : Kernel) (svc : Service) :
    Except String (List Destination) :=
  match alookup k.destinations (makeFakeServiceKey svc) with
  | none => .error "service not found"
  | some dstMap => .ok (dstMap.map Prod.snd)

/-- Representation invariant of the fake handle: every reachable state keys
entries by the key derived from the stored value, keeps keys nodup at both
levels, and keeps the two maps defined on the same service keys. -/
structure Kernel.WF (k : Kernel) : Prop where
  svcNodup : (akeys k.services).Nodup
  dstNodup : (akeys k.destinations).Nodup
  svcKeyed : ∀ p ∈ k.services, p.1 = makeFakeServiceKey p.2
  dstKeyed : ∀ q ∈ k.destinations, ∀ p ∈ q.2, p.1 = makeFakeDestinationKey p.2
  dstInnerNodup : ∀ q ∈ k.destinations, (akeys q.2).Nodup
  sameDom : ∀ key, (alookup k.services key).isSome = (alookup k.destinations key).isSome

/-! ## The reconciler (src/unnamed/part_009, `lvs.Reconciler`)

`Reconcile` is embedded as a pure transition on `(kernel, managed)` with an
explicit trace of every mutating call issued to the binding (each trace entry
records the call and whether the binding accepted it). The health manager is
passed as its `IsHealthy` query function. Error collection keeps the
individual messages in a list; Go joins them into one error at the end, and
only emptiness of the collection is observable in any claim. -/

/-- Desired state of one service after health filtering
(Go `lvs.desiredService`). -/
structure DesiredService where
  service : Service
  destinations : List Destination
  config : ServiceConfig
deriving DecidableEq

/-- Backend loop of `buildDesiredState`: skip a backend when the health
check is enabled and the backend is unhealthy, otherwise convert it;
conversion failure aborts the build. -/
def convertBackends (isHealthy : String → Bool) (svcCfg : ServiceConfig) :
    List BackendConfig → Except String (List Destination)
  | [] => .ok []
  | b :: rest =>
    if svcCfg.HealthCheck.IsEnabled ∧ ¬ isHealthy b.Address then
      convertBackends isHealthy svcCfg rest
    else
      match ConfigToIPVSDestination b with
      | .error e => .error e
      | .ok dst =>
        match convertBackends isHealthy svcCfg rest with
        | .error e => .error e
        | .ok ds => .ok (dst :: ds)

/-- One service of `buildDesiredState`: convert the service, compute its
key, and filter-convert its backends, in source order. -/
def buildOne (isHealthy : String → Bool) (svcCfg : ServiceConfig) :
    Except String (ServiceKey × DesiredService) :=
  match ConfigToIPVSService svcCfg with
  | .error e => .error e
  | .ok ipvsSvc =>
    match ServiceKeyFromConfig svcCfg with
    | .error e => .error e
    | .ok key =>
      match convertBackends isHealthy svcCfg svcCfg.Backends with
      | .error e => .error e
      | .ok dests =>
        .ok (key, { service := ipvsSvc, destinations := dests, config := svcCfg })

/-- Loop of `Reconciler.buildDesiredState`, accumulating the desired map. -/
def buildDesiredStateGo (isHealthy : String → Bool) :
    List ServiceConfig → List (ServiceKey × DesiredService) →
    Except String (List (ServiceKey × DesiredService))
  | [], acc => .ok acc
  | c :: rest, acc =>
    match buildOne isHealthy c with
    | .error e => .error e
    | .ok (key, ds) => buildDesiredStateGo isHealthy rest (ainsert acc key ds)

/-- Go `Reconciler.buildDesiredState`: desired kernel state from the
configuration and the health snapshot. -/
def buildDesiredState (isHealthy : String → Bool) (configs : List ServiceConfig) :
    Except String (List (ServiceKey × DesiredService)) :=
  buildDesiredStateGo isHealthy configs []

/-- One mutating call issued to the binding, with the key it addressed and
whether the binding accepted it. -/
inductive TraceOp where
  | createSvc (key : ServiceKey) (accepted : Bool)
  | updateSvc (key : ServiceKey) (accepted : Bool)
  | deleteSvc (key : ServiceKey) (accepted : Bool)
  | createDst (key : ServiceKey) (dkey : DestinationKey) (accepted : Bool)
  | updateDst (key : ServiceKey) (dkey : DestinationKey) (accepted : Bool)
  | deleteDst (key : ServiceKey) (dkey : DestinationKey) (accepted : Bool)
deriving DecidableEq

/-- State threaded through one reconcile pass: the kernel table, the managed
set, collected errors and the trace of mutating binding calls. -/
structure PassState where
  kernel : Kernel
  managed : List ServiceKey
  errs : List String
  trace : List TraceOp
deriving DecidableEq

/-- Insertion into the managed set (Go `r.managed[key] = true`). -/
def minsert (l : List ServiceKey) (k : ServiceKey) : List ServiceKey :=
  if k ∈ l then l else l ++ [k]

/-- Removal from the managed set (Go `delete(r.managed, key)`). -/
def merase (l : List ServiceKey) (k : ServiceKey) : List ServiceKey :=
  l.filter (fun x => ¬ x = k)

/-- Loop of the desired destination map of `reconcileDestinations`, keyed by
the String form of the address and the port. -/
def buildDestMapGo :
    List Destination → List (DestinationKey × Destination) →
    List (DestinationKey × Destination)
  | [], m => m
  | dst :: rest, m =>
    buildDestMapGo rest (ainsert m { Address := dst.Address, Port := dst.Port } dst)

/-- Desired destination map of `reconcileDestinations`. -/
def buildDestMap (ds : List Destination) : List (DestinationKey × Destination) :=
  buildDestMapGo ds []

/-- Create/update loop of `reconcileDestinations`: a desired destination
missing from the actual map is created; one present with a different weight
is updated. -/
def destCreateUpdate (svc : Service) (skey : ServiceKey)
    (actualDestMap : List (DestinationKey × Destination)) :
    List (DestinationKey × Destination) → PassState → PassState
  | [], st => st
  | (dkey, dd) :: rest, st =>
    let st1 :=
      match alookup actualDestMap dkey with
      | none =>
        match st.kernel.newDestination svc dd with
        | .error e => { st with errs := st.errs ++ [e], trace := st.trace ++ [.createDst skey dkey false] }
        | .ok k1 => { st with kernel := k1, trace := st.trace ++ [.createDst skey dkey true] }
      | some actualDst =>
        if ¬ actualDst.Weight = dd.Weight then
          match st.kernel.updateDestination svc dd with
          | .error e => { st with errs := st.errs ++ [e], trace := st.trace ++ [.updateDst skey dkey false] }
          | .ok k1 => { st with kernel := k1, trace := st.trace ++ [.updateDst skey dkey true] }
        else st
    destCreateUpdate svc skey actualDestMap rest st1

/-- Delete loop of `reconcileDestinations`: an actual destination absent
from the desired map is deleted. -/
def destDelete (svc : Service) (skey : ServiceKey)
    (desiredDestMap : List (DestinationKey × Destination)) :
    List (DestinationKey × Destination) → PassState → PassState
  | [], st => st
  | (dkey, actualDst) :: rest, st =>
    let st1 :=
      match alookup desiredDestMap dkey with
      | some _ => st
      | none =>
        match st.kernel.delDestination svc actualDst with
        | .error e => { st with errs := st.errs ++ [e], trace := st.trace ++ [.deleteDst skey dkey false] }
        | .ok k1 => { st with kernel := k1, trace := st.trace ++ [.deleteDst skey dkey true] }
    destDelete svc skey desiredDestMap rest st1

/-- Go `Reconciler.reconcileDestinations`: diff the destinations of a single
service against the kernel. -/
def reconcileDestinations (st : PassState) (desired : DesiredService) : PassState :=
  match st.kernel.getDestinations desired.service with
  | .error e => { st with errs := st.errs ++ [e] }
  | .ok actualDests =>
    let skey := makeFakeServiceKey desired.service
    let actualDestMap := actualDests.map (fun dst => (DestinationKeyFromIPVS dst, dst))
    let desiredDestMap := buildDestMap desired.destinations
    let st1 := destCreateUpdate desired.service skey actualDestMap desiredDestMap st
    destDelete desired.service skey desiredDestMap actualDestMap st1

/-- Service-level create/update loop of `Reconciler.Reconcile` (phase 3).
A desired service missing from the managed actual map is created and, on
success, its key enters the managed set; one present with a different
scheduler is updated; a failed create or update skips the destination diff
for that service (`continue`). -/
def serviceCreateUpdate (actualMap : List (ServiceKey × Service)) :
    List (ServiceKey × DesiredService) → PassState → PassState
  | [], st => st
  | (key, desired) :: rest, st =>
    let st1 :=
      match alookup actualMap key with
      | none =>
        match st.kernel.newService desired.service with
        | .error e => { st with errs := st.errs ++ [e], trace := st.trace ++ [.createSvc key false] }
        | .ok k1 =>
          reconcileDestinations
            { st with kernel := k1, managed := minsert st.managed key, trace := st.trace ++ [.createSvc key true] } desired
      | some actual =>
        if ¬ actual.SchedName = desired.service.SchedName then
          match st.kernel.updateService desired.service with
          | .error e => { st with errs := st.errs ++ [e], trace := st.trace ++ [.updateSvc key false] }
          | .ok k1 =>
            reconcileDestinations
              { st with kernel := k1, trace := st.trace ++ [.updateSvc key true] } desired
        else reconcileDestinations st desired
    serviceCreateUpdate actualMap rest st1

/-- Deletion loop of `Reconciler.Reconcile`: a managed actual service absent
from the desired map is deleted and, on success, leaves the managed set. -/
def serviceDelete (desiredMap : List (ServiceKey × DesiredService)) :
    List (ServiceKey × Service) → PassState → PassState
  | [], st => st
  | (key, actual) :: rest, st =>
    let st1 :=
      match alookup desiredMap key with
      | some _ => st
      | none =>
        match st.kernel.delService actual with
        | .error e => { st with errs := st.errs ++ [e], trace := st.trace ++ [.deleteSvc key false] }
        | .ok k1 => { st with kernel := k1, managed := merase st.managed key, trace := st.trace ++ [.deleteSvc key true] }
    serviceDelete desiredMap rest st1

/-- Loop of the managed restriction of the actual state (phase 2 of
`Reconcile`): each kernel service is keyed by `ServiceKeyFromIPVS` and kept
only when its key is in the managed set. -/
def buildActualMapGo (managed0 : List ServiceKey) :
    List Service → List (ServiceKey × Service) → List (ServiceKey × Service)
  | [], m => m
  | svc :: rest, m =>
    let key := ServiceKeyFromIPVS svc
    if key ∈ managed0 then buildActualMapGo managed0 rest (ainsert m key svc)
    else buildActualMapGo managed0 rest m

/-- Managed restriction of the actual state (phase 2 of `Reconcile`). -/
def buildActualMap (managed0 : List ServiceKey) (services : List Service) :
    List (ServiceKey × Service) :=
  buildActualMapGo managed0 services []

/-- Go `Reconciler.Reconcile` over the fake binding: one full pass from a
kernel table and a managed set, returning the final pass state. A build
failure returns before the kernel is read or written. -/
def runReconcile (isHealthy : String → Bool) (managed0 : List ServiceKey)
    (k0 : Kernel) (configs : List ServiceConfig) : PassState :=
  match buildDesiredState isHealthy configs with
  | .error e =>
    { kernel := k0, managed := managed0,
      errs := ["failed to build desired state: " ++ e], trace := [] }
  | .ok desiredMap =>
    let actualMap := buildActualMap managed0 k0.getServices
    let st0 : PassState := { kernel := k0, managed := managed0, errs := [], trace := [] }
    let st1 := serviceCreateUpdate actualMap desiredMap st0
    serviceDelete desiredMap actualMap st1

/-- The pass result as the Go error value: nil when no operation failed,
else the joined error. -/
def PassState.result (st : PassState) : Except String Unit :=
  if st.errs = [] then .ok () else .error (String.intercalate "; " st.errs)

/-- The managed set of a fresh reconciler (Go `NewReconciler`):
`make(map[ServiceKey]bool)` is empty. -/
def newReconcilerManaged : List ServiceKey := []

/-! ## SNAT rules (src/unnamed/part_006, `snat.SNATRule`) and the SNAT step
of the current reconciler -/

/-- A single SNAT/MASQUERADE rule for a backend destination
(Go `snat.SNATRule`). -/
structure SNATRule where
  BackendIP : String
  BackendPort : Nat
  Protocol : String
  SnatIP : String
deriving DecidableEq

/-- Modelled from the spec: the SNAT-aware reconciler of the current
repository (referenced by the tests in src/unnamed/part_009 through
`reconciler.snatMgr` and the four-argument `NewReconciler`, but absent from
this source snapshot) emits, for each service with `full_nat` true, one
SnatRule per configured backend regardless of that backend's health, and no
rules for other services. A backend address that does not split into
host:port yields no rule (the spec leaves this case silent; such a backend
can only be an unhealthy one, since healthy ones fail the build first). -/
def snatRuleOfBackend (svc : ServiceConfig) (b : BackendConfig) : Option SNATRule :=
  match splitHostPort b.Address with
  | none => none
  | some (host, portStr) =>
    match atoi portStr with
    | none => none
    | some port =>
      some { BackendIP := host, BackendPort := uint16OfInt port,
             Protocol := svc.Protocol, SnatIP := svc.SnatIP }

/-- Modelled from the spec: one SnatRule per configured backend of each
service with `full_nat` true, independent of any health state. -/
def collectSNATRules (configs : List ServiceConfig) : List SNATRule :=
  configs.flatMap (fun svc =>
    if svc.FullNAT then svc.Backends.filterMap (snatRuleOfBackend svc)
    else [])

/-- Modelled from the spec: the current reconciler runs the pass of
`runReconcile` and, when the desired state was built, calls the SNAT
manager's `Reconcile` once with all collected rules (spec 4.5 steps 1 and
5); a build failure aborts the pass before any SNAT call. The second
component lists the SNAT `Reconcile` invocations of the pass, each with its
rule set. -/
def runReconcileWithSnat (isHealthy : String → Bool) (managed0 : List ServiceKey)
    (k0 : Kernel) (configs : List ServiceConfig) :
    PassState × List (List SNATRule) :=
  let st := runReconcile isHealthy managed0 k0 configs
  match buildDesiredState isHealthy configs with
  | .error _ => (st, [])
  | .ok _ => (st, [collectSNATRules configs])

/-! ## Package healthcheck (src/pkg/healthcheck/manager.go, checker.go,
src/unnamed/part_007)

The per-backend state machine is embedded as a pure step function on
`BackendStatus`; a probe result is `true` for a failed check (Go passes the
probe error, nil meaning success). The returned flag is whether the step
fires the `onChange` callback (Go fires it exactly when the health state
changed and a callback is registered; the embedding assumes a registered
callback, as in the daemon). Probe goroutines, timers and the cancel handles
are concurrency scaffolding with no bearing on the claims about this state
machine and are not modelled. -/

/-- Health state of a single tracked backend (Go `backendStatus`, without
the address and the cancel handle). -/
structure BackendStatus where
  healthy : Bool
  consecutiveFails : Int
  consecutiveOK : Int
deriving DecidableEq

/-- Initial state of a newly tracked backend
(Go `startBackendCheckLocked`): healthy with zero counters. -/
def initialBackendStatus : BackendStatus :=
  { healthy := true, consecutiveFails := 0, consecutiveOK := 0 }

/-- Go `Manager.handleCheckResult` on one tracked backend: update counters,
flip the state at the thresholds, and report whether the callback fires. -/
def handleCheckResult (st : BackendStatus) (checkFailed : Bool)
    (failCount riseCount : Int) : BackendStatus × Bool :=
  let st1 :=
    if checkFailed then
      let fails := st.consecutiveFails + 1
      let healthy1 := if st.healthy ∧ fails ≥ failCount then false else st.healthy
      { healthy := healthy1, consecutiveFails := fails, consecutiveOK := 0 }
    else
      let oks := st.consecutiveOK + 1
      let healthy1 := if ¬ st.healthy ∧ oks ≥ riseCount then true else st.healthy
      { healthy := healthy1, consecutiveFails := 0, consecutiveOK := oks }
  (st1, ¬ st.healthy = st1.healthy)

/-- Run a sequence of probe results through the state machine, counting the
callback invocations. -/
def runResults (failCount riseCount : Int) :
    BackendStatus → List Bool → BackendStatus × Nat
  | st, [] => (st, 0)
  | st, r :: rest =>
    let (st1, fired) := handleCheckResult st r failCount riseCount
    let (stFin, n) := runResults failCount riseCount st1 rest
    (stFin, (if fired then 1 else 0) + n)

/-- The health states traversed by a result sequence, starting state
included. -/
def statesOf (failCount riseCount : Int) :
    BackendStatus → List Bool → List BackendStatus
  | st, [] => [st]
  | st, r :: rest =>
    st :: statesOf failCount riseCount
      (handleCheckResult st r failCount riseCount).1 rest

/-- Number of Healthy/Unhealthy transitions along a list of states. -/
def countTransitions : List BackendStatus → Nat
  | [] => 0
  | [_] => 0
  | a :: b :: rest =>
    (if ¬ a.healthy = b.healthy then 1 else 0) + countTransitions (b :: rest)

/-- A probe checker as constructed by the manager (Go `Checker`
implementations `TCPChecker` and `HTTPChecker`, by their constructor
arguments). -/
inductive CheckerModel where
  | tcp (timeout : Int)
  | http (timeout : Int) (path : String) (expectedStatus : Int)
deriving DecidableEq

/-- Per-service health check parameters held by the manager
(Go `serviceCheckConfig`; the checker is absent for a disabled service,
whose zero value has a nil checker). -/
structure ServiceCheckConfig where
  checker : Option CheckerModel
  interval : Int
  failCount : Int
  riseCount : Int
  enabled : Bool
deriving DecidableEq

/-- The `serviceCheckConfig` that `Manager.UpdateTargets` stores for a
service with health checks enabled: always a TCP checker with the service's
timeout (the Go source constructs `NewTCPChecker` unconditionally). -/
def mkEnabledServiceCheck (hc : HealthCheckConfig) : ServiceCheckConfig :=
  { checker := some (.tcp hc.GetTimeout), interval := hc.GetInterval,
    failCount := hc.GetFailCount, riseCount := hc.GetRiseCount, enabled := true }

/-- The `serviceCheckConfig` stored for a service with health checks
disabled: the zero value with `enabled` false. -/
def mkDisabledServiceCheck : ServiceCheckConfig :=
  { checker := none, interval := 0, failCount := 0, riseCount := 0, enabled := false }

/-- Per-service loop of one `Manager.UpdateTargets` call, writing the
services map keyed by service name. -/
def updateTargetsServicesGo :
    List ServiceConfig → List (String × ServiceCheckConfig) →
    List (String × ServiceCheckConfig)
  | [], m => m
  | svcCfg :: rest, m =>
    if ¬ svcCfg.HealthCheck.IsEnabled then
      updateTargetsServicesGo rest (ainsert m svcCfg.Name mkDisabledServiceCheck)
    else
      updateTargetsServicesGo rest (ainsert m svcCfg.Name (mkEnabledServiceCheck svcCfg.HealthCheck))

/-- The services map written by one `Manager.UpdateTargets` call over a
configuration (the per-backend goroutine bookkeeping of the call is not
modelled). -/
def updateTargetsServices (configs : List ServiceConfig) :
    List (String × ServiceCheckConfig) :=
  updateTargetsServicesGo configs []

/-! ## Concrete fixtures used by witnesses and counterexamples -/

/-- Whether an Except value is a success. -/
def isOkE {α : Type} (x : Except String α) : Bool :=
  match x with
  | .ok _ => true
  | .error _ => false

/-- A health check section with checks disabled. -/
def hcOff : HealthCheckConfig :=
  { Enabled := some false, Type_ := "", Interval := "", Timeout := "", FailCount := 0, RiseCount := 0, HTTPPath := "", HTTPExpectedStatus := 0 }

/-- A health check section with checks enabled and all defaults. -/
def hcOn : HealthCheckConfig := { hcOff with Enabled := some true }

/-- A health check section with checks enabled and type "http". -/
def hcHttp : HealthCheckConfig := { hcOn with Type_ := "http" }

/-- A plain TCP service with one backend and health checks off. -/
def svc1 : ServiceConfig :=
  { Name := "svc1", Listen := "10.0.0.1:80", Protocol := "tcp", Scheduler := "rr", FullNAT := false, SnatIP := "", HealthCheck := hcOff, Backends := [{ Address := "192.168.1.1:8080", Weight := 5 }] }

/-- A service with an HTTP-type health check. -/
def svcHttp : ServiceConfig :=
  { svc1 with Name := "web", HealthCheck := hcHttp }

/-- The health view in which every backend is healthy (every address is
unknown to the monitor, hence healthy by default). -/
def allHealthy : String → Bool := fun _ => true

/-- A configuration whose listen port is 70000, outside 1 to 65535. -/
def cfg70000 : Config :=
  { Services := [{ Name := "s", Listen := "10.0.0.1:70000", Protocol := "tcp", Scheduler := "rr", FullNAT := false, SnatIP := "", HealthCheck := hcOff, Backends := [{ Address := "192.168.1.1:80", Weight := 1 }] }] }

/-- A service whose listen address has no port, so conversion fails. -/
def svcBadListen : ServiceConfig := { svc1 with Name := "bad", Listen := "10.0.0.1" }

/-- A full-NAT UDP service with two backends and an SNAT source address. -/
def svcNat : ServiceConfig :=
  { svc1 with Name := "dns", Listen := "10.0.0.1:53", Protocol := "udp", FullNAT := true, SnatIP := "10.0.0.1", Backends := [{ Address := "192.168.1.1:53", Weight := 1 }, { Address := "192.168.1.2:53", Weight := 1 }] }

/-- Successful service creations recorded in a pass trace. -/
def successfulCreates (tr : List TraceOp) : List ServiceKey :=
  tr.filterMap (fun op =>
    match op with
    | .createSvc k true => some k
    | _ => none)

/-- Successful service deletions recorded in a pass trace. -/
def successfulDeletes (tr : List TraceOp) : List ServiceKey :=
  tr.filterMap (fun op =>
    match op with
    | .deleteSvc k true => some k
    | _ => none)

/-- Correspondence between a stored destination map and a desired
destination map under which the destination diff is a no-op: same keys and
equal weights. -/
def DestsMatch (m dm : List (DestinationKey × Destination)) : Prop :=
  (∀ dk : DestinationKey, (alookup m dk).isSome = (alookup dm dk).isSome) ∧
  (∀ dk md dd, alookup m dk = some md → alookup dm dk = some dd →
    md.Weight = dd.Weight)

/-- The destination endpoint a backend configuration denotes, when its
address converts. -/
def backendDestKey (b : BackendConfig) : Option DestinationKey :=
  match ConfigToIPVSDestination b with
  | .error _ => none
  | .ok dst => some { Address := dst.Address, Port := dst.Port }

/-- The kernel service record of `svc1`. -/
def svc1Record : Service :=
  { Address := "10.0.0.1", Protocol := 6, Port := 80, SchedName := "rr", Netmask := 0xFFFFFFFF, AddressFamily := 2 }

/-- The service key of `svc1`. -/
def svc1Key : ServiceKey := { Address := "10.0.0.1", Port := 80, Protocol := 6 }

/-- A starting table already holding a foreign copy of the `svc1` service
(as left, for example, by an earlier one-shot run of the same
configuration started with an empty managed set). -/
def kernelForeign : Kernel :=
  { services := [(svc1Key, svc1Record)], destinations := [(svc1Key, [])] }

/-- A service listing two spellings of the same backend endpoint: the port
strings "80" and "+80" both parse to 80. -/
def svcAlias : ServiceConfig :=
  { Name := "alias", Listen := "10.0.0.2:90", Protocol := "tcp", Scheduler := "rr", FullNAT := false, SnatIP := "", HealthCheck := hcOn, Backends := [{ Address := "192.168.1.1:80", Weight := 1 }, { Address := "192.168.1.1:+80", Weight := 1 }] }

/-- The health view in which only the "+80" spelling is unhealthy. -/
def aliasHealth : String → Bool := fun a => ¬ a = "192.168.1.1:+80"

/-- What the destination-level loops may change: only the destination map at
one service key, destination trace entries, and collected errors; services,
the managed set and other destination entries are untouched. -/
def DstShape (svcKey : ServiceKey) (st st' : PassState) : Prop :=
  st'.kernel.services = st.kernel.services ∧
  st'.managed = st.managed ∧
  (∀ q, ¬ q = svcKey →
    alookup st'.kernel.destinations q = alookup st.kernel.destinations q) ∧
  (∃ δ, st'.trace = st.trace ++ δ ∧
    successfulCreates δ = [] ∧ successfulDeletes δ = []) ∧
  (∃ δ, st'.errs = st.errs ++ δ)

/-- The body of one iteration of the service create/update loop, named for
the proofs below; `serviceCreateUpdate` on a cons is this step followed by
the loop on the rest. -/
def scuStep (actualMap : List (ServiceKey × Service)) (key : ServiceKey)
    (desired : DesiredService) (st : PassState) : PassState :=
  match alookup actualMap key with
  | none =>
    match st.kernel.newService desired.service with
    | .error e => { st with errs := st.errs ++ [e], trace := st.trace ++ [.createSvc key false] }
    | .ok k1 =>
      reconcileDestinations
        { st with kernel := k1, managed := minsert st.managed key, trace := st.trace ++ [.createSvc key true] } desired
  | some actual =>
    if ¬ actual.SchedName = desired.service.SchedName then
      match st.kernel.updateService desired.service with
      | .error e => { st with errs := st.errs ++ [e], trace := st.trace ++ [.updateSvc key false] }
      | .ok k1 =>
        reconcileDestinations
          { st with kernel := k1, trace := st.trace ++ [.updateSvc key true] } desired
    else reconcileDestinations st desired

/-- The body of one iteration of the service deletion loop. -/
def sdStep (desiredMap : List (ServiceKey × DesiredService)) (key : ServiceKey)
    (actual : Service) (st : PassState) : PassState :=
  match alookup desiredMap key with
  | some _ => st
  | none =>
    match st.kernel.delService actual with
    | .error e => { st with errs := st.errs ++ [e], trace := st.trace ++ [.deleteSvc key false] }
    | .ok k1 => { st with kernel := k1, managed := merase st.managed key, trace := st.trace ++ [.deleteSvc key true] }

/-- The desired map the builder computes for `svcAlias` when every backend
is healthy. -/
def dmAlias : List (ServiceKey × DesiredService) :=
  match buildDesiredState allHealthy [svcAlias] with
  | .ok l => l
  | .error _ => []

/-- The single desired entry of `dmAlias`. -/
def pAlias : ServiceKey × DesiredService :=
  match dmAlias with
  | p :: _ => p
  | [] => (svc1Key, { service := svc1Record, destinations := [], config := svc1 })

/-- The stored destination a kernel table holds for a service key and a
destination key: the composed lookup through both map levels. -/
def lookupDest (k : Kernel) (key : ServiceKey) (dk : DestinationKey) :
    Option Destination :=
  match alookup k.destinations key with
  | none => none
  | some m => alookup m dk

/-! ## Lemmas about association lists -/

theorem alookup_ainsert {α β : Type} [DecidableEq α] (l : List (α × β)) (k x : α) (v : β) :
    alookup (ainsert l k v) x = if k = x then some v else alookup l x := by
  induction l with
  | nil => simp [ainsert, alookup]
  | cons p t ih =>
    obtain ⟨a, b⟩ := p
    by_cases hak : a = k
    · subst hak
      by_cases hax : a = x
      · simp [ainsert, alookup, hax]
      · simp [ainsert, alookup, hax, fun h => hax (h : a = x)]
    · by_cases hax : a = x
      · subst hax
        have hk : ¬ k = a := fun h => hak h.symm
        simp [ainsert, alookup, hak, hk]
      · simp [ainsert, alookup, hak, hax, ih]

theorem alookup_aerase_ne {α β : Type} [DecidableEq α] (l : List (α × β)) (k x : α)
    (h : ¬ k = x) : alookup (aerase l k) x = alookup l x := by
  induction l with
  | nil => rfl
  | cons p t ih =>
    obtain ⟨a, b⟩ := p
    by_cases hak : a = k
    · subst hak
      have hax : ¬ a = x := fun hx => h hx
      simp [aerase, alookup, hax]
    · simp only [aerase, if_neg hak, alookup]
      by_cases hax : a = x
      · simp [hax]
      · simp [hax, ih]

theorem alookup_mem {α β : Type} [DecidableEq α] {l : List (α × β)} {x : α} {v : β}
    (h : alookup l x = some v) : (x, v) ∈ l := by
  induction l with
  | nil => simp [alookup] at h
  | cons p t ih =>
    obtain ⟨a, b⟩ := p
    by_cases hax : a = x
    · subst hax
      rw [alookup, if_pos rfl] at h
      injection h with hbv
      subst hbv
      exact List.mem_cons_self _ _
    · rw [alookup, if_neg hax] at h
      exact List.mem_cons_of_mem _ (ih h)

theorem alookup_isSome_iff_mem_akeys {α β : Type} [DecidableEq α] (l : List (α × β)) (x : α) :
    (alookup l x).isSome = true ↔ x ∈ akeys l := by
  induction l with
  | nil => simp [alookup, akeys]
  | cons p t ih =>
    obtain ⟨a, b⟩ := p
    by_cases hax : a = x
    · subst hax
      simp [alookup, akeys]
    · simp only [alookup, if_neg hax, akeys, List.map_cons, List.mem_cons]
      rw [akeys] at ih
      rw [ih]
      constructor
      · exact Or.inr
      · rintro (h | h)
        · exact absurd h.symm hax
        · exact h

theorem alookup_eq_none_iff {α β : Type} [DecidableEq α] (l : List (α × β)) (x : α) :
    alookup l x = none ↔ x ∉ akeys l := by
  rw [← alookup_isSome_iff_mem_akeys]
  cases alookup l x <;> simp

theorem ainsert_cons_pos {α β : Type} [DecidableEq α] (t : List (α × β)) (a : α) (b v : β) :
    ainsert ((a, b) :: t) a v = (a, v) :: t := by
  simp [ainsert]

theorem ainsert_cons_neg {α β : Type} [DecidableEq α] (t : List (α × β)) (a k : α)
    (b v : β) (h : ¬ a = k) : ainsert ((a, b) :: t) k v = (a, b) :: ainsert t k v := by
  simp [ainsert, h]

theorem akeys_ainsert {α β : Type} [DecidableEq α] (l : List (α × β)) (k : α) (v : β) (x : α) :
    x ∈ akeys (ainsert l k v) ↔ x = k ∨ x ∈ akeys l := by
  induction l with
  | nil => simp [ainsert, akeys]
  | cons p t ih =>
    obtain ⟨a, b⟩ := p
    by_cases hak : a = k
    · subst hak
      rw [ainsert_cons_pos]
      simp only [akeys, List.map_cons, List.mem_cons]
      tauto
    · rw [ainsert_cons_neg t a k b v hak]
      simp only [akeys, List.map_cons, List.mem_cons] at ih ⊢
      rw [ih]
      tauto

theorem akeys_ainsert_nodup {α β : Type} [DecidableEq α] (l : List (α × β)) (k : α) (v : β)
    (h : (akeys l).Nodup) : (akeys (ainsert l k v)).Nodup := by
  induction l with
  | nil => simp [ainsert, akeys]
  | cons p t ih =>
    obtain ⟨a, b⟩ := p
    simp only [akeys, List.map_cons, List.nodup_cons] at h
    by_cases hak : a = k
    · subst hak
      rw [ainsert_cons_pos]
      simp only [akeys, List.map_cons, List.nodup_cons]
      exact h
    · rw [ainsert_cons_neg t a k b v hak]
      simp only [akeys, List.map_cons, List.nodup_cons]
      refine ⟨fun hmem => ?_, ih h.2⟩
      rw [show (ainsert t k v).map Prod.fst = akeys (ainsert t k v) from rfl,
        akeys_ainsert] at hmem
      rcases hmem with h1 | h1
      · exact hak h1
      · exact h.1 h1

theorem akeys_aerase_sublist {α β : Type} [DecidableEq α] (l : List (α × β)) (k : α) :
    (akeys (aerase l k)).Sublist (akeys l) := by
  induction l with
  | nil => simp [aerase, akeys]
  | cons p t ih =>
    obtain ⟨a, b⟩ := p
    by_cases hak : a = k
    · subst hak
      simp only [aerase, if_pos rfl, akeys, List.map_cons]
      exact (List.sublist_cons_self _ _)
    · simp only [aerase, if_neg hak, akeys, List.map_cons]
      exact List.Sublist.cons₂ _ ih

theorem akeys_aerase_nodup {α β : Type} [DecidableEq α] (l : List (α × β)) (k : α)
    (h : (akeys l).Nodup) : (akeys (aerase l k)).Nodup :=
  (akeys_aerase_sublist l k).nodup h

theorem alookup_aerase_self {α β : Type} [DecidableEq α] (l : List (α × β)) (k : α)
    (h : (akeys l).Nodup) : alookup (aerase l k) k = none := by
  induction l with
  | nil => rfl
  | cons p t ih =>
    obtain ⟨a, b⟩ := p
    simp only [akeys, List.map_cons, List.nodup_cons] at h
    by_cases hak : a = k
    · subst hak
      simp only [aerase, if_pos rfl]
      rw [alookup_eq_none_iff]
      exact h.1
    · simp only [aerase, if_neg hak, alookup, if_neg hak]
      exact ih h.2

theorem alookup_append {α β : Type} [DecidableEq α] (l1 l2 : List (α × β)) (x : α) :
    alookup (l1 ++ l2) x =
      match alookup l1 x with
      | some v => some v
      | none => alookup l2 x := by
  induction l1 with
  | nil => simp [alookup]
  | cons p t ih =>
    obtain ⟨a, b⟩ := p
    by_cases hax : a = x
    · simp [alookup, hax]
    · simp [alookup, hax, ih]

theorem alookup_of_mem_nodup {α β : Type} [DecidableEq α] {l : List (α × β)} {x : α} {v : β}
    (hmem : (x, v) ∈ l) (h : (akeys l).Nodup) : alookup l x = some v := by
  induction l with
  | nil => simp at hmem
  | cons p t ih =>
    obtain ⟨a, b⟩ := p
    simp only [akeys, List.map_cons, List.nodup_cons] at h
    rcases List.mem_cons.mp hmem with h1 | h1
    · rw [show a = x from (congrArg Prod.fst h1.symm),
        show b = v from (congrArg Prod.snd h1.symm)]
      rw [alookup, if_pos rfl]
    · by_cases hax : a = x
      · subst hax
        exact absurd (List.mem_map_of_mem Prod.fst h1) h.1
      · rw [alookup, if_neg hax]
        exact ih h1 h.2

/-! ## Claim C3 and C7 support: monitor lemmas -/

theorem runResults_append (fc rc : Int) (st : BackendStatus) (l1 l2 : List Bool) :
    runResults fc rc st (l1 ++ l2) =
      ((runResults fc rc (runResults fc rc st l1).1 l2).1,
        (runResults fc rc st l1).2 + (runResults fc rc (runResults fc rc st l1).1 l2).2) := by
  induction l1 generalizing st with
  | nil => simp [runResults]
  | cons r rest ih =>
    simp only [List.cons_append, runResults, List.append_eq, ih, Prod.mk.injEq, true_and]
    omega

theorem handle_fail_fst (st : BackendStatus) (fc rc : Int) :
    (handleCheckResult st true fc rc).1 =
      { healthy :=
          if st.healthy = true ∧ st.consecutiveFails + 1 ≥ fc then false else st.healthy,
        consecutiveFails := st.consecutiveFails + 1, consecutiveOK := 0 } := rfl

theorem handle_ok_fst (st : BackendStatus) (fc rc : Int) :
    (handleCheckResult st false fc rc).1 =
      { healthy :=
          if ¬ st.healthy = true ∧ st.consecutiveOK + 1 ≥ rc then true else st.healthy,
        consecutiveFails := 0, consecutiveOK := st.consecutiveOK + 1 } := rfl

theorem runResults_singleton_fst (fc rc : Int) (st : BackendStatus) (r : Bool) :
    (runResults fc rc st [r]).1 = (handleCheckResult st r fc rc).1 := by
  simp [runResults]

theorem failRunGen (fc rc f k : Int) (hf : f < fc) (n : Nat) :
    (runResults fc rc { healthy := true, consecutiveFails := f, consecutiveOK := k }
        (List.replicate n true)).1 =
      { healthy := decide (f + n < fc), consecutiveFails := f + n,
        consecutiveOK := if n = 0 then k else 0 } := by
  induction n with
  | zero =>
    simp [runResults, hf]
  | succ m ih =>
    rw [List.replicate_succ', runResults_append, ih, runResults_singleton_fst,
      handle_fail_fst]
    simp only [BackendStatus.mk.injEq]
    refine ⟨?_, by push_cast; ring, by simp⟩
    by_cases h1 : f + (m : Int) < fc
    · have hd : decide (f + (m : Int) < fc) = true := decide_eq_true h1
      rw [hd]
      by_cases h2 : f + (m : Int) + 1 ≥ fc
      · rw [if_pos ⟨rfl, h2⟩]
        exact (decide_eq_false (by omega : ¬ (f + ((m + 1 : Nat) : Int) < fc))).symm
      · rw [if_neg (fun hc => h2 hc.2)]
        exact (decide_eq_true (by omega : f + ((m + 1 : Nat) : Int) < fc)).symm
    · have hd : decide (f + (m : Int) < fc) = false := decide_eq_false h1
      rw [hd, if_neg (fun hc => Bool.false_ne_true hc.1)]
      exact (decide_eq_false (by omega : ¬ (f + ((m + 1 : Nat) : Int) < fc))).symm

theorem riseRunGen (fc rc f k : Int) (hk : k < rc) (n : Nat) :
    (runResults fc rc { healthy := false, consecutiveFails := f, consecutiveOK := k }
        (List.replicate n false)).1 =
      { healthy := decide (rc ≤ k + n), consecutiveFails := if n = 0 then f else 0,
        consecutiveOK := k + n } := by
  induction n with
  | zero =>
    simp [runResults, not_le.mpr hk]
  | succ m ih =>
    rw [List.replicate_succ', runResults_append, ih, runResults_singleton_fst,
      handle_ok_fst]
    simp only [BackendStatus.mk.injEq]
    refine ⟨?_, by simp, by push_cast; ring⟩
    by_cases h1 : rc ≤ k + (m : Int)
    · have hd : decide (rc ≤ k + (m : Int)) = true := decide_eq_true h1
      rw [hd, if_neg (fun hc => hc.1 rfl)]
      exact (decide_eq_true (by omega : rc ≤ k + ((m + 1 : Nat) : Int))).symm
    · have hd : decide (rc ≤ k + (m : Int)) = false := decide_eq_false h1
      rw [hd]
      by_cases h2 : k + (m : Int) + 1 ≥ rc
      · rw [if_pos ⟨Bool.false_ne_true, h2⟩]
        exact (decide_eq_true (by omega : rc ≤ k + ((m + 1 : Nat) : Int))).symm
      · rw [if_neg (fun hc => h2 hc.2)]
        exact (decide_eq_false (by omega : ¬ rc ≤ k + ((m + 1 : Nat) : Int))).symm

theorem handle_snd (st : BackendStatus) (r : Bool) (fc rc : Int) :
    (handleCheckResult st r fc rc).2 =
      decide (¬ st.healthy = (handleCheckResult st r fc rc).1.healthy) := by
  cases r <;> rfl

theorem countTransitions_cons_statesOf (fc rc : Int) (a st : BackendStatus)
    (rs : List Bool) :
    countTransitions (a :: statesOf fc rc st rs) =
      (if ¬ a.healthy = st.healthy then 1 else 0) +
        countTransitions (statesOf fc rc st rs) := by
  cases rs with
  | nil => simp [statesOf, countTransitions]
  | cons r rest => simp [statesOf, countTransitions]

theorem runResults_counts_transitions (fc rc : Int) (st : BackendStatus)
    (rs : List Bool) :
    (runResults fc rc st rs).2 = countTransitions (statesOf fc rc st rs) := by
  induction rs generalizing st with
  | nil => simp [runResults, statesOf, countTransitions]
  | cons r rest ih =>
    simp only [runResults, statesOf]
    rw [countTransitions_cons_statesOf, ← ih]
    simp [handle_snd]

/-- Claim C3: for every tracked backend, starting from Healthy (with a zero
failure counter, as at registration or after a success), exactly
`fail_threshold` consecutive failed probes and not fewer flip the state to
Unhealthy; starting from Unhealthy (zero success counter), exactly
`rise_threshold` consecutive successes flip it back; and a single result of
the opposite kind zeroes the relevant consecutive counter. -/
theorem claim_C3_monitor_hysteresis (fc rc : Int) (hfc : 1 ≤ fc) (hrc : 1 ≤ rc) :
    (∀ st : BackendStatus, st.healthy = true → st.consecutiveFails = 0 →
      ∀ n : Nat,
        ((runResults fc rc st (List.replicate n true)).1.healthy = true ↔ (n : Int) < fc))
  ∧ (∀ st : BackendStatus, st.healthy = false → st.consecutiveOK = 0 →
      ∀ n : Nat,
        ((runResults fc rc st (List.replicate n false)).1.healthy = false ↔ (n : Int) < rc))
  ∧ (∀ st : BackendStatus,
      (handleCheckResult st true fc rc).1.consecutiveOK = 0
      ∧ (handleCheckResult st false fc rc).1.consecutiveFails = 0) := by
  refine ⟨fun st h1 h2 n => ?_, fun st h1 h2 n => ?_, fun st => ⟨rfl, rfl⟩⟩
  · have hst : st = { healthy := true, consecutiveFails := 0, consecutiveOK := st.consecutiveOK } := by
      cases st
      simp_all
    rw [hst, failRunGen fc rc 0 st.consecutiveOK (by omega) n]
    simp
  · have hst : st = { healthy := false, consecutiveFails := st.consecutiveFails, consecutiveOK := 0 } := by
      cases st
      simp_all
    rw [hst, riseRunGen fc rc st.consecutiveFails 0 (by omega) n]
    simp

/-- Claim C7: the monitor fires the onChange callback exactly when a probe
result flips the Healthy/Unhealthy state, and over any probe sequence the
number of callback invocations equals the number of state transitions. -/
theorem claim_C7_callback_per_transition (fc rc : Int) :
    (∀ (st : BackendStatus) (r : Bool),
      ((handleCheckResult st r fc rc).2 = true ↔
        ¬ st.healthy = (handleCheckResult st r fc rc).1.healthy))
  ∧ ∀ (st : BackendStatus) (rs : List Bool),
      (runResults fc rc st rs).2 = countTransitions (statesOf fc rc st rs) := by
  refine ⟨fun st r => ?_, fun st rs => runResults_counts_transitions fc rc st rs⟩
  rw [handle_snd]
  exact decide_eq_true_iff

/-- Witness for claim C3 with both thresholds 2: two consecutive failures
from the initial state flip to Unhealthy, two successes flip back, and one
opposite result zeroes the relevant counter. -/
theorem claim_C3_monitor_hysteresis_witness :
    ((runResults 2 2 initialBackendStatus (List.replicate 2 true)).1.healthy = true ↔
      (2 : Int) < 2)
  ∧ ((runResults 2 2 { healthy := false, consecutiveFails := 2, consecutiveOK := 0 }
        (List.replicate 2 false)).1.healthy = false ↔ (2 : Int) < 2)
  ∧ ((handleCheckResult initialBackendStatus true 2 2).1.consecutiveOK = 0
      ∧ (handleCheckResult initialBackendStatus false 2 2).1.consecutiveFails = 0) :=
  ⟨(claim_C3_monitor_hysteresis 2 2 (by decide) (by decide)).1 initialBackendStatus rfl rfl 2,
   (claim_C3_monitor_hysteresis 2 2 (by decide) (by decide)).2.1
     { healthy := false, consecutiveFails := 2, consecutiveOK := 0 } rfl rfl 2,
   (claim_C3_monitor_hysteresis 2 2 (by decide) (by decide)).2.2 initialBackendStatus⟩

/-! ## Claim C9: UpdateTargets always builds a TCP checker -/

theorem updateTargetsGo_lookup (configs : List ServiceConfig)
    (acc : List (String × ServiceCheckConfig)) (name : String) (c : ServiceCheckConfig)
    (h : alookup (updateTargetsServicesGo configs acc) name = some c) :
    alookup acc name = some c ∨
      ∃ svcCfg ∈ configs, svcCfg.Name = name ∧
        ((¬ svcCfg.HealthCheck.IsEnabled = true ∧ c = mkDisabledServiceCheck) ∨
         (svcCfg.HealthCheck.IsEnabled = true ∧
           c = mkEnabledServiceCheck svcCfg.HealthCheck)) := by
  induction configs generalizing acc with
  | nil => exact Or.inl h
  | cons s rest ih =>
    rw [updateTargetsServicesGo] at h
    by_cases hs : s.HealthCheck.IsEnabled = true
    · rw [if_neg (fun hn => hn hs)] at h
      rcases ih _ h with h1 | ⟨svcCfg, hm, hrest⟩
      · rw [alookup_ainsert] at h1
        by_cases hname : s.Name = name
        · rw [if_pos hname] at h1
          injection h1 with h1
          exact Or.inr ⟨s, List.mem_cons_self _ _, hname, Or.inr ⟨hs, h1.symm⟩⟩
        · rw [if_neg hname] at h1
          exact Or.inl h1
      · exact Or.inr ⟨svcCfg, List.mem_cons_of_mem _ hm, hrest⟩
    · rw [if_pos hs] at h
      rcases ih _ h with h1 | ⟨svcCfg, hm, hrest⟩
      · rw [alookup_ainsert] at h1
        by_cases hname : s.Name = name
        · rw [if_pos hname] at h1
          injection h1 with h1
          exact Or.inr ⟨s, List.mem_cons_self _ _, hname, Or.inl ⟨hs, h1.symm⟩⟩
        · rw [if_neg hname] at h1
          exact Or.inl h1
      · exact Or.inr ⟨svcCfg, List.mem_cons_of_mem _ hm, hrest⟩

/-- Claim C9: for a service with health checks enabled, `UpdateTargets`
always builds a TCP-connect checker carrying the service's timeout, even
when the configured health-check type is "http"; the HTTP checker and its
parameters are never consulted. -/
theorem claim_C9_update_targets_tcp_only :
    (∀ hc : HealthCheckConfig, hc.GetType = "http" →
      (mkEnabledServiceCheck hc).checker = some (.tcp hc.GetTimeout))
  ∧ (∀ (configs : List ServiceConfig) (name : String) (c : ServiceCheckConfig),
      alookup (updateTargetsServices configs) name = some c → c.enabled = true →
      ∃ svcCfg ∈ configs, svcCfg.Name = name ∧ svcCfg.HealthCheck.IsEnabled = true ∧
        c.checker = some (.tcp svcCfg.HealthCheck.GetTimeout)) := by
  refine ⟨fun hc _ => rfl, fun configs name c h hen => ?_⟩
  rcases updateTargetsGo_lookup configs [] name c h with h1 | ⟨svcCfg, hm, hname, hcase⟩
  · exact absurd h1 (by rw [show alookup ([] : List (String × ServiceCheckConfig)) name = none from rfl]; exact fun hx => Option.noConfusion hx)
  · rcases hcase with ⟨_, hdis⟩ | ⟨hen2, hc2⟩
    · rw [hdis] at hen
      exact absurd hen (by exact fun hx => Bool.false_ne_true hx)
    · exact ⟨svcCfg, hm, hname, hen2, by rw [hc2]; rfl⟩

/-- Witness for claim C9 on a service whose health check type is "http":
the stored checker is the TCP checker with the service timeout. -/
theorem claim_C9_update_targets_tcp_only_witness :
    ((mkEnabledServiceCheck hcHttp).checker = some (.tcp hcHttp.GetTimeout))
  ∧ ∃ svcCfg ∈ [svcHttp], svcCfg.Name = "web" ∧ svcCfg.HealthCheck.IsEnabled = true ∧
      (mkEnabledServiceCheck hcHttp).checker =
        some (.tcp svcCfg.HealthCheck.GetTimeout) :=
  ⟨(claim_C9_update_targets_tcp_only).1 hcHttp rfl,
   (claim_C9_update_targets_tcp_only).2 [svcHttp] "web" (mkEnabledServiceCheck hcHttp)
     (by decide) rfl⟩

/-! ## Claim C8: what validation enforces on ports -/

theorem validateBackends_ok_ports (svcName : String) :
    ∀ (bs : List BackendConfig) (bset : List String),
    isOkE (validateBackends svcName bs bset) = true →
    ∀ b ∈ bs, ∃ host port, splitHostPort b.Address = some (host, port) ∧
      ¬ parseIP host = none ∧ ¬ port = "" ∧ ¬ port = "0" := by
  intro bs
  induction bs with
  | nil =>
    intro bset h b hb
    simp at hb
  | cons b0 rest ih =>
    intro bset h b hb
    rw [validateBackends] at h
    split at h
    · simp [isOkE] at h
    · split at h
      · simp [isOkE] at h
      · rename_i host port heq
        split at h
        · simp [isOkE] at h
        · rename_i hip
          split at h
          · simp [isOkE] at h
          · rename_i hport
            split at h
            · simp [isOkE] at h
            · split at h
              · simp [isOkE] at h
              · rcases List.mem_cons.mp hb with rfl | hmem
                · exact ⟨host, port, heq, hip,
                    fun h1 => hport (Or.inl h1), fun h1 => hport (Or.inr h1)⟩
                · exact ih _ h b hmem

theorem validateServices_ok_ports :
    ∀ (l : List ServiceConfig) (ns ls : List String),
    isOkE (validateServices l ns ls) = true →
    ∀ svc ∈ l,
      (∃ host port, splitHostPort svc.Listen = some (host, port) ∧
        ¬ parseIP host = none ∧ ¬ port = "" ∧ ¬ port = "0") ∧
      ∀ b ∈ svc.Backends, ∃ host port, splitHostPort b.Address = some (host, port) ∧
        ¬ parseIP host = none ∧ ¬ port = "" ∧ ¬ port = "0" := by
  intro l
  induction l with
  | nil =>
    intro ns ls h svc hm
    simp at hm
  | cons s rest ih =>
    intro ns ls h svc hm
    rw [validateServices] at h
    by_cases h1 : s.Name = ""
    · rw [if_pos h1] at h
      simp [isOkE] at h
    · rw [if_neg h1] at h
      by_cases h2 : ns.contains s.Name = true
      · rw [if_pos h2] at h
        simp [isOkE] at h
      · rw [if_neg h2] at h
        cases hsplit : splitHostPort s.Listen with
        | none =>
          simp [hsplit, isOkE] at h
        | some hp =>
          obtain ⟨host, port⟩ := hp
          simp only [hsplit] at h
          by_cases h3 : parseIP host = none
          · rw [if_pos h3] at h
            simp [isOkE] at h
          · rw [if_neg h3] at h
            by_cases h4 : port = "" ∨ port = "0"
            · rw [if_pos h4] at h
              simp [isOkE] at h
            · rw [if_neg h4] at h
              by_cases h5 : validProtocols.contains (normalizeProtocol s) = true
              · rw [if_neg (fun hn => hn h5)] at h
                by_cases h6 : ls.contains (s.Listen ++ "/" ++ normalizeProtocol s) = true
                · rw [if_pos h6] at h
                  simp [isOkE] at h
                · rw [if_neg h6] at h
                  by_cases h7 : validSchedulers.contains s.Scheduler = true
                  · rw [if_neg (fun hn => hn h7)] at h
                    cases hgate : healthCheckGate s with
                    | error e =>
                      simp [hgate, isOkE] at h
                    | ok u =>
                      cases u
                      simp only [hgate] at h
                      by_cases h8 : s.Backends = []
                      · rw [if_pos h8] at h
                        simp [isOkE] at h
                      · rw [if_neg h8] at h
                        cases hvb : validateBackends s.Name s.Backends [] with
                        | error e =>
                          simp [hvb, isOkE] at h
                        | ok u2 =>
                          cases u2
                          simp only [hvb] at h
                          cases hrec : validateServices rest (s.Name :: ns)
                              ((s.Listen ++ "/" ++ normalizeProtocol s) :: ls) with
                          | error e =>
                            simp [hrec, isOkE] at h
                          | ok out =>
                            rcases List.mem_cons.mp hm with rfl | hmem
                            · exact ⟨⟨host, port, hsplit, h3,
                                fun hx => h4 (Or.inl hx), fun hx => h4 (Or.inr hx)⟩,
                                validateBackends_ok_ports svc.Name svc.Backends []
                                  (by rw [hvb]; rfl)⟩
                            · exact ih _ _ (by rw [hrec]; rfl) svc hmem
                  · rw [if_pos h7] at h
                    simp [isOkE] at h
              · rw [if_pos h5] at h
                simp [isOkE] at h

/-- Counterexample to claim C8 as stated: validation accepts a configuration
whose listen port is 70000, which is outside 1 to 65535 (and which the key
construction then truncates to 70000 mod 65536 = 4464), so an out-of-range
port does not block startup. -/
theorem claim_C8_counterexample :
    isOkE (Validate cfg70000) = true
  ∧ splitHostPort "10.0.0.1:70000" = some ("10.0.0.1", "70000")
  ∧ atoi "70000" = some 70000
  ∧ ¬ (70000 : Int) ≤ 65535
  ∧ (ServiceKeyFromConfig { Name := "s", Listen := "10.0.0.1:70000", Protocol := "tcp", Scheduler := "rr", FullNAT := false, SnatIP := "", HealthCheck := hcOff, Backends := [{ Address := "192.168.1.1:80", Weight := 1 }] }).toOption =
      some { Address := "10.0.0.1", Port := 4464, Protocol := 6 } := by
  refine ⟨by decide, by decide, by decide, by decide, by decide⟩

/-- Claim C8, amended: validation checks of a listen or backend port are
only that the address splits as host:port, the host parses as an IP, and
the port string is neither empty nor the literal "0"; any other port string
is accepted, so ports outside 1 to 65535 are not rejected. -/
theorem claim_C8_port_validation (cfg : Config)
    (h : isOkE (Validate cfg) = true) :
    ∀ svc ∈ cfg.Services,
      (∃ host port, splitHostPort svc.Listen = some (host, port) ∧
        ¬ parseIP host = none ∧ ¬ port = "" ∧ ¬ port = "0") ∧
      ∀ b ∈ svc.Backends, ∃ host port, splitHostPort b.Address = some (host, port) ∧
        ¬ parseIP host = none ∧ ¬ port = "" ∧ ¬ port = "0" := by
  rw [Validate] at h
  split at h
  · simp [isOkE] at h
  · split at h
    · simp [isOkE] at h
    · rename_i out hrec
      exact validateServices_ok_ports cfg.Services [] [] (by rw [hrec]; rfl)

/-- Witness for the amended claim C8 on a valid configuration. -/
theorem claim_C8_port_validation_witness :
    (∃ host port, splitHostPort svc1.Listen = some (host, port) ∧
      ¬ parseIP host = none ∧ ¬ port = "" ∧ ¬ port = "0") ∧
    ∀ b ∈ svc1.Backends, ∃ host port, splitHostPort b.Address = some (host, port) ∧
      ¬ parseIP host = none ∧ ¬ port = "" ∧ ¬ port = "0" :=
  claim_C8_port_validation { Services := [svc1] } (by decide) svc1 (by decide)

/-! ## Claim C10: a build failure aborts the pass before any kernel access -/

theorem buildGo_error (isHealthy : String → Bool) :
    ∀ (cs : List ServiceConfig) (acc : List (ServiceKey × DesiredService)),
    (∃ svc ∈ cs, ∃ e, buildOne isHealthy svc = .error e) →
    ∃ e2, buildDesiredStateGo isHealthy cs acc = .error e2 := by
  intro cs
  induction cs with
  | nil =>
    rintro acc ⟨svc, hm, _⟩
    simp at hm
  | cons c rest ih =>
    rintro acc ⟨svc, hm, e, he⟩
    rw [buildDesiredStateGo]
    cases hc : buildOne isHealthy c with
    | error e1 => exact ⟨e1, rfl⟩
    | ok kd =>
      obtain ⟨key, ds⟩ := kd
      simp only [hc]
      apply ih
      rcases List.mem_cons.mp hm with rfl | hmem
      · rw [hc] at he
        exact absurd he (by simp)
      · exact ⟨svc, hmem, e, he⟩

/-- Claim C10: if converting any single service of the desired configuration
fails (invalid listen address or IP, unparsable port, unsupported protocol,
or invalid converted backend), Reconcile returns an error before reading or
writing the LB table: the kernel table and the managed set are unchanged and
no mutating call is issued, also for the other valid services of the same
configuration. -/
theorem claim_C10_build_failure_aborts_pass (isHealthy : String → Bool)
    (managed0 : List ServiceKey) (k0 : Kernel) (configs : List ServiceConfig)
    (hfail : ∃ svc ∈ configs, ∃ e, buildOne isHealthy svc = .error e) :
    isOkE (runReconcile isHealthy managed0 k0 configs).result = false
  ∧ (runReconcile isHealthy managed0 k0 configs).kernel = k0
  ∧ (runReconcile isHealthy managed0 k0 configs).managed = managed0
  ∧ (runReconcile isHealthy managed0 k0 configs).trace = [] := by
  obtain ⟨e2, he⟩ := buildGo_error isHealthy configs [] hfail
  have hb : buildDesiredState isHealthy configs = .error e2 := he
  simp only [runReconcile, hb]
  refine ⟨?_, ?_, ?_, ?_⟩ <;> trivial

/-- Witness for claim C10: a configuration mixing one unconvertible service
with one valid service yields an error and leaves the table untouched. -/
theorem claim_C10_build_failure_aborts_pass_witness :
    isOkE (runReconcile allHealthy [] Kernel.empty [svcBadListen, svc1]).result = false
  ∧ (runReconcile allHealthy [] Kernel.empty [svcBadListen, svc1]).kernel = Kernel.empty
  ∧ (runReconcile allHealthy [] Kernel.empty [svcBadListen, svc1]).managed = []
  ∧ (runReconcile allHealthy [] Kernel.empty [svcBadListen, svc1]).trace = [] :=
  claim_C10_build_failure_aborts_pass allHealthy [] Kernel.empty [svcBadListen, svc1]
    ⟨svcBadListen, List.mem_cons_self _ _, "invalid listen address 10.0.0.1", rfl⟩

/-! ## Claim C1: the SNAT rule set and the single SNAT reconcile call -/

/-- Claim C1: in a pass whose desired state builds, the reconciler calls the
SNAT manager Reconcile exactly once, with the rule set containing exactly
one rule per configured backend of each service with full_nat true,
independent of backend health (the health view does not enter the rule
computation), and no rules for services with full_nat false. -/
theorem claim_C1_snat_reconcile_once (isHealthy : String → Bool)
    (managed0 : List ServiceKey) (k0 : Kernel) (configs : List ServiceConfig)
    (hbuild : isOkE (buildDesiredState isHealthy configs) = true) :
    (runReconcileWithSnat isHealthy managed0 k0 configs).2 = [collectSNATRules configs]
  ∧ ∀ rule : SNATRule, rule ∈ collectSNATRules configs ↔
      ∃ svc ∈ configs, svc.FullNAT = true ∧
        ∃ b ∈ svc.Backends, snatRuleOfBackend svc b = some rule := by
  constructor
  · cases hb : buildDesiredState isHealthy configs with
    | error e =>
      rw [hb] at hbuild
      simp [isOkE] at hbuild
    | ok d =>
      simp only [runReconcileWithSnat, hb]
  · intro rule
    rw [collectSNATRules, List.mem_flatMap]
    constructor
    · rintro ⟨svc, hm, hr⟩
      by_cases hf : svc.FullNAT = true
      · rw [if_pos hf] at hr
        rw [List.mem_filterMap] at hr
        obtain ⟨b, hbm, hrb⟩ := hr
        exact ⟨svc, hm, hf, b, hbm, hrb⟩
      · rw [if_neg hf] at hr
        simp at hr
    · rintro ⟨svc, hm, hf, b, hbm, hrb⟩
      exact ⟨svc, hm, by rw [if_pos hf]; exact List.mem_filterMap.mpr ⟨b, hbm, hrb⟩⟩

/-- Witness for claim C1 on a full-NAT service. -/
theorem claim_C1_snat_reconcile_once_witness :
    (runReconcileWithSnat allHealthy [] Kernel.empty [svcNat]).2 =
      [collectSNATRules [svcNat]]
  ∧ ∀ rule : SNATRule, rule ∈ collectSNATRules [svcNat] ↔
      ∃ svc ∈ [svcNat], svc.FullNAT = true ∧
        ∃ b ∈ svc.Backends, snatRuleOfBackend svc b = some rule :=
  claim_C1_snat_reconcile_once allHealthy [] Kernel.empty [svcNat] (by decide)

/-! ## Further association-list lemmas -/

theorem mem_ainsert {α β : Type} [DecidableEq α] {l : List (α × β)} {k : α} {v : β}
    {p : α × β} (h : p ∈ ainsert l k v) : p = (k, v) ∨ p ∈ l := by
  induction l with
  | nil =>
    rw [ainsert] at h
    exact Or.inl (List.mem_singleton.mp h)
  | cons q t ih =>
    obtain ⟨a, b⟩ := q
    by_cases hak : a = k
    · subst hak
      rw [ainsert_cons_pos] at h
      rcases List.mem_cons.mp h with h1 | h1
      · exact Or.inl h1
      · exact Or.inr (List.mem_cons_of_mem _ h1)
    · rw [ainsert_cons_neg t a k b v hak] at h
      rcases List.mem_cons.mp h with h1 | h1
      · exact Or.inr (h1 ▸ List.mem_cons_self _ _)
      · rcases ih h1 with h2 | h2
        · exact Or.inl h2
        · exact Or.inr (List.mem_cons_of_mem _ h2)

theorem mem_aerase {α β : Type} [DecidableEq α] {l : List (α × β)} {k : α}
    {p : α × β} (h : p ∈ aerase l k) : p ∈ l := by
  induction l with
  | nil =>
    rw [aerase] at h
    exact h
  | cons q t ih =>
    obtain ⟨a, b⟩ := q
    by_cases hak : a = k
    · subst hak
      rw [aerase, if_pos rfl] at h
      exact List.mem_cons_of_mem _ h
    · rw [aerase, if_neg hak] at h
      rcases List.mem_cons.mp h with h1 | h1
      · exact h1 ▸ List.mem_cons_self _ _
      · exact List.mem_cons_of_mem _ (ih h1)

theorem akeys_append {α β : Type} (l1 l2 : List (α × β)) :
    akeys (l1 ++ l2) = akeys l1 ++ akeys l2 := by
  simp [akeys]

theorem alookup_append_self {α β : Type} [DecidableEq α] (l : List (α × β)) (k : α)
    (v : β) (h : alookup l k = none) : alookup (l ++ [(k, v)]) k = some v := by
  rw [alookup_append, h]
  simp [alookup]

theorem alookup_append_ne {α β : Type} [DecidableEq α] (l : List (α × β)) (k q : α)
    (v : β) (h : ¬ k = q) : alookup (l ++ [(k, v)]) q = alookup l q := by
  rw [alookup_append]
  cases hl : alookup l q with
  | some w => rfl
  | none => simp [alookup, h]

theorem ainsert_isSome {α β : Type} [DecidableEq α] (l : List (α × β)) (k q : α)
    (v : β) (hk : (alookup l k).isSome = true) :
    (alookup (ainsert l k v) q).isSome = (alookup l q).isSome := by
  rw [alookup_ainsert]
  by_cases hkq : k = q
  · subst hkq
    simp [hk]
  · rw [if_neg hkq]

/-! ## Kernel operation characterizations -/

theorem newService_ok {k k1 : Kernel} {svc : Service}
    (h : k.newService svc = .ok k1) :
    alookup k.services (makeFakeServiceKey svc) = none ∧
    k1.services = k.services ++ [(makeFakeServiceKey svc, svc)] ∧
    k1.destinations = k.destinations ++ [(makeFakeServiceKey svc, [])] := by
  simp only [Kernel.newService] at h
  cases hl : alookup k.services (makeFakeServiceKey svc) with
  | some s =>
    simp only [hl] at h
    exact Except.noConfusion h
  | none =>
    simp only [hl] at h
    injection h with h
    subst h
    exact ⟨rfl, rfl, rfl⟩

theorem updateService_ok {k k1 : Kernel} {svc : Service}
    (h : k.updateService svc = .ok k1) :
    (alookup k.services (makeFakeServiceKey svc)).isSome = true ∧
    k1.services = ainsert k.services (makeFakeServiceKey svc) svc ∧
    k1.destinations = k.destinations := by
  simp only [Kernel.updateService] at h
  cases hl : alookup k.services (makeFakeServiceKey svc) with
  | none =>
    simp only [hl] at h
    exact Except.noConfusion h
  | some s =>
    simp only [hl] at h
    injection h with h
    subst h
    exact ⟨rfl, rfl, rfl⟩

theorem delService_ok {k k1 : Kernel} {svc : Service}
    (h : k.delService svc = .ok k1) :
    (alookup k.services (makeFakeServiceKey svc)).isSome = true ∧
    k1.services = aerase k.services (makeFakeServiceKey svc) ∧
    k1.destinations = aerase k.destinations (makeFakeServiceKey svc) := by
  simp only [Kernel.delService] at h
  cases hl : alookup k.services (makeFakeServiceKey svc) with
  | none =>
    simp only [hl] at h
    exact Except.noConfusion h
  | some s =>
    simp only [hl] at h
    injection h with h
    subst h
    exact ⟨rfl, rfl, rfl⟩

theorem newDestination_ok {k k1 : Kernel} {svc : Service} {dst : Destination}
    (h : k.newDestination svc dst = .ok k1) :
    ∃ dstMap, alookup k.destinations (makeFakeServiceKey svc) = some dstMap ∧
      alookup dstMap (makeFakeDestinationKey dst) = none ∧
      k1.services = k.services ∧
      k1.destinations = ainsert k.destinations (makeFakeServiceKey svc)
        (dstMap ++ [(makeFakeDestinationKey dst, dst)]) := by
  simp only [Kernel.newDestination] at h
  cases hl : alookup k.destinations (makeFakeServiceKey svc) with
  | none =>
    simp only [hl] at h
    exact Except.noConfusion h
  | some dstMap =>
    simp only [hl] at h
    cases hd : alookup dstMap (makeFakeDestinationKey dst) with
    | some d0 =>
      simp only [hd] at h
      exact Except.noConfusion h
    | none =>
      simp only [hd] at h
      injection h with h
      subst h
      exact ⟨dstMap, rfl, hd, rfl, rfl⟩

theorem updateDestination_ok {k k1 : Kernel} {svc : Service} {dst : Destination}
    (h : k.updateDestination svc dst = .ok k1) :
    ∃ dstMap, alookup k.destinations (makeFakeServiceKey svc) = some dstMap ∧
      (alookup dstMap (makeFakeDestinationKey dst)).isSome = true ∧
      k1.services = k.services ∧
      k1.destinations = ainsert k.destinations (makeFakeServiceKey svc)
        (ainsert dstMap (makeFakeDestinationKey dst) dst) := by
  simp only [Kernel.updateDestination] at h
  cases hl : alookup k.destinations (makeFakeServiceKey svc) with
  | none =>
    simp only [hl] at h
    exact Except.noConfusion h
  | some dstMap =>
    simp only [hl] at h
    cases hd : alookup dstMap (makeFakeDestinationKey dst) with
    | none =>
      simp only [hd] at h
      exact Except.noConfusion h
    | some d0 =>
      simp only [hd] at h
      injection h with h
      subst h
      exact ⟨dstMap, rfl, by rw [hd]; rfl, rfl, rfl⟩

theorem delDestination_ok {k k1 : Kernel} {svc : Service} {dst : Destination}
    (h : k.delDestination svc dst = .ok k1) :
    ∃ dstMap, alookup k.destinations (makeFakeServiceKey svc) = some dstMap ∧
      (alookup dstMap (makeFakeDestinationKey dst)).isSome = true ∧
      k1.services = k.services ∧
      k1.destinations = ainsert k.destinations (makeFakeServiceKey svc)
        (aerase dstMap (makeFakeDestinationKey dst)) := by
  simp only [Kernel.delDestination] at h
  cases hl : alookup k.destinations (makeFakeServiceKey svc) with
  | none =>
    simp only [hl] at h
    exact Except.noConfusion h
  | some dstMap =>
    simp only [hl] at h
    cases hd : alookup dstMap (makeFakeDestinationKey dst) with
    | none =>
      simp only [hd] at h
      exact Except.noConfusion h
    | some d0 =>
      simp only [hd] at h
      injection h with h
      subst h
      exact ⟨dstMap, rfl, by rw [hd]; rfl, rfl, rfl⟩

theorem getDestinations_of_lookup (k : Kernel) (svc : Service)
    (dstMap : List (DestinationKey × Destination))
    (h : alookup k.destinations (makeFakeServiceKey svc) = some dstMap) :
    k.getDestinations svc = .ok (dstMap.map Prod.snd) := by
  simp only [Kernel.getDestinations, h]

/-! ## Representation invariant preservation -/

theorem sameDom_none {k : Kernel} (hwf : k.WF) {key : ServiceKey}
    (h : alookup k.services key = none) : alookup k.destinations key = none := by
  have hsd := hwf.sameDom key
  rw [h] at hsd
  cases hdl : alookup k.destinations key with
  | none => rfl
  | some m =>
    rw [hdl] at hsd
    simp at hsd

theorem newService_WF {k k1 : Kernel} {svc : Service} (hwf : k.WF)
    (h : k.newService svc = .ok k1) : k1.WF := by
  obtain ⟨hnone, hs, hd⟩ := newService_ok h
  have hnoneD := sameDom_none hwf hnone
  have hkeymem : makeFakeServiceKey svc ∉ akeys k.services :=
    (alookup_eq_none_iff _ _).mp hnone
  have hkeymemD : makeFakeServiceKey svc ∉ akeys k.destinations :=
    (alookup_eq_none_iff _ _).mp hnoneD
  constructor
  · rw [hs, akeys_append, List.nodup_append]
    exact ⟨hwf.svcNodup, List.nodup_singleton _,
      fun a ha hb => hkeymem (by rw [List.mem_singleton.mp hb] at ha; exact ha)⟩
  · rw [hd, akeys_append, List.nodup_append]
    exact ⟨hwf.dstNodup, List.nodup_singleton _,
      fun a ha hb => hkeymemD (by rw [List.mem_singleton.mp hb] at ha; exact ha)⟩
  · intro p hp
    rw [hs] at hp
    rcases List.mem_append.mp hp with h1 | h1
    · exact hwf.svcKeyed p h1
    · rw [List.mem_singleton.mp h1]
  · intro q hq
    rw [hd] at hq
    rcases List.mem_append.mp hq with h1 | h1
    · exact hwf.dstKeyed q h1
    · rw [List.mem_singleton.mp h1]
      intro p hp
      simp at hp
  · intro q hq
    rw [hd] at hq
    rcases List.mem_append.mp hq with h1 | h1
    · exact hwf.dstInnerNodup q h1
    · rw [List.mem_singleton.mp h1]
      simp [akeys]
  · intro key
    rw [hs, hd]
    by_cases hk : makeFakeServiceKey svc = key
    · subst hk
      rw [alookup_append_self _ _ _ hnone, alookup_append_self _ _ _ hnoneD]
      rfl
    · rw [alookup_append_ne _ _ _ _ hk, alookup_append_ne _ _ _ _ hk]
      exact hwf.sameDom key

theorem updateService_WF {k k1 : Kernel} {svc : Service} (hwf : k.WF)
    (h : k.updateService svc = .ok k1) : k1.WF := by
  obtain ⟨hsome, hs, hd⟩ := updateService_ok h
  constructor
  · rw [hs]
    exact akeys_ainsert_nodup _ _ _ hwf.svcNodup
  · rw [hd]
    exact hwf.dstNodup
  · intro p hp
    rw [hs] at hp
    rcases mem_ainsert hp with h1 | h1
    · rw [h1]
    · exact hwf.svcKeyed p h1
  · rw [hd]
    exact hwf.dstKeyed
  · rw [hd]
    exact hwf.dstInnerNodup
  · intro key
    rw [hs, hd, ainsert_isSome _ _ _ _ hsome]
    exact hwf.sameDom key

theorem delService_WF {k k1 : Kernel} {svc : Service} (hwf : k.WF)
    (h : k.delService svc = .ok k1) : k1.WF := by
  obtain ⟨hsome, hs, hd⟩ := delService_ok h
  constructor
  · rw [hs]
    exact akeys_aerase_nodup _ _ hwf.svcNodup
  · rw [hd]
    exact akeys_aerase_nodup _ _ hwf.dstNodup
  · intro p hp
    rw [hs] at hp
    exact hwf.svcKeyed p (mem_aerase hp)
  · intro q hq
    rw [hd] at hq
    exact hwf.dstKeyed q (mem_aerase hq)
  · intro q hq
    rw [hd] at hq
    exact hwf.dstInnerNodup q (mem_aerase hq)
  · intro key
    rw [hs, hd]
    by_cases hk : makeFakeServiceKey svc = key
    · subst hk
      rw [alookup_aerase_self _ _ hwf.svcNodup, alookup_aerase_self _ _ hwf.dstNodup]
      rfl
    · rw [alookup_aerase_ne _ _ _ hk, alookup_aerase_ne _ _ _ hk]
      exact hwf.sameDom key

theorem newDestination_WF {k k1 : Kernel} {svc : Service} {dst : Destination}
    (hwf : k.WF) (h : k.newDestination svc dst = .ok k1) : k1.WF := by
  obtain ⟨dstMap, hl, hdn, hs, hd⟩ := newDestination_ok h
  have hmem : (makeFakeServiceKey svc, dstMap) ∈ k.destinations := alookup_mem hl
  have hsome : (alookup k.destinations (makeFakeServiceKey svc)).isSome = true := by
    rw [hl]
    rfl
  constructor
  · rw [hs]
    exact hwf.svcNodup
  · rw [hd]
    exact akeys_ainsert_nodup _ _ _ hwf.dstNodup
  · rw [hs]
    exact hwf.svcKeyed
  · intro q hq
    rw [hd] at hq
    rcases mem_ainsert hq with h1 | h1
    · rw [h1]
      intro p hp
      rcases List.mem_append.mp hp with h2 | h2
      · exact hwf.dstKeyed _ hmem p h2
      · rw [List.mem_singleton.mp h2]
    · exact hwf.dstKeyed q h1
  · intro q hq
    rw [hd] at hq
    rcases mem_ainsert hq with h1 | h1
    · rw [h1]
      rw [show ((makeFakeServiceKey svc, dstMap ++ [(makeFakeDestinationKey dst, dst)]) :
          ServiceKey × List (DestinationKey × Destination)).2 =
          dstMap ++ [(makeFakeDestinationKey dst, dst)] from rfl]
      rw [akeys_append, List.nodup_append]
      exact ⟨hwf.dstInnerNodup _ hmem, List.nodup_singleton _,
        fun a ha hb => ((alookup_eq_none_iff _ _).mp hdn)
          (by rw [List.mem_singleton.mp hb] at ha; exact ha)⟩
    · exact hwf.dstInnerNodup q h1
  · intro key
    rw [hs, hd, ainsert_isSome _ _ _ _ hsome]
    exact hwf.sameDom key

theorem updateDestination_WF {k k1 : Kernel} {svc : Service} {dst : Destination}
    (hwf : k.WF) (h : k.updateDestination svc dst = .ok k1) : k1.WF := by
  obtain ⟨dstMap, hl, hdn, hs, hd⟩ := updateDestination_ok h
  have hmem : (makeFakeServiceKey svc, dstMap) ∈ k.destinations := alookup_mem hl
  have hsome : (alookup k.destinations (makeFakeServiceKey svc)).isSome = true := by
    rw [hl]
    rfl
  constructor
  · rw [hs]
    exact hwf.svcNodup
  · rw [hd]
    exact akeys_ainsert_nodup _ _ _ hwf.dstNodup
  · rw [hs]
    exact hwf.svcKeyed
  · intro q hq
    rw [hd] at hq
    rcases mem_ainsert hq with h1 | h1
    · rw [h1]
      intro p hp
      rcases mem_ainsert hp with h2 | h2
      · rw [h2]
      · exact hwf.dstKeyed _ hmem p h2
    · exact hwf.dstKeyed q h1
  · intro q hq
    rw [hd] at hq
    rcases mem_ainsert hq with h1 | h1
    · rw [h1]
      exact akeys_ainsert_nodup _ _ _ (hwf.dstInnerNodup _ hmem)
    · exact hwf.dstInnerNodup q h1
  · intro key
    rw [hs, hd, ainsert_isSome _ _ _ _ hsome]
    exact hwf.sameDom key

theorem delDestination_WF {k k1 : Kernel} {svc : Service} {dst : Destination}
    (hwf : k.WF) (h : k.delDestination svc dst = .ok k1) : k1.WF := by
  obtain ⟨dstMap, hl, hdn, hs, hd⟩ := delDestination_ok h
  have hmem : (makeFakeServiceKey svc, dstMap) ∈ k.destinations := alookup_mem hl
  have hsome : (alookup k.destinations (makeFakeServiceKey svc)).isSome = true := by
    rw [hl]
    rfl
  constructor
  · rw [hs]
    exact hwf.svcNodup
  · rw [hd]
    exact akeys_ainsert_nodup _ _ _ hwf.dstNodup
  · rw [hs]
    exact hwf.svcKeyed
  · intro q hq
    rw [hd] at hq
    rcases mem_ainsert hq with h1 | h1
    · rw [h1]
      intro p hp
      exact hwf.dstKeyed _ hmem p (mem_aerase hp)
    · exact hwf.dstKeyed q h1
  · intro q hq
    rw [hd] at hq
    rcases mem_ainsert hq with h1 | h1
    · rw [h1]
      exact akeys_aerase_nodup _ _ (hwf.dstInnerNodup _ hmem)
    · exact hwf.dstInnerNodup q h1
  · intro key
    rw [hs, hd, ainsert_isSome _ _ _ _ hsome]
    exact hwf.sameDom key

/-! ## Shape of the destination-level loops -/

theorem successfulCreates_append (t1 t2 : List TraceOp) :
    successfulCreates (t1 ++ t2) = successfulCreates t1 ++ successfulCreates t2 := by
  simp [successfulCreates]

theorem successfulDeletes_append (t1 t2 : List TraceOp) :
    successfulDeletes (t1 ++ t2) = successfulDeletes t1 ++ successfulDeletes t2 := by
  simp [successfulDeletes]

theorem DstShape.refl (svcKey : ServiceKey) (st : PassState) : DstShape svcKey st st :=
  ⟨rfl, rfl, fun _ _ => rfl, ⟨[], by simp, rfl, rfl⟩, ⟨[], by simp⟩⟩

theorem DstShape.trans {svcKey : ServiceKey} {s1 s2 s3 : PassState}
    (h12 : DstShape svcKey s1 s2) (h23 : DstShape svcKey s2 s3) :
    DstShape svcKey s1 s3 := by
  obtain ⟨a1, b1, c1, ⟨δt1, t1, tc1, td1⟩, ⟨δe1, f1⟩⟩ := h12
  obtain ⟨a2, b2, c2, ⟨δt2, t2, tc2, td2⟩, ⟨δe2, f2⟩⟩ := h23
  refine ⟨a2.trans a1, b2.trans b1, fun q hq => (c2 q hq).trans (c1 q hq),
    ⟨δt1 ++ δt2, ?_, ?_, ?_⟩, ⟨δe1 ++ δe2, ?_⟩⟩
  · rw [t2, t1, List.append_assoc]
  · rw [successfulCreates_append, tc1, tc2]
    rfl
  · rw [successfulDeletes_append, td1, td2]
    rfl
  · rw [f2, f1, List.append_assoc]

theorem destCreateUpdate_shape (svc : Service) (skey : ServiceKey)
    (am : List (DestinationKey × Destination)) :
    ∀ (todo : List (DestinationKey × Destination)) (st : PassState),
    DstShape (makeFakeServiceKey svc) st (destCreateUpdate svc skey am todo st) := by
  intro todo
  induction todo with
  | nil => exact fun st => DstShape.refl _ st
  | cons p rest ih =>
    intro st
    obtain ⟨dkey, dd⟩ := p
    rw [destCreateUpdate]
    refine DstShape.trans ?_ (ih _)
    cases hl : alookup am dkey with
    | none =>
      simp only [hl]
      cases hop : st.kernel.newDestination svc dd with
      | error e =>
        simp only [hop]
        exact ⟨rfl, rfl, fun _ _ => rfl,
          ⟨[.createDst skey dkey false], rfl, rfl, rfl⟩, ⟨[e], rfl⟩⟩
      | ok k1 =>
        simp only [hop]
        obtain ⟨dstMap, hdl, hdn, hs, hd⟩ := newDestination_ok hop
        exact ⟨hs, rfl,
          fun q hq => by rw [hd, alookup_ainsert, if_neg (fun he => hq he.symm)],
          ⟨[.createDst skey dkey true], rfl, rfl, rfl⟩, ⟨[], by simp⟩⟩
    | some ad =>
      simp only [hl]
      by_cases hw : ¬ ad.Weight = dd.Weight
      · rw [if_pos hw]
        cases hop : st.kernel.updateDestination svc dd with
        | error e =>
          simp only [hop]
          exact ⟨rfl, rfl, fun _ _ => rfl,
            ⟨[.updateDst skey dkey false], rfl, rfl, rfl⟩, ⟨[e], rfl⟩⟩
        | ok k1 =>
          simp only [hop]
          obtain ⟨dstMap, hdl, hdn, hs, hd⟩ := updateDestination_ok hop
          exact ⟨hs, rfl,
            fun q hq => by rw [hd, alookup_ainsert, if_neg (fun he => hq he.symm)],
            ⟨[.updateDst skey dkey true], rfl, rfl, rfl⟩, ⟨[], by simp⟩⟩
      · rw [if_neg hw]
        exact DstShape.refl _ st

theorem destDelete_shape (svc : Service) (skey : ServiceKey)
    (dm : List (DestinationKey × Destination)) :
    ∀ (todo : List (DestinationKey × Destination)) (st : PassState),
    DstShape (makeFakeServiceKey svc) st (destDelete svc skey dm todo st) := by
  intro todo
  induction todo with
  | nil => exact fun st => DstShape.refl _ st
  | cons p rest ih =>
    intro st
    obtain ⟨dkey, ad⟩ := p
    rw [destDelete]
    refine DstShape.trans ?_ (ih _)
    cases hl : alookup dm dkey with
    | some dd =>
      simp only [hl]
      exact DstShape.refl _ st
    | none =>
      simp only [hl]
      cases hop : st.kernel.delDestination svc ad with
      | error e =>
        simp only [hop]
        exact ⟨rfl, rfl, fun _ _ => rfl,
          ⟨[.deleteDst skey dkey false], rfl, rfl, rfl⟩, ⟨[e], rfl⟩⟩
      | ok k1 =>
        simp only [hop]
        obtain ⟨dstMap, hdl, hdn, hs, hd⟩ := delDestination_ok hop
        exact ⟨hs, rfl,
          fun q hq => by rw [hd, alookup_ainsert, if_neg (fun he => hq he.symm)],
          ⟨[.deleteDst skey dkey true], rfl, rfl, rfl⟩, ⟨[], by simp⟩⟩

theorem reconcileDestinations_shape (st : PassState) (desired : DesiredService) :
    DstShape (makeFakeServiceKey desired.service) st
      (reconcileDestinations st desired) := by
  rw [reconcileDestinations]
  cases hg : st.kernel.getDestinations desired.service with
  | error e =>
    simp only [hg]
    exact ⟨rfl, rfl, fun _ _ => rfl, ⟨[], by simp, rfl, rfl⟩, ⟨[e], rfl⟩⟩
  | ok actualDests =>
    simp only [hg]
    exact DstShape.trans (destCreateUpdate_shape _ _ _ _ _) (destDelete_shape _ _ _ _ _)

/-! ## Invariant and monotonicity through the loops -/

theorem destCreateUpdate_WF (svc : Service) (skey : ServiceKey)
    (am : List (DestinationKey × Destination)) :
    ∀ (todo : List (DestinationKey × Destination)) (st : PassState),
    st.kernel.WF → (destCreateUpdate svc skey am todo st).kernel.WF := by
  intro todo
  induction todo with
  | nil => exact fun st h => h
  | cons p rest ih =>
    intro st hwf
    obtain ⟨dkey, dd⟩ := p
    rw [destCreateUpdate]
    apply ih
    cases hl : alookup am dkey with
    | none =>
      simp only [hl]
      cases hop : st.kernel.newDestination svc dd with
      | error e =>
        simp only [hop]
        exact hwf
      | ok k1 =>
        simp only [hop]
        exact newDestination_WF hwf hop
    | some ad =>
      simp only [hl]
      by_cases hw : ¬ ad.Weight = dd.Weight
      · rw [if_pos hw]
        cases hop : st.kernel.updateDestination svc dd with
        | error e =>
          simp only [hop]
          exact hwf
        | ok k1 =>
          simp only [hop]
          exact updateDestination_WF hwf hop
      · rw [if_neg hw]
        exact hwf

theorem destDelete_WF (svc : Service) (skey : ServiceKey)
    (dm : List (DestinationKey × Destination)) :
    ∀ (todo : List (DestinationKey × Destination)) (st : PassState),
    st.kernel.WF → (destDelete svc skey dm todo st).kernel.WF := by
  intro todo
  induction todo with
  | nil => exact fun st h => h
  | cons p rest ih =>
    intro st hwf
    obtain ⟨dkey, ad⟩ := p
    rw [destDelete]
    apply ih
    cases hl : alookup dm dkey with
    | some dd =>
      simp only [hl]
      exact hwf
    | none =>
      simp only [hl]
      cases hop : st.kernel.delDestination svc ad with
      | error e =>
        simp only [hop]
        exact hwf
      | ok k1 =>
        simp only [hop]
        exact delDestination_WF hwf hop

theorem reconcileDestinations_WF (st : PassState) (desired : DesiredService)
    (hwf : st.kernel.WF) : (reconcileDestinations st desired).kernel.WF := by
  rw [reconcileDestinations]
  cases hg : st.kernel.getDestinations desired.service with
  | error e =>
    simp only [hg]
    exact hwf
  | ok actualDests =>
    simp only [hg]
    exact destDelete_WF _ _ _ _ _ (destCreateUpdate_WF _ _ _ _ _ hwf)

theorem serviceCreateUpdate_isSome_mono (am : List (ServiceKey × Service)) :
    ∀ (todo : List (ServiceKey × DesiredService)) (st : PassState) (k : ServiceKey),
    (alookup st.kernel.services k).isSome = true →
    (alookup (serviceCreateUpdate am todo st).kernel.services k).isSome = true := by
  intro todo
  induction todo with
  | nil => exact fun st k h => h
  | cons p rest ih =>
    intro st k h
    obtain ⟨key, d⟩ := p
    rw [serviceCreateUpdate]
    apply ih
    cases hl : alookup am key with
    | none =>
      simp only [hl]
      cases hop : st.kernel.newService d.service with
      | error e =>
        simp only [hop]
        exact h
      | ok k1 =>
        simp only [hop]
        rw [(reconcileDestinations_shape _ d).1]
        show (alookup k1.services k).isSome = true
        obtain ⟨hnone, hs, hd⟩ := newService_ok hop
        rw [hs, alookup_append]
        cases hb : alookup st.kernel.services k with
        | some v => rfl
        | none =>
          rw [hb] at h
          simp at h
    | some a =>
      simp only [hl]
      by_cases hsch : ¬ a.SchedName = d.service.SchedName
      · rw [if_pos hsch]
        cases hop : st.kernel.updateService d.service with
        | error e =>
          simp only [hop]
          exact h
        | ok k1 =>
          simp only [hop]
          rw [(reconcileDestinations_shape _ d).1]
          show (alookup k1.services k).isSome = true
          obtain ⟨hsome, hs, hd⟩ := updateService_ok hop
          rw [hs, ainsert_isSome _ _ _ _ hsome]
          exact h
      · rw [if_neg hsch]
        rw [(reconcileDestinations_shape _ d).1]
        exact h

theorem mem_minsert (m : List ServiceKey) (key k : ServiceKey) :
    k ∈ minsert m key ↔ k ∈ m ∨ k = key := by
  rw [minsert]
  by_cases hk : key ∈ m
  · rw [if_pos hk]
    constructor
    · exact Or.inl
    · rintro (h | rfl)
      · exact h
      · exact hk
  · rw [if_neg hk]
    simp

theorem mem_merase (m : List ServiceKey) (key k : ServiceKey) :
    k ∈ merase m key ↔ k ∈ m ∧ ¬ k = key := by
  rw [merase]
  simp [List.mem_filter]

/-! ## Shape of the service-level create/update loop -/

theorem serviceCreateUpdate_cons (am : List (ServiceKey × Service)) (key : ServiceKey)
    (d : DesiredService) (rest : List (ServiceKey × DesiredService)) (st : PassState) :
    serviceCreateUpdate am ((key, d) :: rest) st =
      serviceCreateUpdate am rest (scuStep am key d st) := by
  rw [serviceCreateUpdate, scuStep]

theorem serviceDelete_cons (dm : List (ServiceKey × DesiredService)) (key : ServiceKey)
    (a : Service) (rest : List (ServiceKey × Service)) (st : PassState) :
    serviceDelete dm ((key, a) :: rest) st =
      serviceDelete dm rest (sdStep dm key a st) := by
  rw [serviceDelete, sdStep]

theorem scuStep_shape (am : List (ServiceKey × Service)) (key : ServiceKey)
    (d : DesiredService) (st : PassState)
    (hk1 : makeFakeServiceKey d.service = key) :
    ∃ δt1 δe1,
      (scuStep am key d st).trace = st.trace ++ δt1 ∧
      (scuStep am key d st).errs = st.errs ++ δe1 ∧
      successfulDeletes δt1 = [] ∧
      (∀ k ∈ successfulCreates δt1, k = key) ∧
      (∀ k, k ∈ (scuStep am key d st).managed ↔
        k ∈ st.managed ∨ k ∈ successfulCreates δt1) ∧
      (∀ q, ¬ q = key →
        alookup (scuStep am key d st).kernel.services q =
          alookup st.kernel.services q) ∧
      (∀ q, ¬ q = key →
        alookup (scuStep am key d st).kernel.destinations q =
          alookup st.kernel.destinations q) ∧
      (∀ k ∈ successfulCreates δt1,
        (alookup (scuStep am key d st).kernel.services k).isSome = true) := by
  cases hl : alookup am key with
  | none =>
    cases hop : st.kernel.newService d.service with
    | error e =>
      have hse : scuStep am key d st = { st with errs := st.errs ++ [e], trace := st.trace ++ [TraceOp.createSvc key false] } := by
        rw [scuStep, hl, hop]
      rw [hse]
      refine ⟨[.createSvc key false], [e], rfl, rfl, rfl, ?_, ?_, fun q _ => rfl, fun q _ => rfl, ?_⟩
      · intro k hk
        simp [successfulCreates] at hk
      · intro k
        simp [successfulCreates]
      · intro k hk
        simp [successfulCreates] at hk
    | ok k1 =>
      obtain ⟨hnone, hs, hd⟩ := newService_ok hop
      rw [hk1] at hs hd hnone
      have hse : scuStep am key d st = reconcileDestinations { st with kernel := k1, managed := minsert st.managed key, trace := st.trace ++ [TraceOp.createSvc key true] } d := by
        rw [scuStep, hl, hop]
      obtain ⟨rs, rm, rd, ⟨δrd, rt, rtc, rtd⟩, ⟨δre, re⟩⟩ := reconcileDestinations_shape { st with kernel := k1, managed := minsert st.managed key, trace := st.trace ++ [TraceOp.createSvc key true] } d
      rw [hse]
      refine ⟨[.createSvc key true] ++ δrd, δre, ?_, ?_, ?_, ?_, ?_, ?_, ?_, ?_⟩
      · rw [rt]
        show (st.trace ++ [TraceOp.createSvc key true]) ++ δrd = _
        rw [List.append_assoc]
      · rw [re]
      · rw [successfulDeletes_append, rtd]
        rfl
      · intro k hk
        rw [successfulCreates_append, rtc] at hk
        simpa [successfulCreates] using hk
      · intro k
        rw [rm]
        show k ∈ minsert st.managed key ↔ _
        rw [mem_minsert, successfulCreates_append, rtc]
        simp [successfulCreates]
      · intro q hq
        rw [rs]
        show alookup k1.services q = _
        rw [hs, alookup_append_ne _ _ _ _ (fun he => hq he.symm)]
      · intro q hq
        rw [rd q (by rw [hk1]; exact fun he => hq he)]
        show alookup k1.destinations q = _
        rw [hd, alookup_append_ne _ _ _ _ (fun he => hq he.symm)]
      · intro k hk
        rw [successfulCreates_append, rtc] at hk
        have hke : k = key := by simpa [successfulCreates] using hk
        subst hke
        rw [rs]
        show (alookup k1.services k).isSome = true
        rw [hs, alookup_append_self _ _ _ hnone]
        rfl
  | some actual =>
    by_cases hsch : ¬ actual.SchedName = d.service.SchedName
    · cases hop : st.kernel.updateService d.service with
      | error e =>
        have hse : scuStep am key d st = { st with errs := st.errs ++ [e], trace := st.trace ++ [TraceOp.updateSvc key false] } := by
          simp only [scuStep, hl]
          rw [if_pos hsch, hop]
        rw [hse]
        refine ⟨[.updateSvc key false], [e], rfl, rfl, rfl, ?_, ?_, fun q _ => rfl, fun q _ => rfl, ?_⟩
        · intro k hk
          simp [successfulCreates] at hk
        · intro k
          simp [successfulCreates]
        · intro k hk
          simp [successfulCreates] at hk
      | ok k1 =>
        obtain ⟨hsome, hs, hd⟩ := updateService_ok hop
        rw [hk1] at hs hsome
        have hse : scuStep am key d st = reconcileDestinations { st with kernel := k1, trace := st.trace ++ [TraceOp.updateSvc key true] } d := by
          simp only [scuStep, hl]
          rw [if_pos hsch, hop]
        obtain ⟨rs, rm, rd, ⟨δrd, rt, rtc, rtd⟩, ⟨δre, re⟩⟩ := reconcileDestinations_shape { st with kernel := k1, trace := st.trace ++ [TraceOp.updateSvc key true] } d
        rw [hse]
        refine ⟨[.updateSvc key true] ++ δrd, δre, ?_, ?_, ?_, ?_, ?_, ?_, ?_, ?_⟩
        · rw [rt]
          show (st.trace ++ [TraceOp.updateSvc key true]) ++ δrd = _
          rw [List.append_assoc]
        · rw [re]
        · rw [successfulDeletes_append, rtd]
          rfl
        · intro k hk
          rw [successfulCreates_append, rtc] at hk
          simp [successfulCreates] at hk
        · intro k
          rw [rm]
          show k ∈ st.managed ↔ _
          rw [successfulCreates_append, rtc]
          simp [successfulCreates]
        · intro q hq
          rw [rs]
          show alookup k1.services q = _
          rw [hs, alookup_ainsert, if_neg (fun he => hq he.symm)]
        · intro q hq
          rw [rd q (by rw [hk1]; exact fun he => hq he)]
          show alookup k1.destinations q = _
          rw [hd]
        · intro k hk
          rw [successfulCreates_append, rtc] at hk
          simp [successfulCreates] at hk
    · have hse : scuStep am key d st = reconcileDestinations st d := by
        simp only [scuStep, hl]
        rw [if_neg hsch]
      obtain ⟨rs, rm, rd, ⟨δrd, rt, rtc, rtd⟩, ⟨δre, re⟩⟩ := reconcileDestinations_shape st d
      rw [hse]
      refine ⟨δrd, δre, rt, re, rtd, ?_, ?_, ?_, ?_, ?_⟩
      · intro k hk
        rw [rtc] at hk
        simp at hk
      · intro k
        rw [rm, rtc]
        simp
      · intro q hq
        rw [rs]
      · intro q hq
        exact rd q (by rw [hk1]; exact fun he => hq he)
      · intro k hk
        rw [rtc] at hk
        simp at hk

theorem serviceCreateUpdate_shape (am : List (ServiceKey × Service)) :
    ∀ (todo : List (ServiceKey × DesiredService)) (st : PassState),
    (∀ p ∈ todo, makeFakeServiceKey p.2.service = p.1) →
    ∃ δt δe,
      (serviceCreateUpdate am todo st).trace = st.trace ++ δt ∧
      (serviceCreateUpdate am todo st).errs = st.errs ++ δe ∧
      successfulDeletes δt = [] ∧
      (∀ k ∈ successfulCreates δt, k ∈ akeys todo) ∧
      (∀ k, k ∈ (serviceCreateUpdate am todo st).managed ↔
        k ∈ st.managed ∨ k ∈ successfulCreates δt) ∧
      (∀ q, q ∉ akeys todo →
        alookup (serviceCreateUpdate am todo st).kernel.services q =
          alookup st.kernel.services q) ∧
      (∀ q, q ∉ akeys todo →
        alookup (serviceCreateUpdate am todo st).kernel.destinations q =
          alookup st.kernel.destinations q) ∧
      (∀ k ∈ successfulCreates δt,
        (alookup (serviceCreateUpdate am todo st).kernel.services k).isSome = true) := by
  intro todo
  induction todo with
  | nil =>
    intro st _
    exact ⟨[], [], by simp [serviceCreateUpdate], by simp [serviceCreateUpdate], rfl,
      by simp [successfulCreates],
      fun k => by simp [serviceCreateUpdate, successfulCreates],
      fun q _ => rfl, fun q _ => rfl, by simp [successfulCreates]⟩
  | cons p rest ih =>
    intro st hkeys
    obtain ⟨key, d⟩ := p
    have hk1 : makeFakeServiceKey d.service = key := hkeys (key, d) (List.mem_cons_self _ _)
    have hkrest : ∀ p ∈ rest, makeFakeServiceKey p.2.service = p.1 :=
      fun p hp => hkeys p (List.mem_cons_of_mem _ hp)
    rw [serviceCreateUpdate_cons]
    obtain ⟨δt1, δe1, ht1, he1, hd1, hc1, hm1, hfs1, hfd1, hp1⟩ :=
      scuStep_shape am key d st hk1
    obtain ⟨δt2, δe2, ht2, he2, hd2, hc2, hm2, hfs2, hfd2, hp2⟩ :=
      ih (scuStep am key d st) hkrest
    refine ⟨δt1 ++ δt2, δe1 ++ δe2, ?_, ?_, ?_, ?_, ?_, ?_, ?_, ?_⟩
    · rw [ht2, ht1, List.append_assoc]
    · rw [he2, he1, List.append_assoc]
    · rw [successfulDeletes_append, hd1, hd2]
      rfl
    · intro k hk
      rw [successfulCreates_append, List.mem_append] at hk
      rcases hk with hk | hk
      · rw [hc1 k hk, akeys, List.map_cons]
        exact List.mem_cons_self _ _
      · rw [akeys, List.map_cons]
        exact List.mem_cons_of_mem _ (hc2 k hk)
    · intro k
      rw [hm2 k, hm1 k, successfulCreates_append, List.mem_append]
      tauto
    · intro q hq
      rw [akeys, List.map_cons, List.mem_cons] at hq
      push_neg at hq
      rw [hfs2 q (by rw [← akeys] at hq; exact hq.2), hfs1 q (fun he => hq.1 he)]
    · intro q hq
      rw [akeys, List.map_cons, List.mem_cons] at hq
      push_neg at hq
      rw [hfd2 q (by rw [← akeys] at hq; exact hq.2), hfd1 q (fun he => hq.1 he)]
    · intro k hk
      rw [successfulCreates_append, List.mem_append] at hk
      rcases hk with hk | hk
      · exact serviceCreateUpdate_isSome_mono am rest (scuStep am key d st) k (hp1 k hk)
      · exact hp2 k hk

/-! ## Shape of the service-level deletion loop -/

theorem sdStep_shape (dm : List (ServiceKey × DesiredService)) (key : ServiceKey)
    (a : Service) (st : PassState)
    (hk1 : makeFakeServiceKey a = key) :
    ∃ δt1 δe1,
      (sdStep dm key a st).trace = st.trace ++ δt1 ∧
      (sdStep dm key a st).errs = st.errs ++ δe1 ∧
      successfulCreates δt1 = [] ∧
      (∀ k ∈ successfulDeletes δt1, k = key ∧ alookup dm k = none) ∧
      (∀ k, k ∈ (sdStep dm key a st).managed ↔
        k ∈ st.managed ∧ k ∉ successfulDeletes δt1) ∧
      (∀ q, ¬ q = key →
        alookup (sdStep dm key a st).kernel.services q =
          alookup st.kernel.services q) ∧
      (∀ q, ¬ q = key →
        alookup (sdStep dm key a st).kernel.destinations q =
          alookup st.kernel.destinations q) ∧
      (∀ k, (alookup dm k).isSome = true →
        alookup (sdStep dm key a st).kernel.services k =
          alookup st.kernel.services k ∧
        alookup (sdStep dm key a st).kernel.destinations k =
          alookup st.kernel.destinations k) := by
  cases hl : alookup dm key with
  | some d0 =>
    have hse : sdStep dm key a st = st := by
      rw [sdStep, hl]
    rw [hse]
    refine ⟨[], [], by simp, by simp, rfl, ?_, ?_, fun q _ => rfl, fun q _ => rfl,
      fun k _ => ⟨rfl, rfl⟩⟩
    · intro k hk
      simp [successfulDeletes] at hk
    · intro k
      simp [successfulDeletes]
  | none =>
    cases hop : st.kernel.delService a with
    | error e =>
      have hse : sdStep dm key a st = { st with errs := st.errs ++ [e], trace := st.trace ++ [TraceOp.deleteSvc key false] } := by
        rw [sdStep, hl, hop]
      rw [hse]
      refine ⟨[.deleteSvc key false], [e], rfl, rfl, rfl, ?_, ?_, fun q _ => rfl,
        fun q _ => rfl, fun k _ => ⟨rfl, rfl⟩⟩
      · intro k hk
        simp [successfulDeletes] at hk
      · intro k
        simp [successfulDeletes]
    | ok k1 =>
      obtain ⟨hsome, hs, hd⟩ := delService_ok hop
      rw [hk1] at hsome hs hd
      have hse : sdStep dm key a st = { st with kernel := k1, managed := merase st.managed key, trace := st.trace ++ [TraceOp.deleteSvc key true] } := by
        rw [sdStep, hl, hop]
      rw [hse]
      refine ⟨[.deleteSvc key true], [], rfl, by simp, rfl, ?_, ?_, ?_, ?_, ?_⟩
      · intro k hk
        have hke : k = key := by simpa [successfulDeletes] using hk
        subst hke
        exact ⟨rfl, hl⟩
      · intro k
        show k ∈ merase st.managed key ↔ _
        rw [mem_merase]
        simp [successfulDeletes]
      · intro q hq
        show alookup k1.services q = _
        rw [hs, alookup_aerase_ne _ _ _ (fun he => hq he.symm)]
      · intro q hq
        show alookup k1.destinations q = _
        rw [hd, alookup_aerase_ne _ _ _ (fun he => hq he.symm)]
      · intro k hk
        have hne : ¬ key = k := by
          intro he
          rw [he] at hl
          rw [hl] at hk
          exact Bool.false_ne_true hk
        constructor
        · show alookup k1.services k = _
          rw [hs, alookup_aerase_ne _ _ _ hne]
        · show alookup k1.destinations k = _
          rw [hd, alookup_aerase_ne _ _ _ hne]

theorem serviceDelete_shape (dm : List (ServiceKey × DesiredService)) :
    ∀ (todo : List (ServiceKey × Service)) (st : PassState),
    (∀ p ∈ todo, makeFakeServiceKey p.2 = p.1) →
    ∃ δt δe,
      (serviceDelete dm todo st).trace = st.trace ++ δt ∧
      (serviceDelete dm todo st).errs = st.errs ++ δe ∧
      successfulCreates δt = [] ∧
      (∀ k ∈ successfulDeletes δt, k ∈ akeys todo ∧ alookup dm k = none) ∧
      (∀ k, k ∈ (serviceDelete dm todo st).managed ↔
        k ∈ st.managed ∧ k ∉ successfulDeletes δt) ∧
      (∀ q, q ∉ akeys todo →
        alookup (serviceDelete dm todo st).kernel.services q =
          alookup st.kernel.services q) ∧
      (∀ q, q ∉ akeys todo →
        alookup (serviceDelete dm todo st).kernel.destinations q =
          alookup st.kernel.destinations q) ∧
      (∀ k, (alookup dm k).isSome = true →
        alookup (serviceDelete dm todo st).kernel.services k =
          alookup st.kernel.services k ∧
        alookup (serviceDelete dm todo st).kernel.destinations k =
          alookup st.kernel.destinations k) := by
  intro todo
  induction todo with
  | nil =>
    intro st _
    exact ⟨[], [], by simp [serviceDelete], by simp [serviceDelete], rfl,
      by simp [successfulDeletes],
      fun k => by simp [serviceDelete, successfulDeletes],
      fun q _ => rfl, fun q _ => rfl, fun k _ => ⟨rfl, rfl⟩⟩
  | cons p rest ih =>
    intro st hkeys
    obtain ⟨key, a⟩ := p
    have hk1 : makeFakeServiceKey a = key := hkeys (key, a) (List.mem_cons_self _ _)
    have hkrest : ∀ p ∈ rest, makeFakeServiceKey p.2 = p.1 :=
      fun p hp => hkeys p (List.mem_cons_of_mem _ hp)
    rw [serviceDelete_cons]
    obtain ⟨δt1, δe1, ht1, he1, hc1, hd1, hm1, hfs1, hfd1, hdes1⟩ :=
      sdStep_shape dm key a st hk1
    obtain ⟨δt2, δe2, ht2, he2, hc2, hd2, hm2, hfs2, hfd2, hdes2⟩ :=
      ih (sdStep dm key a st) hkrest
    refine ⟨δt1 ++ δt2, δe1 ++ δe2, ?_, ?_, ?_, ?_, ?_, ?_, ?_, ?_⟩
    · rw [ht2, ht1, List.append_assoc]
    · rw [he2, he1, List.append_assoc]
    · rw [successfulCreates_append, hc1, hc2]
      rfl
    · intro k hk
      rw [successfulDeletes_append, List.mem_append] at hk
      rcases hk with hk | hk
      · obtain ⟨hke, hdm⟩ := hd1 k hk
        refine ⟨?_, hdm⟩
        rw [hke, akeys, List.map_cons]
        exact List.mem_cons_self _ _
      · obtain ⟨hkm, hdm⟩ := hd2 k hk
        refine ⟨?_, hdm⟩
        rw [akeys, List.map_cons]
        exact List.mem_cons_of_mem _ hkm
    · intro k
      rw [hm2 k, hm1 k, successfulDeletes_append, List.mem_append]
      tauto
    · intro q hq
      rw [akeys, List.map_cons, List.mem_cons] at hq
      push_neg at hq
      rw [hfs2 q (by rw [← akeys] at hq; exact hq.2), hfs1 q (fun he => hq.1 he)]
    · intro q hq
      rw [akeys, List.map_cons, List.mem_cons] at hq
      push_neg at hq
      rw [hfd2 q (by rw [← akeys] at hq; exact hq.2), hfd1 q (fun he => hq.1 he)]
    · intro k hk
      obtain ⟨hs2, hd2k⟩ := hdes2 k hk
      obtain ⟨hs1, hd1k⟩ := hdes1 k hk
      exact ⟨by rw [hs2, hs1], by rw [hd2k, hd1k]⟩

/-! ## Keys of the desired and actual maps -/

theorem buildOne_key (isHealthy : String → Bool) (cfg : ServiceConfig)
    (key : ServiceKey) (ds : DesiredService)
    (h : buildOne isHealthy cfg = .ok (key, ds)) :
    makeFakeServiceKey ds.service = key := by
  rw [buildOne] at h
  cases h1 : ConfigToIPVSService cfg with
  | error e =>
    simp only [h1] at h
    exact Except.noConfusion h
  | ok svc =>
    simp only [h1] at h
    cases h2 : ServiceKeyFromConfig cfg with
    | error e =>
      simp only [h2] at h
      exact Except.noConfusion h
    | ok k2 =>
      simp only [h2] at h
      cases h3 : convertBackends isHealthy cfg cfg.Backends with
      | error e =>
        simp only [h3] at h
        exact Except.noConfusion h
      | ok dests =>
        simp only [h3] at h
        injection h with h
        injection h with hk hds
        subst hk
        subst hds
        show makeFakeServiceKey svc = k2
        rw [ConfigToIPVSService] at h1
        rw [ServiceKeyFromConfig] at h2
        cases hsp : splitHostPort cfg.Listen with
        | none =>
          simp only [hsp] at h1
          exact Except.noConfusion h1
        | some hp =>
          obtain ⟨host, portStr⟩ := hp
          simp only [hsp] at h1 h2
          cases hat : atoi portStr with
          | none =>
            simp only [hat] at h1
            exact Except.noConfusion h1
          | some port =>
            simp only [hat] at h1 h2
            cases hip : parseIP host with
            | none =>
              simp only [hip] at h1
              exact Except.noConfusion h1
            | some ip =>
              simp only [hip] at h1
              cases hpr : protocolFromString cfg.Protocol with
              | error e =>
                simp only [hpr] at h1
                exact Except.noConfusion h1
              | ok proto =>
                simp only [hpr] at h1 h2
                have hih : ip = host := by
                  rw [parseIP] at hip
                  by_cases hv : isIPv4 host
                  · rw [if_pos hv] at hip
                    injection hip with hh
                    exact hh.symm
                  · rw [if_neg hv] at hip
                    exact Option.noConfusion hip
                injection h1 with h1
                injection h2 with h2
                rw [← h1, ← h2]
                show ({ Address := ip, Port := uint16OfInt port, Protocol := proto } : ServiceKey) = _
                rw [hih]

theorem buildDesiredStateGo_keys (isHealthy : String → Bool) :
    ∀ (configs : List ServiceConfig) (acc dm : List (ServiceKey × DesiredService)),
    buildDesiredStateGo isHealthy configs acc = .ok dm →
    (∀ p ∈ acc, makeFakeServiceKey p.2.service = p.1) →
    ∀ p ∈ dm, makeFakeServiceKey p.2.service = p.1 := by
  intro configs
  induction configs with
  | nil =>
    intro acc dm h hacc
    rw [buildDesiredStateGo] at h
    injection h with h
    subst h
    exact hacc
  | cons c rest ih =>
    intro acc dm h hacc
    rw [buildDesiredStateGo] at h
    cases hb : buildOne isHealthy c with
    | error e =>
      simp only [hb] at h
      exact Except.noConfusion h
    | ok p0 =>
      obtain ⟨key, ds⟩ := p0
      simp only [hb] at h
      refine ih (ainsert acc key ds) dm h ?_
      intro p hp
      rcases mem_ainsert hp with hpe | hpm
      · rw [hpe]
        exact buildOne_key isHealthy c key ds hb
      · exact hacc p hpm

theorem buildDesiredState_keys (isHealthy : String → Bool)
    (configs : List ServiceConfig) (dm : List (ServiceKey × DesiredService))
    (h : buildDesiredState isHealthy configs = .ok dm) :
    ∀ p ∈ dm, makeFakeServiceKey p.2.service = p.1 :=
  buildDesiredStateGo_keys isHealthy configs [] dm h (by intro p hp; simp at hp)

theorem buildActualMapGo_mem (managed0 : List ServiceKey) :
    ∀ (svcs : List Service) (acc : List (ServiceKey × Service)) (p : ServiceKey × Service),
    p ∈ buildActualMapGo managed0 svcs acc →
    (p.1 ∈ managed0 ∧ makeFakeServiceKey p.2 = p.1) ∨ p ∈ acc := by
  intro svcs
  induction svcs with
  | nil =>
    intro acc p hp
    rw [buildActualMapGo] at hp
    exact Or.inr hp
  | cons svc rest ih =>
    intro acc p hp
    simp only [buildActualMapGo] at hp
    by_cases hm : ServiceKeyFromIPVS svc ∈ managed0
    · rw [if_pos hm] at hp
      rcases ih (ainsert acc (ServiceKeyFromIPVS svc) svc) p hp with h | h
      · exact Or.inl h
      · rcases mem_ainsert h with he | hm2
        · rw [he]
          exact Or.inl ⟨hm, rfl⟩
        · exact Or.inr hm2
    · rw [if_neg hm] at hp
      exact (ih acc p hp).elim Or.inl Or.inr

theorem buildActualMap_keys (managed0 : List ServiceKey) (svcs : List Service)
    (p : ServiceKey × Service) (hp : p ∈ buildActualMap managed0 svcs) :
    p.1 ∈ managed0 ∧ makeFakeServiceKey p.2 = p.1 := by
  rcases buildActualMapGo_mem managed0 svcs [] p hp with h | h
  · exact h
  · simp at h

/-! ## Claims C4 and C6 -/

/-- C4: a ServiceKey that is not in the managed set at the start of a pass
and does not occur in that pass's desired configuration keeps exactly the
same service record and destination map in the kernel table — foreign
entries are never mutated. -/
theorem claim_C4_foreign_untouched
    (isHealthy : String → Bool) (managed0 : List ServiceKey) (k0 : Kernel)
    (configs : List ServiceConfig) (q : ServiceKey)
    (hq0 : q ∉ managed0)
    (hqd : ∀ dm, buildDesiredState isHealthy configs = .ok dm → q ∉ akeys dm) :
    alookup (runReconcile isHealthy managed0 k0 configs).kernel.services q =
      alookup k0.services q ∧
    alookup (runReconcile isHealthy managed0 k0 configs).kernel.destinations q =
      alookup k0.destinations q := by
  rw [runReconcile]
  cases hb : buildDesiredState isHealthy configs with
  | error e =>
    simp only [hb]
    constructor <;> trivial
  | ok dm =>
    simp only [hb]
    have hkeys1 : ∀ p ∈ dm, makeFakeServiceKey p.2.service = p.1 :=
      buildDesiredState_keys isHealthy configs dm hb
    have hkeys2 : ∀ p ∈ buildActualMap managed0 k0.getServices, makeFakeServiceKey p.2 = p.1 :=
      fun p hp => (buildActualMap_keys managed0 k0.getServices p hp).2
    obtain ⟨δ1, δe1, ht1, he1, hD1, hC1, hm1, hfs1, hfd1, hp1⟩ :=
      serviceCreateUpdate_shape (buildActualMap managed0 k0.getServices) dm
        { kernel := k0, managed := managed0, errs := [], trace := [] } hkeys1
    obtain ⟨δ2, δe2, ht2, he2, hC2, hD2, hm2, hfs2, hfd2, hdes2⟩ :=
      serviceDelete_shape dm (buildActualMap managed0 k0.getServices)
        (serviceCreateUpdate (buildActualMap managed0 k0.getServices) dm
          { kernel := k0, managed := managed0, errs := [], trace := [] }) hkeys2
    have hqdm : q ∉ akeys dm := hqd dm hb
    have hqam : q ∉ akeys (buildActualMap managed0 k0.getServices) := by
      intro hmem
      obtain ⟨p, hp, hpq⟩ := List.mem_map.mp hmem
      have := (buildActualMap_keys managed0 k0.getServices p hp).1
      rw [hpq] at this
      exact hq0 this
    exact ⟨by rw [hfs2 q hqam, hfs1 q hqdm], by rw [hfd2 q hqam, hfd1 q hqdm]⟩

/-- A pass that creates the service of `svcNat` leaves the foreign `svc1Key`
entry of `kernelForeign` untouched. -/
theorem claim_C4_foreign_untouched_witness :
    svc1Key ∉ ([] : List ServiceKey) ∧
    (∀ dm, buildDesiredState allHealthy [svcNat] = Except.ok dm → svc1Key ∉ akeys dm) ∧
    alookup (runReconcile allHealthy [] kernelForeign [svcNat]).kernel.services svc1Key =
      alookup kernelForeign.services svc1Key ∧
    alookup (runReconcile allHealthy [] kernelForeign [svcNat]).kernel.destinations svc1Key =
      alookup kernelForeign.destinations svc1Key := by
  have hqd : ∀ dm, buildDesiredState allHealthy [svcNat] = Except.ok dm →
      svc1Key ∉ akeys dm := by
    intro dm h
    injection h with h
    subst h
    decide
  exact ⟨by decide, hqd,
    claim_C4_foreign_untouched allHealthy [] kernelForeign [svcNat] svc1Key (by decide) hqd⟩

/-- C6: the managed set starts empty (`NewReconciler`), and across any
reconcile pass a key is in the final managed set exactly when it was there
before or entered through a successful create, and did not leave through a
successful delete; every key that entered through a successful create is
present in the kernel table at the end of the pass. -/
theorem claim_C6_managed_set_lifecycle :
    newReconcilerManaged = [] ∧
    ∀ (isHealthy : String → Bool) (managed0 : List ServiceKey) (k0 : Kernel)
      (configs : List ServiceConfig) (k : ServiceKey),
      (k ∈ (runReconcile isHealthy managed0 k0 configs).managed ↔
        (k ∈ managed0 ∨
          k ∈ successfulCreates (runReconcile isHealthy managed0 k0 configs).trace) ∧
        k ∉ successfulDeletes (runReconcile isHealthy managed0 k0 configs).trace) ∧
      (k ∈ successfulCreates (runReconcile isHealthy managed0 k0 configs).trace →
        (alookup (runReconcile isHealthy managed0 k0 configs).kernel.services k).isSome = true) := by
  refine ⟨rfl, ?_⟩
  intro isHealthy managed0 k0 configs k
  rw [runReconcile]
  cases hb : buildDesiredState isHealthy configs with
  | error e =>
    simp only [hb]
    constructor
    · show k ∈ managed0 ↔ _
      simp [successfulCreates, successfulDeletes]
    · intro hk
      simp [successfulCreates] at hk
  | ok dm =>
    simp only [hb]
    have hkeys1 : ∀ p ∈ dm, makeFakeServiceKey p.2.service = p.1 :=
      buildDesiredState_keys isHealthy configs dm hb
    have hkeys2 : ∀ p ∈ buildActualMap managed0 k0.getServices, makeFakeServiceKey p.2 = p.1 :=
      fun p hp => (buildActualMap_keys managed0 k0.getServices p hp).2
    obtain ⟨δ1, δe1, ht1, he1, hD1, hC1, hm1, hfs1, hfd1, hp1⟩ :=
      serviceCreateUpdate_shape (buildActualMap managed0 k0.getServices) dm
        { kernel := k0, managed := managed0, errs := [], trace := [] } hkeys1
    obtain ⟨δ2, δe2, ht2, he2, hC2, hD2, hm2, hfs2, hfd2, hdes2⟩ :=
      serviceDelete_shape dm (buildActualMap managed0 k0.getServices)
        (serviceCreateUpdate (buildActualMap managed0 k0.getServices) dm
          { kernel := k0, managed := managed0, errs := [], trace := [] }) hkeys2
    have htr : (serviceDelete dm (buildActualMap managed0 k0.getServices)
        (serviceCreateUpdate (buildActualMap managed0 k0.getServices) dm
          { kernel := k0, managed := managed0, errs := [], trace := [] })).trace = δ1 ++ δ2 := by
      rw [ht2, ht1]
      rfl
    have hsc : successfulCreates (serviceDelete dm (buildActualMap managed0 k0.getServices)
        (serviceCreateUpdate (buildActualMap managed0 k0.getServices) dm
          { kernel := k0, managed := managed0, errs := [], trace := [] })).trace =
        successfulCreates δ1 := by
      rw [htr, successfulCreates_append, hC2]
      simp
    have hsd : successfulDeletes (serviceDelete dm (buildActualMap managed0 k0.getServices)
        (serviceCreateUpdate (buildActualMap managed0 k0.getServices) dm
          { kernel := k0, managed := managed0, errs := [], trace := [] })).trace =
        successfulDeletes δ2 := by
      rw [htr, successfulDeletes_append, hD1]
      rfl
    constructor
    · rw [hsc, hsd, hm2 k, hm1 k]
    · intro hk
      rw [hsc] at hk
      have hdm : (alookup dm k).isSome = true :=
        (alookup_isSome_iff_mem_akeys dm k).mpr (hC1 k hk)
      rw [(hdes2 k hdm).1]
      exact hp1 k hk

/-! ## Structure of the desired destination map and the actual map -/

theorem append_right_nil {α : Type} (l d : List α) (h : l ++ d = l) : d = [] := by
  have h2 : l ++ d = l ++ [] := h.trans (List.append_nil l).symm
  exact List.append_cancel_left h2

theorem SKFromIPVS_eq_fake (svc : Service) :
    ServiceKeyFromIPVS svc = makeFakeServiceKey svc := rfl

theorem buildDestMapGo_keyed :
    ∀ (ds : List Destination) (acc : List (DestinationKey × Destination)),
    (∀ p ∈ acc, p.1 = makeFakeDestinationKey p.2) →
    ∀ p ∈ buildDestMapGo ds acc, p.1 = makeFakeDestinationKey p.2 := by
  intro ds
  induction ds with
  | nil =>
    intro acc hacc p hp
    exact hacc p hp
  | cons dst rest ih =>
    intro acc hacc p hp
    rw [buildDestMapGo] at hp
    refine ih _ ?_ p hp
    intro p2 hp2
    rcases mem_ainsert hp2 with he | hm
    · rw [he]
      rfl
    · exact hacc p2 hm

theorem buildDestMap_keyed (ds : List Destination) :
    ∀ p ∈ buildDestMap ds, p.1 = makeFakeDestinationKey p.2 :=
  buildDestMapGo_keyed ds [] (by intro p hp; simp at hp)

theorem buildDestMapGo_nodup :
    ∀ (ds : List Destination) (acc : List (DestinationKey × Destination)),
    (akeys acc).Nodup → (akeys (buildDestMapGo ds acc)).Nodup := by
  intro ds
  induction ds with
  | nil =>
    intro acc hacc
    exact hacc
  | cons dst rest ih =>
    intro acc hacc
    rw [buildDestMapGo]
    exact ih _ (akeys_ainsert_nodup _ _ _ hacc)

theorem buildDestMap_nodup (ds : List Destination) :
    (akeys (buildDestMap ds)).Nodup :=
  buildDestMapGo_nodup ds [] (by simp [akeys])

theorem buildDestMapGo_keys_mem :
    ∀ (ds : List Destination) (acc : List (DestinationKey × Destination))
      (dk : DestinationKey),
    dk ∈ akeys (buildDestMapGo ds acc) ↔
      (∃ dst ∈ ds, makeFakeDestinationKey dst = dk) ∨ dk ∈ akeys acc := by
  intro ds
  induction ds with
  | nil =>
    intro acc dk
    rw [buildDestMapGo]
    simp
  | cons dst rest ih =>
    intro acc dk
    rw [buildDestMapGo]
    rw [ih]
    constructor
    · rintro (⟨d2, hd2, hke⟩ | hacc)
      · exact Or.inl ⟨d2, List.mem_cons_of_mem _ hd2, hke⟩
      · rcases (akeys_ainsert acc _ dst dk).mp hacc with he | hm
        · exact Or.inl ⟨dst, List.mem_cons_self _ _, he.symm⟩
        · exact Or.inr hm
    · rintro (⟨d2, hd2, hke⟩ | hacc)
      · rcases List.mem_cons.mp hd2 with he | hm
        · subst he
          exact Or.inr ((akeys_ainsert acc _ d2 dk).mpr (Or.inl hke.symm))
        · exact Or.inl ⟨d2, hm, hke⟩
      · exact Or.inr ((akeys_ainsert acc _ dst dk).mpr (Or.inr hacc))

theorem buildDestMap_keys_mem (ds : List Destination) (dk : DestinationKey) :
    dk ∈ akeys (buildDestMap ds) ↔ ∃ dst ∈ ds, makeFakeDestinationKey dst = dk := by
  rw [buildDestMap, buildDestMapGo_keys_mem]
  simp [akeys]

theorem destMap_map_self :
    ∀ (m : List (DestinationKey × Destination)),
    (∀ p ∈ m, p.1 = makeFakeDestinationKey p.2) →
    (m.map Prod.snd).map (fun dst => (DestinationKeyFromIPVS dst, dst)) = m := by
  intro m
  induction m with
  | nil =>
    intro h
    rfl
  | cons p t ih =>
    intro h
    obtain ⟨dk, dst⟩ := p
    have h1 : dk = makeFakeDestinationKey dst := h (dk, dst) (List.mem_cons_self _ _)
    simp only [List.map_cons]
    rw [ih (fun q hq => h q (List.mem_cons_of_mem _ hq))]
    rw [h1]
    rfl

theorem buildDesiredStateGo_nodup (isHealthy : String → Bool) :
    ∀ (configs : List ServiceConfig) (acc dm : List (ServiceKey × DesiredService)),
    buildDesiredStateGo isHealthy configs acc = .ok dm →
    (akeys acc).Nodup → (akeys dm).Nodup := by
  intro configs
  induction configs with
  | nil =>
    intro acc dm h hacc
    rw [buildDesiredStateGo] at h
    injection h with h
    subst h
    exact hacc
  | cons c rest ih =>
    intro acc dm h hacc
    rw [buildDesiredStateGo] at h
    cases hb : buildOne isHealthy c with
    | error e =>
      simp only [hb] at h
      exact Except.noConfusion h
    | ok p0 =>
      obtain ⟨key, ds⟩ := p0
      simp only [hb] at h
      exact ih _ dm h (akeys_ainsert_nodup _ _ _ hacc)

theorem buildDesiredState_nodup (isHealthy : String → Bool)
    (configs : List ServiceConfig) (dm : List (ServiceKey × DesiredService))
    (h : buildDesiredState isHealthy configs = .ok dm) : (akeys dm).Nodup :=
  buildDesiredStateGo_nodup isHealthy configs [] dm h (by simp [akeys])

theorem buildDesiredStateGo_sound (isHealthy : String → Bool) :
    ∀ (configs : List ServiceConfig) (acc dm : List (ServiceKey × DesiredService)),
    buildDesiredStateGo isHealthy configs acc = .ok dm →
    ∀ p ∈ dm, (∃ cfg ∈ configs, buildOne isHealthy cfg = .ok p) ∨ p ∈ acc := by
  intro configs
  induction configs with
  | nil =>
    intro acc dm h p hp
    rw [buildDesiredStateGo] at h
    injection h with h
    subst h
    exact Or.inr hp
  | cons c rest ih =>
    intro acc dm h p hp
    rw [buildDesiredStateGo] at h
    cases hb : buildOne isHealthy c with
    | error e =>
      simp only [hb] at h
      exact Except.noConfusion h
    | ok p0 =>
      obtain ⟨key, ds⟩ := p0
      simp only [hb] at h
      rcases ih _ dm h p hp with ⟨cfg, hcfg, hbo⟩ | hacc
      · exact Or.inl ⟨cfg, List.mem_cons_of_mem _ hcfg, hbo⟩
      · rcases mem_ainsert hacc with he | hm
        · subst he
          exact Or.inl ⟨c, List.mem_cons_self _ _, hb⟩
        · exact Or.inr hm

theorem buildDesiredState_sound (isHealthy : String → Bool)
    (configs : List ServiceConfig) (dm : List (ServiceKey × DesiredService))
    (h : buildDesiredState isHealthy configs = .ok dm) :
    ∀ p ∈ dm, ∃ cfg ∈ configs, buildOne isHealthy cfg = .ok p := by
  intro p hp
  rcases buildDesiredStateGo_sound isHealthy configs [] dm h p hp with hc | hacc
  · exact hc
  · simp at hacc

theorem buildActualMapGo_alookup (managed : List ServiceKey) :
    ∀ (l acc : List (ServiceKey × Service)),
    (∀ p ∈ l, p.1 = makeFakeServiceKey p.2) → (akeys l).Nodup →
    ∀ q,
    (∀ v, alookup l q = some v →
      alookup (buildActualMapGo managed (l.map Prod.snd) acc) q =
        if q ∈ managed then some v else alookup acc q) ∧
    (alookup l q = none →
      alookup (buildActualMapGo managed (l.map Prod.snd) acc) q = alookup acc q) := by
  intro l
  induction l with
  | nil =>
    intro acc _ _ q
    exact ⟨fun v hv => by simp [alookup] at hv, fun _ => rfl⟩
  | cons p rest ih =>
    intro acc hkeyed hnd q
    obtain ⟨k0, svc⟩ := p
    have hk0 : k0 = makeFakeServiceKey svc := hkeyed (k0, svc) (List.mem_cons_self _ _)
    have hkrest : ∀ p ∈ rest, p.1 = makeFakeServiceKey p.2 :=
      fun p hp => hkeyed p (List.mem_cons_of_mem _ hp)
    have hndr : (akeys rest).Nodup := (List.nodup_cons.mp hnd).2
    have hk0r : k0 ∉ akeys rest := (List.nodup_cons.mp hnd).1
    simp only [List.map_cons, buildActualMapGo, SKFromIPVS_eq_fake, ← hk0]
    by_cases hm : k0 ∈ managed
    · rw [if_pos hm]
      by_cases hq : k0 = q
      · subst hq
        constructor
        · intro v hv
          rw [alookup, if_pos rfl] at hv
          injection hv with hv
          subst hv
          have hrn : alookup rest k0 = none :=
            (alookup_eq_none_iff rest k0).mpr hk0r
          rw [(ih (ainsert acc k0 svc) hkrest hndr k0).2 hrn,
            alookup_ainsert, if_pos rfl, if_pos hm]
        · intro hv
          rw [alookup, if_pos rfl] at hv
          exact Option.noConfusion hv
      · constructor
        · intro v hv
          rw [alookup, if_neg hq] at hv
          rw [(ih (ainsert acc k0 svc) hkrest hndr q).1 v hv,
            alookup_ainsert, if_neg hq]
        · intro hv
          rw [alookup, if_neg hq] at hv
          rw [(ih (ainsert acc k0 svc) hkrest hndr q).2 hv,
            alookup_ainsert, if_neg hq]
    · rw [if_neg hm]
      by_cases hq : k0 = q
      · subst hq
        constructor
        · intro v hv
          rw [alookup, if_pos rfl] at hv
          injection hv with hv
          subst hv
          have hrn : alookup rest k0 = none :=
            (alookup_eq_none_iff rest k0).mpr hk0r
          rw [(ih acc hkrest hndr k0).2 hrn, if_neg hm]
        · intro hv
          rw [alookup, if_pos rfl] at hv
          exact Option.noConfusion hv
      · constructor
        · intro v hv
          rw [alookup, if_neg hq] at hv
          exact (ih acc hkrest hndr q).1 v hv
        · intro hv
          rw [alookup, if_neg hq] at hv
          exact (ih acc hkrest hndr q).2 hv

theorem buildActualMap_alookup (managed : List ServiceKey) (k : Kernel)
    (hwf : k.WF) (q : ServiceKey) :
    (∀ v, alookup k.services q = some v →
      alookup (buildActualMap managed k.getServices) q =
        if q ∈ managed then some v else none) ∧
    (alookup k.services q = none →
      alookup (buildActualMap managed k.getServices) q = none) := by
  have h := buildActualMapGo_alookup managed k.services []
    (fun p hp => hwf.svcKeyed p hp) hwf.svcNodup q
  exact h

/-! ## Invariant preservation through the service-level loops -/

theorem scuStep_WF (am : List (ServiceKey × Service)) (key : ServiceKey)
    (d : DesiredService) (st : PassState) (hwf : st.kernel.WF) :
    (scuStep am key d st).kernel.WF := by
  rw [scuStep]
  cases hl : alookup am key with
  | none =>
    cases hop : st.kernel.newService d.service with
    | error e =>
      simp only [hl, hop]
      exact hwf
    | ok k1 =>
      simp only [hl, hop]
      exact reconcileDestinations_WF _ _ (newService_WF hwf hop)
  | some actual =>
    simp only [hl]
    by_cases hsch : ¬ actual.SchedName = d.service.SchedName
    · rw [if_pos hsch]
      cases hop : st.kernel.updateService d.service with
      | error e =>
        simp only [hop]
        exact hwf
      | ok k1 =>
        simp only [hop]
        exact reconcileDestinations_WF _ _ (updateService_WF hwf hop)
    · rw [if_neg hsch]
      exact reconcileDestinations_WF _ _ hwf

theorem serviceCreateUpdate_WF (am : List (ServiceKey × Service)) :
    ∀ (todo : List (ServiceKey × DesiredService)) (st : PassState),
    st.kernel.WF → (serviceCreateUpdate am todo st).kernel.WF := by
  intro todo
  induction todo with
  | nil => exact fun st h => h
  | cons p rest ih =>
    intro st hwf
    obtain ⟨key, d⟩ := p
    rw [serviceCreateUpdate_cons]
    exact ih _ (scuStep_WF am key d st hwf)

theorem sdStep_WF (dm : List (ServiceKey × DesiredService)) (key : ServiceKey)
    (a : Service) (st : PassState) (hwf : st.kernel.WF) :
    (sdStep dm key a st).kernel.WF := by
  rw [sdStep]
  cases hl : alookup dm key with
  | some d0 =>
    simp only [hl]
    exact hwf
  | none =>
    cases hop : st.kernel.delService a with
    | error e =>
      simp only [hl, hop]
      exact hwf
    | ok k1 =>
      simp only [hl, hop]
      exact delService_WF hwf hop

theorem serviceDelete_WF (dm : List (ServiceKey × DesiredService)) :
    ∀ (todo : List (ServiceKey × Service)) (st : PassState),
    st.kernel.WF → (serviceDelete dm todo st).kernel.WF := by
  intro todo
  induction todo with
  | nil => exact fun st h => h
  | cons p rest ih =>
    intro st hwf
    obtain ⟨key, a⟩ := p
    rw [serviceDelete_cons]
    exact ih _ (sdStep_WF dm key a st hwf)

theorem runReconcile_WF (isHealthy : String → Bool) (managed0 : List ServiceKey)
    (k0 : Kernel) (configs : List ServiceConfig) (hwf : k0.WF) :
    (runReconcile isHealthy managed0 k0 configs).kernel.WF := by
  rw [runReconcile]
  cases hb : buildDesiredState isHealthy configs with
  | error e =>
    simp only [hb]
    exact hwf
  | ok dm =>
    simp only [hb]
    exact serviceDelete_WF _ _ _
      (serviceCreateUpdate_WF _ _ _ hwf)

/-! ## No-op conditions: a pass over a converged state issues nothing -/

theorem destCreateUpdate_noop (svc : Service) (skey : ServiceKey)
    (am : List (DestinationKey × Destination)) :
    ∀ (todo : List (DestinationKey × Destination)) (st : PassState),
    (∀ p ∈ todo, ∃ ad, alookup am p.1 = some ad ∧ ad.Weight = p.2.Weight) →
    destCreateUpdate svc skey am todo st = st := by
  intro todo
  induction todo with
  | nil =>
    intro st _
    rfl
  | cons p rest ih =>
    intro st h
    obtain ⟨dkey, dd⟩ := p
    obtain ⟨ad, had, hw⟩ := h (dkey, dd) (List.mem_cons_self _ _)
    rw [destCreateUpdate]
    simp only [had]
    rw [if_neg (not_not_intro hw)]
    exact ih st (fun p hp => h p (List.mem_cons_of_mem _ hp))

theorem destDelete_noop (svc : Service) (skey : ServiceKey)
    (dm : List (DestinationKey × Destination)) :
    ∀ (todo : List (DestinationKey × Destination)) (st : PassState),
    (∀ p ∈ todo, (alookup dm p.1).isSome = true) →
    destDelete svc skey dm todo st = st := by
  intro todo
  induction todo with
  | nil =>
    intro st _
    rfl
  | cons p rest ih =>
    intro st h
    obtain ⟨dkey, ad⟩ := p
    have hs := h (dkey, ad) (List.mem_cons_self _ _)
    rw [destDelete]
    cases hl : alookup dm dkey with
    | none =>
      rw [hl] at hs
      exact absurd hs (by simp)
    | some d0 =>
      simp only [hl]
      exact ih st (fun p hp => h p (List.mem_cons_of_mem _ hp))

theorem reconcileDestinations_noop (st : PassState) (d : DesiredService)
    (m : List (DestinationKey × Destination))
    (hm : alookup st.kernel.destinations (makeFakeServiceKey d.service) = some m)
    (hkeyed : ∀ p ∈ m, p.1 = makeFakeDestinationKey p.2)
    (h1 : ∀ p ∈ buildDestMap d.destinations,
      ∃ ad, alookup m p.1 = some ad ∧ ad.Weight = p.2.Weight)
    (h2 : ∀ p ∈ m, (alookup (buildDestMap d.destinations) p.1).isSome = true) :
    reconcileDestinations st d = st := by
  rw [reconcileDestinations]
  simp only [getDestinations_of_lookup _ _ _ hm]
  rw [destMap_map_self m hkeyed]
  rw [destCreateUpdate_noop _ _ _ _ _ h1]
  exact destDelete_noop _ _ _ _ _ h2

theorem scuStep_noop (am : List (ServiceKey × Service)) (key : ServiceKey)
    (d : DesiredService) (st : PassState) (actual : Service)
    (hl : alookup am key = some actual)
    (hsch : actual.SchedName = d.service.SchedName)
    (hrd : reconcileDestinations st d = st) :
    scuStep am key d st = st := by
  rw [scuStep]
  simp only [hl]
  rw [if_neg (not_not_intro hsch), hrd]

theorem serviceCreateUpdate_noop (am : List (ServiceKey × Service)) :
    ∀ (todo : List (ServiceKey × DesiredService)) (st : PassState),
    (∀ p ∈ todo, scuStep am p.1 p.2 st = st) →
    serviceCreateUpdate am todo st = st := by
  intro todo
  induction todo with
  | nil =>
    intro st _
    rfl
  | cons p rest ih =>
    intro st h
    obtain ⟨key, d⟩ := p
    rw [serviceCreateUpdate_cons, h (key, d) (List.mem_cons_self _ _)]
    exact ih st (fun p hp => h p (List.mem_cons_of_mem _ hp))

theorem sdStep_noop (dm : List (ServiceKey × DesiredService)) (key : ServiceKey)
    (a : Service) (st : PassState) (d0 : DesiredService)
    (hl : alookup dm key = some d0) :
    sdStep dm key a st = st := by
  rw [sdStep, hl]

theorem serviceDelete_noop (dm : List (ServiceKey × DesiredService)) :
    ∀ (todo : List (ServiceKey × Service)) (st : PassState),
    (∀ p ∈ todo, ∃ d0, alookup dm p.1 = some d0) →
    serviceDelete dm todo st = st := by
  intro todo
  induction todo with
  | nil =>
    intro st _
    rfl
  | cons p rest ih =>
    intro st h
    obtain ⟨key, a⟩ := p
    obtain ⟨d0, hd0⟩ := h (key, a) (List.mem_cons_self _ _)
    rw [serviceDelete_cons, sdStep_noop dm key a st d0 hd0]
    exact ih st (fun p hp => h p (List.mem_cons_of_mem _ hp))

/-! ## What an error-free destination diff guarantees -/

theorem lookupDest_eq (k : Kernel) (key : ServiceKey)
    (m : List (DestinationKey × Destination))
    (h : alookup k.destinations key = some m) (dk : DestinationKey) :
    lookupDest k key dk = alookup m dk := by
  rw [lookupDest, h]

theorem lookupDest_none (k : Kernel) (key : ServiceKey)
    (h : alookup k.destinations key = none) (dk : DestinationKey) :
    lookupDest k key dk = none := by
  rw [lookupDest, h]

theorem alookup_aerase_none {α β : Type} [DecidableEq α] (l : List (α × β)) (k x : α)
    (h : alookup l x = none) : alookup (aerase l k) x = none := by
  rw [alookup_eq_none_iff] at h ⊢
  exact fun hmem => h ((akeys_aerase_sublist l k).subset hmem)

theorem destCreateUpdate_destFrame (svc : Service) (skey : ServiceKey)
    (am : List (DestinationKey × Destination)) :
    ∀ (todo : List (DestinationKey × Destination)) (st : PassState) (dk : DestinationKey),
    (∀ p ∈ todo, p.1 = makeFakeDestinationKey p.2) →
    dk ∉ akeys todo →
    lookupDest (destCreateUpdate svc skey am todo st).kernel (makeFakeServiceKey svc) dk =
      lookupDest st.kernel (makeFakeServiceKey svc) dk := by
  intro todo
  induction todo with
  | nil =>
    intro st dk _ _
    rfl
  | cons p rest ih =>
    intro st dk hkeyed hdk
    obtain ⟨dkey, dd⟩ := p
    have hkd : dkey = makeFakeDestinationKey dd := hkeyed (dkey, dd) (List.mem_cons_self _ _)
    have hkr : ∀ p ∈ rest, p.1 = makeFakeDestinationKey p.2 :=
      fun p hp => hkeyed p (List.mem_cons_of_mem _ hp)
    rw [akeys, List.map_cons, List.mem_cons] at hdk
    push_neg at hdk
    obtain ⟨hdk1, hdk2⟩ := hdk
    rw [← akeys] at hdk2
    have hne : ¬ makeFakeDestinationKey dd = dk :=
      fun he => hdk1 (he.symm.trans hkd.symm)
    rw [destCreateUpdate]
    cases hl : alookup am dkey with
    | none =>
      cases hop : st.kernel.newDestination svc dd with
      | error e =>
        simp only [hl, hop]
        rw [ih _ dk hkr hdk2]
      | ok k1 =>
        simp only [hl, hop]
        rw [ih _ dk hkr hdk2]
        show lookupDest k1 (makeFakeServiceKey svc) dk = _
        obtain ⟨dstMap, hmam, hinner, hserv, hdest⟩ := newDestination_ok hop
        have houter : alookup k1.destinations (makeFakeServiceKey svc) =
            some (dstMap ++ [(makeFakeDestinationKey dd, dd)]) := by
          rw [hdest, alookup_ainsert, if_pos rfl]
        rw [lookupDest_eq _ _ _ houter dk, lookupDest_eq _ _ _ hmam dk]
        exact alookup_append_ne _ _ _ _ hne
    | some actual =>
      by_cases hw : ¬ actual.Weight = dd.Weight
      · cases hop : st.kernel.updateDestination svc dd with
        | error e =>
          simp only [hl, hop, if_pos hw]
          rw [ih _ dk hkr hdk2]
        | ok k1 =>
          simp only [hl, hop, if_pos hw]
          rw [ih _ dk hkr hdk2]
          show lookupDest k1 (makeFakeServiceKey svc) dk = _
          obtain ⟨dstMap, hmam, hinner, hserv, hdest⟩ := updateDestination_ok hop
          have houter : alookup k1.destinations (makeFakeServiceKey svc) =
              some (ainsert dstMap (makeFakeDestinationKey dd) dd) := by
            rw [hdest, alookup_ainsert, if_pos rfl]
          rw [lookupDest_eq _ _ _ houter dk, lookupDest_eq _ _ _ hmam dk]
          rw [alookup_ainsert, if_neg hne]
      · simp only [hl, if_neg hw]
        rw [ih _ dk hkr hdk2]

theorem destCreateUpdate_post (svc : Service) (skey : ServiceKey)
    (am : List (DestinationKey × Destination)) :
    ∀ (todo : List (DestinationKey × Destination)) (st : PassState),
    (akeys todo).Nodup →
    (∀ p ∈ todo, p.1 = makeFakeDestinationKey p.2) →
    (∀ dk ∈ akeys todo, lookupDest st.kernel (makeFakeServiceKey svc) dk = alookup am dk) →
    (destCreateUpdate svc skey am todo st).errs = st.errs →
    ∀ p ∈ todo, ∃ sd,
      lookupDest (destCreateUpdate svc skey am todo st).kernel (makeFakeServiceKey svc) p.1 =
        some sd ∧ sd.Weight = p.2.Weight := by
  intro todo
  induction todo with
  | nil =>
    intro st _ _ _ _ p hp
    simp at hp
  | cons q rest ih =>
    intro st hnd hkeyed ham herr
    obtain ⟨dkey, dd⟩ := q
    have hkd : dkey = makeFakeDestinationKey dd := hkeyed _ (List.mem_cons_self _ _)
    have hkr : ∀ p ∈ rest, p.1 = makeFakeDestinationKey p.2 :=
      fun p hp => hkeyed p (List.mem_cons_of_mem _ hp)
    rw [akeys, List.map_cons] at hnd
    have hh : dkey ∉ akeys rest := (List.nodup_cons.mp hnd).1
    have hndr : (akeys rest).Nodup := (List.nodup_cons.mp hnd).2
    have hamh : lookupDest st.kernel (makeFakeServiceKey svc) dkey = alookup am dkey :=
      ham dkey (by rw [akeys, List.map_cons]; exact List.mem_cons_self _ _)
    rw [destCreateUpdate] at herr ⊢
    cases hl : alookup am dkey with
    | none =>
      cases hop : st.kernel.newDestination svc dd with
      | error e =>
        simp only [hl, hop] at herr ⊢
        obtain ⟨δ, hδ⟩ := (destCreateUpdate_shape svc skey am rest
          { st with errs := st.errs ++ [e], trace := st.trace ++ [TraceOp.createDst skey dkey false] }).2.2.2.2
        rw [hδ] at herr
        have h2 : st.errs ++ ([e] ++ δ) = st.errs := by
          rw [← List.append_assoc]
          exact herr
        have h3 := append_right_nil _ _ h2
        simp at h3
      | ok k1 =>
        simp only [hl, hop] at herr ⊢
        obtain ⟨dstMap, hmam, hinner, hserv, hdest⟩ := newDestination_ok hop
        rw [← hkd] at hinner hdest
        have houter : alookup k1.destinations (makeFakeServiceKey svc) =
            some (dstMap ++ [(dkey, dd)]) := by
          rw [hdest, alookup_ainsert, if_pos rfl]
        have hstep_at : lookupDest k1 (makeFakeServiceKey svc) dkey = some dd := by
          rw [lookupDest_eq _ _ _ houter dkey]
          exact alookup_append_self _ _ _ hinner
        have hstep_frame : ∀ dk2, ¬ dk2 = dkey →
            lookupDest k1 (makeFakeServiceKey svc) dk2 =
              lookupDest st.kernel (makeFakeServiceKey svc) dk2 := by
          intro dk2 hne2
          rw [lookupDest_eq _ _ _ houter dk2, lookupDest_eq _ _ _ hmam dk2]
          exact alookup_append_ne _ _ _ _ (fun he => hne2 he.symm)
        intro p hp
        rcases List.mem_cons.mp hp with he | hm
        · subst he
          refine ⟨dd, ?_, rfl⟩
          rw [destCreateUpdate_destFrame svc skey am rest _ dkey hkr hh]
          exact hstep_at
        · refine ih _ hndr hkr ?_ herr p hm
          intro dk hdk
          have hne2 : ¬ dk = dkey := fun he => hh (he ▸ hdk)
          show lookupDest k1 (makeFakeServiceKey svc) dk = alookup am dk
          rw [hstep_frame dk hne2]
          exact ham dk (by rw [akeys, List.map_cons]; exact List.mem_cons_of_mem _ hdk)
    | some actual =>
      by_cases hw : ¬ actual.Weight = dd.Weight
      · cases hop : st.kernel.updateDestination svc dd with
        | error e =>
          simp only [hl, hop, if_pos hw] at herr ⊢
          obtain ⟨δ, hδ⟩ := (destCreateUpdate_shape svc skey am rest
            { st with errs := st.errs ++ [e], trace := st.trace ++ [TraceOp.updateDst skey dkey false] }).2.2.2.2
          rw [hδ] at herr
          have h2 : st.errs ++ ([e] ++ δ) = st.errs := by
            rw [← List.append_assoc]
            exact herr
          have h3 := append_right_nil _ _ h2
          simp at h3
        | ok k1 =>
          simp only [hl, hop, if_pos hw] at herr ⊢
          obtain ⟨dstMap, hmam, hinner, hserv, hdest⟩ := updateDestination_ok hop
          rw [← hkd] at hinner hdest
          have houter : alookup k1.destinations (makeFakeServiceKey svc) =
              some (ainsert dstMap dkey dd) := by
            rw [hdest, alookup_ainsert, if_pos rfl]
          have hstep_at : lookupDest k1 (makeFakeServiceKey svc) dkey = some dd := by
            rw [lookupDest_eq _ _ _ houter dkey, alookup_ainsert, if_pos rfl]
          have hstep_frame : ∀ dk2, ¬ dk2 = dkey →
              lookupDest k1 (makeFakeServiceKey svc) dk2 =
                lookupDest st.kernel (makeFakeServiceKey svc) dk2 := by
            intro dk2 hne2
            rw [lookupDest_eq _ _ _ houter dk2, lookupDest_eq _ _ _ hmam dk2]
            rw [alookup_ainsert, if_neg (fun he => hne2 he.symm)]
          intro p hp
          rcases List.mem_cons.mp hp with he | hm
          · subst he
            refine ⟨dd, ?_, rfl⟩
            rw [destCreateUpdate_destFrame svc skey am rest _ dkey hkr hh]
            exact hstep_at
          · refine ih _ hndr hkr ?_ herr p hm
            intro dk hdk
            have hne2 : ¬ dk = dkey := fun he => hh (he ▸ hdk)
            show lookupDest k1 (makeFakeServiceKey svc) dk = alookup am dk
            rw [hstep_frame dk hne2]
            exact ham dk (by rw [akeys, List.map_cons]; exact List.mem_cons_of_mem _ hdk)
      · simp only [hl, if_neg hw] at herr ⊢
        have hweq : actual.Weight = dd.Weight := not_not.mp hw
        intro p hp
        rcases List.mem_cons.mp hp with he | hm
        · subst he
          refine ⟨actual, ?_, hweq⟩
          rw [destCreateUpdate_destFrame svc skey am rest _ dkey hkr hh]
          rw [hamh, hl]
        · refine ih _ hndr hkr ?_ herr p hm
          intro dk hdk
          exact ham dk (by rw [akeys, List.map_cons]; exact List.mem_cons_of_mem _ hdk)

theorem destDelete_none_mono (svc : Service) (skey : ServiceKey)
    (dm : List (DestinationKey × Destination)) :
    ∀ (todo : List (DestinationKey × Destination)) (st : PassState) (dk : DestinationKey),
    lookupDest st.kernel (makeFakeServiceKey svc) dk = none →
    lookupDest (destDelete svc skey dm todo st).kernel (makeFakeServiceKey svc) dk = none := by
  intro todo
  induction todo with
  | nil =>
    intro st dk h
    exact h
  | cons q rest ih =>
    intro st dk h
    obtain ⟨dkey, ad⟩ := q
    rw [destDelete]
    cases hl : alookup dm dkey with
    | some d0 =>
      simp only [hl]
      exact ih st dk h
    | none =>
      cases hop : st.kernel.delDestination svc ad with
      | error e =>
        simp only [hl, hop]
        exact ih _ dk h
      | ok k1 =>
        simp only [hl, hop]
        refine ih _ dk ?_
        show lookupDest k1 (makeFakeServiceKey svc) dk = none
        obtain ⟨dstMap, hmam, hinner, hserv, hdest⟩ := delDestination_ok hop
        have houter : alookup k1.destinations (makeFakeServiceKey svc) =
            some (aerase dstMap (makeFakeDestinationKey ad)) := by
          rw [hdest, alookup_ainsert, if_pos rfl]
        rw [lookupDest_eq _ _ _ houter dk]
        rw [lookupDest_eq _ _ _ hmam dk] at h
        exact alookup_aerase_none _ _ _ h

theorem destDelete_desired_frame (svc : Service) (skey : ServiceKey)
    (dm : List (DestinationKey × Destination)) :
    ∀ (todo : List (DestinationKey × Destination)) (st : PassState) (dk : DestinationKey),
    (∀ p ∈ todo, p.1 = makeFakeDestinationKey p.2) →
    (alookup dm dk).isSome = true →
    lookupDest (destDelete svc skey dm todo st).kernel (makeFakeServiceKey svc) dk =
      lookupDest st.kernel (makeFakeServiceKey svc) dk := by
  intro todo
  induction todo with
  | nil =>
    intro st dk _ _
    rfl
  | cons q rest ih =>
    intro st dk hkeyed hsome
    obtain ⟨dkey, ad⟩ := q
    have hkd : dkey = makeFakeDestinationKey ad := hkeyed _ (List.mem_cons_self _ _)
    have hkr : ∀ p ∈ rest, p.1 = makeFakeDestinationKey p.2 :=
      fun p hp => hkeyed p (List.mem_cons_of_mem _ hp)
    rw [destDelete]
    cases hl : alookup dm dkey with
    | some d0 =>
      simp only [hl]
      exact ih st dk hkr hsome
    | none =>
      have hne : ¬ dk = dkey := by
        intro he
        rw [he] at hsome
        rw [hl] at hsome
        exact Bool.false_ne_true hsome
      cases hop : st.kernel.delDestination svc ad with
      | error e =>
        simp only [hl, hop]
        exact ih _ dk hkr hsome
      | ok k1 =>
        simp only [hl, hop]
        rw [ih _ dk hkr hsome]
        show lookupDest k1 (makeFakeServiceKey svc) dk = _
        obtain ⟨dstMap, hmam, hinner, hserv, hdest⟩ := delDestination_ok hop
        rw [← hkd] at hdest
        have houter : alookup k1.destinations (makeFakeServiceKey svc) =
            some (aerase dstMap dkey) := by
          rw [hdest, alookup_ainsert, if_pos rfl]
        rw [lookupDest_eq _ _ _ houter dk, lookupDest_eq _ _ _ hmam dk]
        exact alookup_aerase_ne _ _ _ (fun he => hne he.symm)

theorem destDelete_post (svc : Service) (skey : ServiceKey)
    (dm : List (DestinationKey × Destination)) :
    ∀ (todo : List (DestinationKey × Destination)) (st : PassState),
    st.kernel.WF →
    (∀ p ∈ todo, p.1 = makeFakeDestinationKey p.2) →
    (destDelete svc skey dm todo st).errs = st.errs →
    ∀ p ∈ todo, alookup dm p.1 = none →
    lookupDest (destDelete svc skey dm todo st).kernel (makeFakeServiceKey svc) p.1 = none := by
  intro todo
  induction todo with
  | nil =>
    intro st _ _ _ p hp
    simp at hp
  | cons q rest ih =>
    intro st hwf hkeyed herr
    obtain ⟨dkey, ad⟩ := q
    have hkd : dkey = makeFakeDestinationKey ad := hkeyed _ (List.mem_cons_self _ _)
    have hkr : ∀ p ∈ rest, p.1 = makeFakeDestinationKey p.2 :=
      fun p hp => hkeyed p (List.mem_cons_of_mem _ hp)
    rw [destDelete] at herr ⊢
    cases hl : alookup dm dkey with
    | some d0 =>
      simp only [hl] at herr ⊢
      intro p hp hpn
      rcases List.mem_cons.mp hp with he | hm
      · subst he
        rw [hl] at hpn
        exact Option.noConfusion hpn
      · exact ih st hwf hkr herr p hm hpn
    | none =>
      cases hop : st.kernel.delDestination svc ad with
      | error e =>
        simp only [hl, hop] at herr ⊢
        obtain ⟨δ, hδ⟩ := (destDelete_shape svc skey dm rest
          { st with errs := st.errs ++ [e], trace := st.trace ++ [TraceOp.deleteDst skey dkey false] }).2.2.2.2
        rw [hδ] at herr
        have h2 : st.errs ++ ([e] ++ δ) = st.errs := by
          rw [← List.append_assoc]
          exact herr
        have h3 := append_right_nil _ _ h2
        simp at h3
      | ok k1 =>
        simp only [hl, hop] at herr ⊢
        obtain ⟨dstMap, hmam, hinner, hserv, hdest⟩ := delDestination_ok hop
        rw [← hkd] at hdest
        have houter : alookup k1.destinations (makeFakeServiceKey svc) =
            some (aerase dstMap dkey) := by
          rw [hdest, alookup_ainsert, if_pos rfl]
        have hndin : (akeys dstMap).Nodup :=
          hwf.dstInnerNodup (makeFakeServiceKey svc, dstMap) (alookup_mem hmam)
        have hstep_at : lookupDest k1 (makeFakeServiceKey svc) dkey = none := by
          rw [lookupDest_eq _ _ _ houter dkey]
          exact alookup_aerase_self _ _ hndin
        have hwf1 : k1.WF := delDestination_WF hwf hop
        intro p hp hpn
        rcases List.mem_cons.mp hp with he | hm
        · subst he
          exact destDelete_none_mono svc skey dm rest _ dkey hstep_at
        · exact ih _ hwf1 hkr herr p hm hpn

theorem reconcileDestinations_post (st : PassState) (d : DesiredService)
    (hwf : st.kernel.WF)
    (herr : (reconcileDestinations st d).errs = st.errs) :
    (∀ p ∈ buildDestMap d.destinations, ∃ sd,
      lookupDest (reconcileDestinations st d).kernel (makeFakeServiceKey d.service) p.1 =
        some sd ∧ sd.Weight = p.2.Weight) ∧
    (∀ dk, alookup (buildDestMap d.destinations) dk = none →
      lookupDest (reconcileDestinations st d).kernel (makeFakeServiceKey d.service) dk = none) := by
  rw [reconcileDestinations] at herr ⊢
  cases hm : alookup st.kernel.destinations (makeFakeServiceKey d.service) with
  | none =>
    have hg : st.kernel.getDestinations d.service = .error "service not found" := by
      rw [Kernel.getDestinations, hm]
    simp only [hg] at herr ⊢
    have h3 := append_right_nil st.errs ["service not found"] herr
    simp at h3
  | some m =>
    have hg : st.kernel.getDestinations d.service = .ok (m.map Prod.snd) :=
      getDestinations_of_lookup _ _ _ hm
    simp only [hg] at herr ⊢
    have hkm : ∀ p ∈ m, p.1 = makeFakeDestinationKey p.2 :=
      hwf.dstKeyed (makeFakeServiceKey d.service, m) (alookup_mem hm)
    rw [destMap_map_self m hkm] at herr ⊢
    obtain ⟨δ1, hδ1⟩ := (destCreateUpdate_shape d.service (makeFakeServiceKey d.service)
      m (buildDestMap d.destinations) st).2.2.2.2
    obtain ⟨δ2, hδ2⟩ := (destDelete_shape d.service (makeFakeServiceKey d.service)
      (buildDestMap d.destinations) m (destCreateUpdate d.service
        (makeFakeServiceKey d.service) m (buildDestMap d.destinations) st)).2.2.2.2
    rw [hδ2, hδ1, List.append_assoc] at herr
    have hδnil := append_right_nil _ _ herr
    obtain ⟨h1, h2⟩ := List.append_eq_nil.mp hδnil
    have herr1 : (destCreateUpdate d.service (makeFakeServiceKey d.service)
        m (buildDestMap d.destinations) st).errs = st.errs := by
      rw [hδ1, h1]
      simp
    have herr2 : (destDelete d.service (makeFakeServiceKey d.service)
        (buildDestMap d.destinations) m (destCreateUpdate d.service
          (makeFakeServiceKey d.service) m (buildDestMap d.destinations) st)).errs =
        (destCreateUpdate d.service (makeFakeServiceKey d.service)
          m (buildDestMap d.destinations) st).errs := by
      rw [hδ2, h2]
      simp
    have hwf1 := destCreateUpdate_WF d.service (makeFakeServiceKey d.service)
      m (buildDestMap d.destinations) st hwf
    have ham : ∀ dk ∈ akeys (buildDestMap d.destinations),
        lookupDest st.kernel (makeFakeServiceKey d.service) dk = alookup m dk :=
      fun dk _ => lookupDest_eq _ _ _ hm dk
    have hpost1 := destCreateUpdate_post d.service (makeFakeServiceKey d.service)
      m (buildDestMap d.destinations) st (buildDestMap_nodup _)
      (buildDestMap_keyed _) ham herr1
    constructor
    · intro p hp
      obtain ⟨sd, hsd, hw⟩ := hpost1 p hp
      refine ⟨sd, ?_, hw⟩
      rw [destDelete_desired_frame d.service (makeFakeServiceKey d.service)
        (buildDestMap d.destinations) m _ p.1 hkm ?_]
      · exact hsd
      · refine (alookup_isSome_iff_mem_akeys _ _).mpr ?_
        exact List.mem_map_of_mem Prod.fst hp
    · intro dk hdkn
      have hdknm : dk ∉ akeys (buildDestMap d.destinations) :=
        (alookup_eq_none_iff _ _).mp hdkn
      have hafter1 : lookupDest (destCreateUpdate d.service (makeFakeServiceKey d.service)
          m (buildDestMap d.destinations) st).kernel (makeFakeServiceKey d.service) dk =
          lookupDest st.kernel (makeFakeServiceKey d.service) dk :=
        destCreateUpdate_destFrame _ _ _ _ _ dk (buildDestMap_keyed _) hdknm
      cases hmlk : alookup m dk with
      | some ad =>
        have hmem : (dk, ad) ∈ m := alookup_mem hmlk
        exact destDelete_post d.service (makeFakeServiceKey d.service)
          (buildDestMap d.destinations) m _ hwf1 hkm herr2 (dk, ad) hmem hdkn
      | none =>
        refine destDelete_none_mono _ _ _ m _ dk ?_
        rw [hafter1, lookupDest_eq _ _ _ hm dk]
        exact hmlk

/-! ## What an error-free pass establishes at each desired service -/

theorem lookupDest_outer_congr {k1 k2 : Kernel} {key : ServiceKey}
    (h : alookup k1.destinations key = alookup k2.destinations key)
    (dk : DestinationKey) : lookupDest k1 key dk = lookupDest k2 key dk := by
  simp only [lookupDest, h]

theorem scuStep_post (am : List (ServiceKey × Service)) (key : ServiceKey)
    (d : DesiredService) (st : PassState)
    (hk1 : makeFakeServiceKey d.service = key)
    (hwf : st.kernel.WF)
    (ham : ∀ a, alookup am key = some a → alookup st.kernel.services key = some a)
    (hmg : ∀ a, alookup am key = some a → key ∈ st.managed)
    (herr : (scuStep am key d st).errs = st.errs) :
    (∃ svc2, alookup (scuStep am key d st).kernel.services key = some svc2 ∧
      svc2.SchedName = d.service.SchedName) ∧
    (∀ p ∈ buildDestMap d.destinations, ∃ sd,
      lookupDest (scuStep am key d st).kernel key p.1 = some sd ∧
        sd.Weight = p.2.Weight) ∧
    (∀ dk, alookup (buildDestMap d.destinations) dk = none →
      lookupDest (scuStep am key d st).kernel key dk = none) ∧
    key ∈ (scuStep am key d st).managed := by
  cases hl : alookup am key with
  | none =>
    cases hop : st.kernel.newService d.service with
    | error e =>
      have hse : scuStep am key d st = { st with errs := st.errs ++ [e], trace := st.trace ++ [TraceOp.createSvc key false] } := by
        rw [scuStep, hl, hop]
      rw [hse] at herr
      have h3 := append_right_nil st.errs [e] herr
      simp at h3
    | ok k1 =>
      obtain ⟨hnone, hs, hd⟩ := newService_ok hop
      rw [hk1] at hs hnone
      have hse : scuStep am key d st = reconcileDestinations { st with kernel := k1, managed := minsert st.managed key, trace := st.trace ++ [TraceOp.createSvc key true] } d := by
        rw [scuStep, hl, hop]
      rw [hse] at herr ⊢
      obtain ⟨rs, rm, rd, _, _⟩ := reconcileDestinations_shape
        { st with kernel := k1, managed := minsert st.managed key, trace := st.trace ++ [TraceOp.createSvc key true] } d
      have hwfp : k1.WF := newService_WF hwf hop
      have hpost := reconcileDestinations_post
        { st with kernel := k1, managed := minsert st.managed key, trace := st.trace ++ [TraceOp.createSvc key true] } d hwfp herr
      rw [hk1] at hpost
      refine ⟨⟨d.service, ?_, rfl⟩, hpost.1, hpost.2, ?_⟩
      · rw [rs]
        show alookup k1.services key = some d.service
        rw [hs]
        exact alookup_append_self _ _ _ hnone
      · rw [rm]
        show key ∈ minsert st.managed key
        rw [mem_minsert]
        exact Or.inr rfl
  | some actual =>
    by_cases hsch : ¬ actual.SchedName = d.service.SchedName
    · cases hop : st.kernel.updateService d.service with
      | error e =>
        have hse : scuStep am key d st = { st with errs := st.errs ++ [e], trace := st.trace ++ [TraceOp.updateSvc key false] } := by
          simp only [scuStep, hl]
          rw [if_pos hsch, hop]
        rw [hse] at herr
        have h3 := append_right_nil st.errs [e] herr
        simp at h3
      | ok k1 =>
        obtain ⟨hsome, hs, hd⟩ := updateService_ok hop
        rw [hk1] at hs
        have hse : scuStep am key d st = reconcileDestinations { st with kernel := k1, trace := st.trace ++ [TraceOp.updateSvc key true] } d := by
          simp only [scuStep, hl]
          rw [if_pos hsch, hop]
        rw [hse] at herr ⊢
        obtain ⟨rs, rm, rd, _, _⟩ := reconcileDestinations_shape
          { st with kernel := k1, trace := st.trace ++ [TraceOp.updateSvc key true] } d
        have hwfp : k1.WF := updateService_WF hwf hop
        have hpost := reconcileDestinations_post
          { st with kernel := k1, trace := st.trace ++ [TraceOp.updateSvc key true] } d hwfp herr
        rw [hk1] at hpost
        refine ⟨⟨d.service, ?_, rfl⟩, hpost.1, hpost.2, ?_⟩
        · rw [rs]
          show alookup k1.services key = some d.service
          rw [hs, alookup_ainsert, if_pos rfl]
        · rw [rm]
          show key ∈ st.managed
          exact hmg actual hl
    · have hse : scuStep am key d st = reconcileDestinations st d := by
        simp only [scuStep, hl]
        rw [if_neg hsch]
      rw [hse] at herr ⊢
      obtain ⟨rs, rm, rd, _, _⟩ := reconcileDestinations_shape st d
      have hpost := reconcileDestinations_post st d hwf herr
      rw [hk1] at hpost
      refine ⟨⟨actual, ?_, not_not.mp hsch⟩, hpost.1, hpost.2, ?_⟩
      · rw [rs]
        exact ham actual hl
      · rw [rm]
        exact hmg actual hl

theorem serviceCreateUpdate_post (am : List (ServiceKey × Service)) :
    ∀ (todo : List (ServiceKey × DesiredService)) (st : PassState),
    (akeys todo).Nodup →
    (∀ p ∈ todo, makeFakeServiceKey p.2.service = p.1) →
    st.kernel.WF →
    (∀ key ∈ akeys todo, ∀ a, alookup am key = some a →
      alookup st.kernel.services key = some a) →
    (∀ key ∈ akeys todo, ∀ a, alookup am key = some a → key ∈ st.managed) →
    (serviceCreateUpdate am todo st).errs = st.errs →
    ∀ p ∈ todo,
      (∃ svc2, alookup (serviceCreateUpdate am todo st).kernel.services p.1 = some svc2 ∧
        svc2.SchedName = p.2.service.SchedName) ∧
      (∀ q ∈ buildDestMap p.2.destinations, ∃ sd,
        lookupDest (serviceCreateUpdate am todo st).kernel p.1 q.1 = some sd ∧
          sd.Weight = q.2.Weight) ∧
      (∀ dk, alookup (buildDestMap p.2.destinations) dk = none →
        lookupDest (serviceCreateUpdate am todo st).kernel p.1 dk = none) ∧
      p.1 ∈ (serviceCreateUpdate am todo st).managed := by
  intro todo
  induction todo with
  | nil =>
    intro st _ _ _ _ _ _ p hp
    simp at hp
  | cons q rest ih =>
    intro st hnd hkeys hwf ham hmg herr
    obtain ⟨key, d⟩ := q
    have hk1 : makeFakeServiceKey d.service = key := hkeys _ (List.mem_cons_self _ _)
    have hkrest : ∀ p ∈ rest, makeFakeServiceKey p.2.service = p.1 :=
      fun p hp => hkeys p (List.mem_cons_of_mem _ hp)
    rw [akeys, List.map_cons] at hnd
    have hh : key ∉ akeys rest := (List.nodup_cons.mp hnd).1
    have hndr : (akeys rest).Nodup := (List.nodup_cons.mp hnd).2
    rw [serviceCreateUpdate_cons] at herr ⊢
    obtain ⟨δt1, δe1, ht1, he1, hD1, hC1, hm1, hfs1, hfd1, hp1⟩ :=
      scuStep_shape am key d st hk1
    obtain ⟨δt2, δe2, ht2, he2, hD2, hC2, hm2, hfs2, hfd2, hp2⟩ :=
      serviceCreateUpdate_shape am rest (scuStep am key d st) hkrest
    rw [he2, he1, List.append_assoc] at herr
    obtain ⟨hδ1, hδ2⟩ := List.append_eq_nil.mp (append_right_nil _ _ herr)
    have herr1 : (scuStep am key d st).errs = st.errs := by
      rw [he1, hδ1]
      simp
    have herr2 : (serviceCreateUpdate am rest (scuStep am key d st)).errs =
        (scuStep am key d st).errs := by
      rw [he2, hδ2]
      simp
    have hwf1 : (scuStep am key d st).kernel.WF := scuStep_WF am key d st hwf
    have hmem_head : key ∈ akeys ((key, d) :: rest) := by
      rw [akeys, List.map_cons]
      exact List.mem_cons_self _ _
    have hpost := scuStep_post am key d st hk1 hwf
      (fun a ha => ham key hmem_head a ha)
      (fun a ha => hmg key hmem_head a ha) herr1
    intro p hp
    rcases List.mem_cons.mp hp with he | hm
    · subst he
      obtain ⟨⟨svc2, hsvc2, hsch2⟩, hP1, hP2, hmg2⟩ := hpost
      refine ⟨⟨svc2, ?_, hsch2⟩, ?_, ?_, ?_⟩
      · rw [hfs2 key hh]
        exact hsvc2
      · intro q hq
        obtain ⟨sd, hsd, hw⟩ := hP1 q hq
        exact ⟨sd, by rw [lookupDest_outer_congr (hfd2 key hh) q.1]; exact hsd, hw⟩
      · intro dk hdk
        rw [lookupDest_outer_congr (hfd2 key hh) dk]
        exact hP2 dk hdk
      · exact (hm2 key).mpr (Or.inl hmg2)
    · have hamr : ∀ key2 ∈ akeys rest, ∀ a, alookup am key2 = some a →
          alookup (scuStep am key d st).kernel.services key2 = some a := by
        intro key2 hkey2 a ha
        have hne : ¬ key2 = key := fun he2 => hh (he2 ▸ hkey2)
        rw [hfs1 key2 hne]
        exact ham key2 (by rw [akeys, List.map_cons]; exact List.mem_cons_of_mem _ hkey2) a ha
      have hmgr : ∀ key2 ∈ akeys rest, ∀ a, alookup am key2 = some a →
          key2 ∈ (scuStep am key d st).managed := by
        intro key2 hkey2 a ha
        refine (hm1 key2).mpr (Or.inl ?_)
        exact hmg key2 (by rw [akeys, List.map_cons]; exact List.mem_cons_of_mem _ hkey2) a ha
      exact ih (scuStep am key d st) hndr hkrest hwf1 hamr hmgr herr2 p hm

theorem serviceDelete_none_mono (dm : List (ServiceKey × DesiredService)) :
    ∀ (todo : List (ServiceKey × Service)) (st : PassState) (q : ServiceKey),
    alookup st.kernel.services q = none →
    alookup st.kernel.destinations q = none →
    alookup (serviceDelete dm todo st).kernel.services q = none ∧
    alookup (serviceDelete dm todo st).kernel.destinations q = none := by
  intro todo
  induction todo with
  | nil =>
    intro st q hs hd
    exact ⟨hs, hd⟩
  | cons p rest ih =>
    intro st q hs hd
    obtain ⟨key, a⟩ := p
    rw [serviceDelete_cons]
    rw [sdStep]
    cases hl : alookup dm key with
    | some d0 =>
      simp only [hl]
      exact ih st q hs hd
    | none =>
      cases hop : st.kernel.delService a with
      | error e =>
        simp only [hl, hop]
        exact ih _ q hs hd
      | ok k1 =>
        simp only [hl, hop]
        obtain ⟨hsome, hs1, hd1⟩ := delService_ok hop
        refine ih _ q ?_ ?_
        · show alookup k1.services q = none
          rw [hs1]
          exact alookup_aerase_none _ _ _ hs
        · show alookup k1.destinations q = none
          rw [hd1]
          exact alookup_aerase_none _ _ _ hd

theorem serviceDelete_post (dm : List (ServiceKey × DesiredService)) :
    ∀ (todo : List (ServiceKey × Service)) (st : PassState),
    st.kernel.WF →
    (∀ p ∈ todo, makeFakeServiceKey p.2 = p.1) →
    (serviceDelete dm todo st).errs = st.errs →
    ∀ p ∈ todo, alookup dm p.1 = none →
    alookup (serviceDelete dm todo st).kernel.services p.1 = none ∧
    alookup (serviceDelete dm todo st).kernel.destinations p.1 = none := by
  intro todo
  induction todo with
  | nil =>
    intro st _ _ _ p hp
    simp at hp
  | cons q rest ih =>
    intro st hwf hkeys herr
    obtain ⟨key, a⟩ := q
    have hk1 : makeFakeServiceKey a = key := hkeys _ (List.mem_cons_self _ _)
    have hkrest : ∀ p ∈ rest, makeFakeServiceKey p.2 = p.1 :=
      fun p hp => hkeys p (List.mem_cons_of_mem _ hp)
    rw [serviceDelete_cons] at herr ⊢
    cases hl : alookup dm key with
    | some d0 =>
      rw [sdStep_noop dm key a st d0 hl] at herr ⊢
      intro p hp hpn
      rcases List.mem_cons.mp hp with he | hm
      · subst he
        rw [hl] at hpn
        exact Option.noConfusion hpn
      · exact ih st hwf hkrest herr p hm hpn
    | none =>
      cases hop : st.kernel.delService a with
      | error e =>
        have hse : sdStep dm key a st = { st with errs := st.errs ++ [e], trace := st.trace ++ [TraceOp.deleteSvc key false] } := by
          rw [sdStep, hl, hop]
        rw [hse] at herr
        obtain ⟨δt2, δe2, _, he2, _⟩ := serviceDelete_shape dm rest
          { st with errs := st.errs ++ [e], trace := st.trace ++ [TraceOp.deleteSvc key false] } hkrest
        rw [he2] at herr
        have h2 : st.errs ++ ([e] ++ δe2) = st.errs := by
          rw [← List.append_assoc]
          exact herr
        have h3 := append_right_nil _ _ h2
        simp at h3
      | ok k1 =>
        obtain ⟨hsome, hs1, hd1⟩ := delService_ok hop
        rw [hk1] at hs1 hd1
        have hse : sdStep dm key a st = { st with kernel := k1, managed := merase st.managed key, trace := st.trace ++ [TraceOp.deleteSvc key true] } := by
          rw [sdStep, hl, hop]
        rw [hse] at herr ⊢
        have hwf1 : k1.WF := delService_WF hwf hop
        have hs_none : alookup k1.services key = none := by
          rw [hs1]
          exact alookup_aerase_self _ _ hwf.svcNodup
        have hd_none : alookup k1.destinations key = none := by
          rw [hd1]
          exact alookup_aerase_self _ _ hwf.dstNodup
        intro p hp hpn
        rcases List.mem_cons.mp hp with he | hm
        · subst he
          exact serviceDelete_none_mono dm rest _ key hs_none hd_none
        · exact ih _ hwf1 hkrest herr p hm hpn

theorem buildActualMap_some (managed : List ServiceKey) (k : Kernel) (hwf : k.WF)
    (q : ServiceKey) (a : Service)
    (h : alookup (buildActualMap managed k.getServices) q = some a) :
    alookup k.services q = some a ∧ q ∈ managed := by
  obtain ⟨h1, h2⟩ := buildActualMap_alookup managed k hwf q
  cases hk : alookup k.services q with
  | none =>
    rw [h2 hk] at h
    exact Option.noConfusion h
  | some v =>
    rw [h1 v hk] at h
    by_cases hm : q ∈ managed
    · rw [if_pos hm] at h
      injection h with h
      subst h
      exact ⟨rfl, hm⟩
    · rw [if_neg hm] at h
      exact Option.noConfusion h

theorem runReconcile_post (isHealthy : String → Bool) (managed0 : List ServiceKey)
    (k0 : Kernel) (configs : List ServiceConfig)
    (hwf : k0.WF)
    (hok : (runReconcile isHealthy managed0 k0 configs).errs = []) :
    ∃ dm, buildDesiredState isHealthy configs = .ok dm ∧
      (∀ p ∈ dm,
        (∃ svc2, alookup (runReconcile isHealthy managed0 k0 configs).kernel.services p.1 =
            some svc2 ∧ svc2.SchedName = p.2.service.SchedName) ∧
        (∀ q ∈ buildDestMap p.2.destinations, ∃ sd,
          lookupDest (runReconcile isHealthy managed0 k0 configs).kernel p.1 q.1 = some sd ∧
            sd.Weight = q.2.Weight) ∧
        (∀ dk, alookup (buildDestMap p.2.destinations) dk = none →
          lookupDest (runReconcile isHealthy managed0 k0 configs).kernel p.1 dk = none) ∧
        p.1 ∈ (runReconcile isHealthy managed0 k0 configs).managed) ∧
      (∀ key, key ∈ (runReconcile isHealthy managed0 k0 configs).managed →
        alookup dm key = none →
        alookup (runReconcile isHealthy managed0 k0 configs).kernel.services key = none) := by
  rw [runReconcile] at hok ⊢
  cases hb : buildDesiredState isHealthy configs with
  | error e =>
    simp only [hb] at hok
    exact List.noConfusion hok
  | ok dm =>
    simp only [hb] at hok ⊢
    refine ⟨dm, rfl, ?_⟩
    have hkeys1 : ∀ p ∈ dm, makeFakeServiceKey p.2.service = p.1 :=
      buildDesiredState_keys isHealthy configs dm hb
    have hnd : (akeys dm).Nodup := buildDesiredState_nodup isHealthy configs dm hb
    have hkeys2 : ∀ p ∈ buildActualMap managed0 k0.getServices, makeFakeServiceKey p.2 = p.1 :=
      fun p hp => (buildActualMap_keys managed0 k0.getServices p hp).2
    obtain ⟨δt1, δe1, ht1, he1, hD1, hC1, hm1, hfs1, hfd1, hp1⟩ :=
      serviceCreateUpdate_shape (buildActualMap managed0 k0.getServices) dm
        { kernel := k0, managed := managed0, errs := [], trace := [] } hkeys1
    obtain ⟨δt2, δe2, ht2, he2, hC2, hD2, hm2, hfs2, hfd2, hdes2⟩ :=
      serviceDelete_shape dm (buildActualMap managed0 k0.getServices)
        (serviceCreateUpdate (buildActualMap managed0 k0.getServices) dm
          { kernel := k0, managed := managed0, errs := [], trace := [] }) hkeys2
    rw [he2, he1] at hok
    have hok2 : δe1 ++ δe2 = [] := by
      have h0 : ([] : List String) ++ (δe1 ++ δe2) = [] := by
        rw [← List.append_assoc]
        exact hok
      simpa using h0
    obtain ⟨hδ1, hδ2⟩ := List.append_eq_nil.mp hok2
    have herr1 : (serviceCreateUpdate (buildActualMap managed0 k0.getServices) dm
        { kernel := k0, managed := managed0, errs := [], trace := [] }).errs =
        ({ kernel := k0, managed := managed0, errs := [], trace := [] } : PassState).errs := by
      rw [he1, hδ1]
      simp
    have herr2 : (serviceDelete dm (buildActualMap managed0 k0.getServices)
        (serviceCreateUpdate (buildActualMap managed0 k0.getServices) dm
          { kernel := k0, managed := managed0, errs := [], trace := [] })).errs =
        (serviceCreateUpdate (buildActualMap managed0 k0.getServices) dm
          { kernel := k0, managed := managed0, errs := [], trace := [] }).errs := by
      rw [he2, hδ2]
      simp
    have ham0 : ∀ key ∈ akeys dm, ∀ a,
        alookup (buildActualMap managed0 k0.getServices) key = some a →
        alookup ({ kernel := k0, managed := managed0, errs := [], trace := [] } : PassState).kernel.services key = some a :=
      fun key _ a ha => (buildActualMap_some managed0 k0 hwf key a ha).1
    have hmg0 : ∀ key ∈ akeys dm, ∀ a,
        alookup (buildActualMap managed0 k0.getServices) key = some a →
        key ∈ ({ kernel := k0, managed := managed0, errs := [], trace := [] } : PassState).managed :=
      fun key _ a ha => (buildActualMap_some managed0 k0 hwf key a ha).2
    have hcu_post := serviceCreateUpdate_post (buildActualMap managed0 k0.getServices) dm
      { kernel := k0, managed := managed0, errs := [], trace := [] } hnd hkeys1 hwf ham0 hmg0 herr1
    have hwf1c := serviceCreateUpdate_WF (buildActualMap managed0 k0.getServices) dm
      { kernel := k0, managed := managed0, errs := [], trace := [] } hwf
    constructor
    · intro p hp
      obtain ⟨⟨svc2, hsvc2, hsch2⟩, hP1, hP2, hmgd⟩ := hcu_post p hp
      have hdmsome : (alookup dm p.1).isSome = true :=
        (alookup_isSome_iff_mem_akeys _ _).mpr (List.mem_map_of_mem Prod.fst hp)
      obtain ⟨hdesS, hdesD⟩ := hdes2 p.1 hdmsome
      refine ⟨⟨svc2, by rw [hdesS]; exact hsvc2, hsch2⟩, ?_, ?_, ?_⟩
      · intro q hq
        obtain ⟨sd, hsd, hw⟩ := hP1 q hq
        exact ⟨sd, by rw [lookupDest_outer_congr hdesD q.1]; exact hsd, hw⟩
      · intro dk hdk
        rw [lookupDest_outer_congr hdesD dk]
        exact hP2 dk hdk
      · refine (hm2 p.1).mpr ⟨hmgd, ?_⟩
        intro hmem
        obtain ⟨_, hnone⟩ := hD2 p.1 hmem
        rw [hnone] at hdmsome
        exact Bool.false_ne_true hdmsome
    · intro key hkm hkn
      have hkm2 := (hm2 key).mp hkm
      have hkm1 := (hm1 key).mp hkm2.1
      have hkey_m0 : key ∈ managed0 := by
        rcases hkm1 with h | h
        · exact h
        · exact absurd (hC1 key h) ((alookup_eq_none_iff dm key).mp hkn)
      cases hk0 : alookup k0.services key with
      | some v =>
        have ham1v : alookup (buildActualMap managed0 k0.getServices) key = some v := by
          obtain ⟨h1, h2⟩ := buildActualMap_alookup managed0 k0 hwf key
          rw [h1 v hk0, if_pos hkey_m0]
        have hmemam : (key, v) ∈ buildActualMap managed0 k0.getServices := alookup_mem ham1v
        exact (serviceDelete_post dm (buildActualMap managed0 k0.getServices) _
          hwf1c hkeys2 herr2 (key, v) hmemam hkn).1
      | none =>
        have hknm : key ∉ akeys dm := (alookup_eq_none_iff dm key).mp hkn
        have hs1c : alookup (serviceCreateUpdate (buildActualMap managed0 k0.getServices) dm
            { kernel := k0, managed := managed0, errs := [], trace := [] }).kernel.services key = none := by
          rw [hfs1 key hknm]
          exact hk0
        have hd0 : alookup k0.destinations key = none := by
          have hsd := hwf.sameDom key
          rw [hk0] at hsd
          cases hd : alookup k0.destinations key with
          | none => rfl
          | some m =>
            rw [hd] at hsd
            exact Bool.noConfusion hsd
        have hd1c : alookup (serviceCreateUpdate (buildActualMap managed0 k0.getServices) dm
            { kernel := k0, managed := managed0, errs := [], trace := [] }).kernel.destinations key = none := by
          rw [hfd1 key hknm]
          exact hd0
        exact (serviceDelete_none_mono dm (buildActualMap managed0 k0.getServices) _ key hs1c hd1c).1

theorem runReconcile_stationary (isHealthy : String → Bool) (managed0 : List ServiceKey)
    (k0 : Kernel) (configs : List ServiceConfig)
    (hwf : k0.WF)
    (hok : (runReconcile isHealthy managed0 k0 configs).errs = []) :
    runReconcile isHealthy (runReconcile isHealthy managed0 k0 configs).managed
      (runReconcile isHealthy managed0 k0 configs).kernel configs =
      { kernel := (runReconcile isHealthy managed0 k0 configs).kernel,
        managed := (runReconcile isHealthy managed0 k0 configs).managed,
        errs := [], trace := [] } := by
  obtain ⟨dm, hb, hdes, hstray⟩ := runReconcile_post isHealthy managed0 k0 configs hwf hok
  have hwf1 := runReconcile_WF isHealthy managed0 k0 configs hwf
  have hkeys1 : ∀ p ∈ dm, makeFakeServiceKey p.2.service = p.1 :=
    buildDesiredState_keys isHealthy configs dm hb
  set st1 := runReconcile isHealthy managed0 k0 configs with hst1
  rw [runReconcile]
  simp only [hb]
  have hnoop1 : serviceCreateUpdate (buildActualMap st1.managed st1.kernel.getServices) dm
      { kernel := st1.kernel, managed := st1.managed, errs := [], trace := [] } =
      { kernel := st1.kernel, managed := st1.managed, errs := [], trace := [] } := by
    refine serviceCreateUpdate_noop _ dm _ ?_
    intro p hp
    obtain ⟨⟨svc2, hsvc2, hsch2⟩, hP1, hP2, hmgd⟩ := hdes p hp
    have hkp : makeFakeServiceKey p.2.service = p.1 := hkeys1 p hp
    have ham2 : alookup (buildActualMap st1.managed st1.kernel.getServices) p.1 = some svc2 := by
      obtain ⟨h1, h2⟩ := buildActualMap_alookup st1.managed st1.kernel hwf1 p.1
      rw [h1 svc2 hsvc2, if_pos hmgd]
    have hdsome : (alookup st1.kernel.destinations p.1).isSome = true := by
      have hsd := hwf1.sameDom p.1
      rw [hsvc2] at hsd
      simpa using hsd.symm
    obtain ⟨m, hdm⟩ := Option.isSome_iff_exists.mp hdsome
    have hkm : ∀ q ∈ m, q.1 = makeFakeDestinationKey q.2 :=
      hwf1.dstKeyed (p.1, m) (alookup_mem hdm)
    have hrd : reconcileDestinations
        { kernel := st1.kernel, managed := st1.managed, errs := [], trace := [] } p.2 =
        { kernel := st1.kernel, managed := st1.managed, errs := [], trace := [] } := by
      refine reconcileDestinations_noop _ p.2 m ?_ hkm ?_ ?_
      · show alookup st1.kernel.destinations (makeFakeServiceKey p.2.service) = some m
        rw [hkp]
        exact hdm
      · intro q hq
        obtain ⟨sd, hsd, hw⟩ := hP1 q hq
        refine ⟨sd, ?_, hw⟩
        rw [← lookupDest_eq st1.kernel p.1 m hdm q.1]
        exact hsd
      · intro q hq
        cases hqd : alookup (buildDestMap p.2.destinations) q.1 with
        | some dd => rfl
        | none =>
          exfalso
          have hn := hP2 q.1 hqd
          rw [lookupDest_eq st1.kernel p.1 m hdm q.1] at hn
          have hsome := (alookup_isSome_iff_mem_akeys m q.1).mpr
            (List.mem_map_of_mem Prod.fst hq)
          rw [hn] at hsome
          exact Bool.noConfusion hsome
    exact scuStep_noop _ p.1 p.2 _ svc2 ham2 hsch2 hrd
  rw [hnoop1]
  have hnoop2 : serviceDelete dm (buildActualMap st1.managed st1.kernel.getServices)
      { kernel := st1.kernel, managed := st1.managed, errs := [], trace := [] } =
      { kernel := st1.kernel, managed := st1.managed, errs := [], trace := [] } := by
    refine serviceDelete_noop dm _ _ ?_
    intro p hp
    have hsome2 : (alookup (buildActualMap st1.managed st1.kernel.getServices) p.1).isSome = true :=
      (alookup_isSome_iff_mem_akeys _ _).mpr (List.mem_map_of_mem Prod.fst hp)
    obtain ⟨a2, ha2⟩ := Option.isSome_iff_exists.mp hsome2
    obtain ⟨hk1s, hmem1⟩ := buildActualMap_some st1.managed st1.kernel hwf1 p.1 a2 ha2
    cases hdmk : alookup dm p.1 with
    | some d0 => exact ⟨d0, rfl⟩
    | none =>
      exfalso
      have hnone := hstray p.1 hmem1 hdmk
      rw [hnone] at hk1s
      exact Option.noConfusion hk1s
  rw [hnoop2]

/-! ## Claim C5 -/

/-- C5 counterexample: from a starting table that already holds a foreign
copy of the service (not in the managed set), a pass over a valid
configuration fails its create call, and a second identical run still
issues a (failing) create operation — its trace is not empty — while the
table is left unchanged. This refutes the unconditional claim that the
second of two identical runs performs zero operations from any starting
table. -/
theorem claim_C5_counterexample :
    isOkE (Validate { Services := [svc1] }) = true ∧
    (runReconcile allHealthy
      (runReconcile allHealthy [] kernelForeign [svc1]).managed
      (runReconcile allHealthy [] kernelForeign [svc1]).kernel [svc1]).trace.length = 1 ∧
    ¬ ((runReconcile allHealthy
      (runReconcile allHealthy [] kernelForeign [svc1]).managed
      (runReconcile allHealthy [] kernelForeign [svc1]).kernel [svc1]).trace = []) ∧
    (runReconcile allHealthy
      (runReconcile allHealthy [] kernelForeign [svc1]).managed
      (runReconcile allHealthy [] kernelForeign [svc1]).kernel [svc1]).kernel =
      kernelForeign := by
  refine ⟨?_, ?_, ?_, ?_⟩ <;> decide

/-- C5 (amended): reconcile is idempotent after a clean run. If a pass over
a well-formed table reports no error, a second run over the same
configuration and health view leaves the kernel table and the managed set
identical, reports no error, and issues zero create, update or delete
operations to the binding: its trace is empty. The restriction to an
error-free first run is the amendment; without it a failing create can
repeat on every run (see the counterexample). -/
theorem claim_C5_idempotent_after_clean_run
    (isHealthy : String → Bool) (managed0 : List ServiceKey) (k0 : Kernel)
    (configs : List ServiceConfig)
    (hwf : k0.WF)
    (hok : (runReconcile isHealthy managed0 k0 configs).errs = []) :
    (runReconcile isHealthy (runReconcile isHealthy managed0 k0 configs).managed
        (runReconcile isHealthy managed0 k0 configs).kernel configs).kernel =
      (runReconcile isHealthy managed0 k0 configs).kernel ∧
    (runReconcile isHealthy (runReconcile isHealthy managed0 k0 configs).managed
        (runReconcile isHealthy managed0 k0 configs).kernel configs).managed =
      (runReconcile isHealthy managed0 k0 configs).managed ∧
    (runReconcile isHealthy (runReconcile isHealthy managed0 k0 configs).managed
        (runReconcile isHealthy managed0 k0 configs).kernel configs).trace = [] ∧
    (runReconcile isHealthy (runReconcile isHealthy managed0 k0 configs).managed
        (runReconcile isHealthy managed0 k0 configs).kernel configs).errs = [] := by
  have h := runReconcile_stationary isHealthy managed0 k0 configs hwf hok
  rw [h]
  exact ⟨rfl, rfl, rfl, rfl⟩

/-- The empty fake table satisfies the representation invariant. -/
theorem Kernel_empty_WF : Kernel.empty.WF :=
  ⟨by decide, by decide, by decide, by decide, by decide, fun _ => rfl⟩

/-- A clean first run over the empty table: the second run is a strict
no-op. -/
theorem claim_C5_idempotent_after_clean_run_witness :
    Kernel.empty.WF ∧
    (runReconcile allHealthy [] Kernel.empty [svc1]).errs = [] ∧
    (runReconcile allHealthy (runReconcile allHealthy [] Kernel.empty [svc1]).managed
        (runReconcile allHealthy [] Kernel.empty [svc1]).kernel [svc1]).kernel =
      (runReconcile allHealthy [] Kernel.empty [svc1]).kernel ∧
    (runReconcile allHealthy (runReconcile allHealthy [] Kernel.empty [svc1]).managed
        (runReconcile allHealthy [] Kernel.empty [svc1]).kernel [svc1]).trace = [] :=
  ⟨Kernel_empty_WF, by decide,
    (claim_C5_idempotent_after_clean_run allHealthy [] Kernel.empty [svc1]
      Kernel_empty_WF (by decide)).1,
    (claim_C5_idempotent_after_clean_run allHealthy [] Kernel.empty [svc1]
      Kernel_empty_WF (by decide)).2.2.1⟩

/-! ## Claim C2: backend inclusion in the written destination set -/

theorem buildOne_parts (isHealthy : String → Bool) (cfg : ServiceConfig)
    (key : ServiceKey) (ds : DesiredService)
    (h : buildOne isHealthy cfg = .ok (key, ds)) :
    ds.config = cfg ∧ convertBackends isHealthy cfg cfg.Backends = .ok ds.destinations := by
  rw [buildOne] at h
  cases h1 : ConfigToIPVSService cfg with
  | error e =>
    simp only [h1] at h
    exact Except.noConfusion h
  | ok svc =>
    simp only [h1] at h
    cases h2 : ServiceKeyFromConfig cfg with
    | error e =>
      simp only [h2] at h
      exact Except.noConfusion h
    | ok k2 =>
      simp only [h2] at h
      cases h3 : convertBackends isHealthy cfg cfg.Backends with
      | error e =>
        simp only [h3] at h
        exact Except.noConfusion h
      | ok dests =>
        simp only [h3] at h
        injection h with h
        injection h with hk hds
        subst hds
        exact ⟨rfl, rfl⟩

theorem convertBackends_mem (isHealthy : String → Bool) (svcCfg : ServiceConfig) :
    ∀ (backends : List BackendConfig) (ds : List Destination),
    convertBackends isHealthy svcCfg backends = .ok ds →
    ∀ dst, dst ∈ ds ↔
      ∃ b ∈ backends,
        ¬ (svcCfg.HealthCheck.IsEnabled = true ∧ ¬ isHealthy b.Address = true) ∧
        ConfigToIPVSDestination b = .ok dst := by
  intro backends
  induction backends with
  | nil =>
    intro ds h dst
    rw [convertBackends] at h
    injection h with h
    subst h
    simp
  | cons b rest ih =>
    intro ds h dst
    rw [convertBackends] at h
    by_cases hskip : svcCfg.HealthCheck.IsEnabled = true ∧ ¬ isHealthy b.Address = true
    · rw [if_pos hskip] at h
      rw [ih ds h dst]
      constructor
      · rintro ⟨b2, hb2, hc2, hcv2⟩
        exact ⟨b2, List.mem_cons_of_mem _ hb2, hc2, hcv2⟩
      · rintro ⟨b2, hb2, hc2, hcv2⟩
        rcases List.mem_cons.mp hb2 with he | hm
        · subst he
          exact absurd hskip hc2
        · exact ⟨b2, hm, hc2, hcv2⟩
    · rw [if_neg hskip] at h
      cases hcv : ConfigToIPVSDestination b with
      | error e =>
        simp only [hcv] at h
        exact Except.noConfusion h
      | ok dst0 =>
        simp only [hcv] at h
        cases hrest : convertBackends isHealthy svcCfg rest with
        | error e =>
          simp only [hrest] at h
          exact Except.noConfusion h
        | ok ds0 =>
          simp only [hrest] at h
          injection h with h
          subst h
          rw [List.mem_cons, ih ds0 hrest dst]
          constructor
          · rintro (he | ⟨b2, hb2, hc2, hcv2⟩)
            · subst he
              exact ⟨b, List.mem_cons_self _ _, hskip, hcv⟩
            · exact ⟨b2, List.mem_cons_of_mem _ hb2, hc2, hcv2⟩
          · rintro ⟨b2, hb2, hc2, hcv2⟩
            rcases List.mem_cons.mp hb2 with he | hm
            · subst he
              rw [hcv] at hcv2
              injection hcv2 with hcv2
              exact Or.inl hcv2.symm
            · exact Or.inr ⟨b2, hm, hc2, hcv2⟩

theorem backendDestKey_some (b : BackendConfig) (dk : DestinationKey) :
    backendDestKey b = some dk ↔
      ∃ dst, ConfigToIPVSDestination b = .ok dst ∧ makeFakeDestinationKey dst = dk := by
  rw [backendDestKey]
  cases hc : ConfigToIPVSDestination b with
  | error e =>
    constructor
    · intro h
      exact Option.noConfusion h
    · rintro ⟨dst, hdst, _⟩
      exact Except.noConfusion hdst
  | ok dst0 =>
    constructor
    · intro h
      injection h with h
      exact ⟨dst0, rfl, h⟩
    · rintro ⟨dst, hdst, hk⟩
      injection hdst with hdst
      subst hdst
      rw [← hk]
      rfl

/-- C2 (amended): for a pass that reports no error, a desired service of the
built state, and a backend of its configuration whose address converts to a
destination endpoint, the endpoint is present in the table's destination set
for that service exactly when the health check is disabled or the backend's
address is healthy — provided every backend spelling of the same endpoint key
agrees on health. The proviso is the amendment: the port strings "80" and
"+80" both parse to the same endpoint, and with disagreeing health states the
unhealthy spelling's endpoint can still be written (see the
counterexample). -/
theorem claim_C2_backend_inclusion
    (isHealthy : String → Bool) (managed0 : List ServiceKey) (k0 : Kernel)
    (configs : List ServiceConfig) (dm : List (ServiceKey × DesiredService))
    (p : ServiceKey × DesiredService) (b : BackendConfig) (dk : DestinationKey)
    (hwf : k0.WF)
    (hok : (runReconcile isHealthy managed0 k0 configs).errs = [])
    (hdm : buildDesiredState isHealthy configs = .ok dm)
    (hp : p ∈ dm)
    (hb : b ∈ p.2.config.Backends)
    (hdk : backendDestKey b = some dk)
    (hinj : ∀ b2 ∈ p.2.config.Backends, backendDestKey b2 = some dk →
      isHealthy b2.Address = isHealthy b.Address) :
    (lookupDest (runReconcile isHealthy managed0 k0 configs).kernel p.1 dk).isSome = true ↔
      (¬ p.2.config.HealthCheck.IsEnabled = true ∨ isHealthy b.Address = true) := by
  obtain ⟨dm2, hb2, hdes, _⟩ := runReconcile_post isHealthy managed0 k0 configs hwf hok
  rw [hdm] at hb2
  injection hb2 with hb2
  subst hb2
  obtain ⟨_, hP1, hP2, _⟩ := hdes p hp
  obtain ⟨cfg, hcfg, hbo⟩ := buildDesiredState_sound isHealthy configs dm hdm p hp
  obtain ⟨hcfg_eq, hconv⟩ := buildOne_parts isHealthy cfg p.1 p.2 hbo
  rw [← hcfg_eq] at hconv
  have hstep1 : (lookupDest (runReconcile isHealthy managed0 k0 configs).kernel p.1 dk).isSome = true ↔
      (alookup (buildDestMap p.2.destinations) dk).isSome = true := by
    constructor
    · intro h
      cases hq : alookup (buildDestMap p.2.destinations) dk with
      | some dd => rfl
      | none =>
        rw [hP2 dk hq] at h
        exact Bool.noConfusion h
    · intro h
      obtain ⟨dd, hdd⟩ := Option.isSome_iff_exists.mp h
      obtain ⟨sd, hsd, _⟩ := hP1 (dk, dd) (alookup_mem hdd)
      rw [hsd]
      rfl
  rw [hstep1, alookup_isSome_iff_mem_akeys, buildDestMap_keys_mem]
  constructor
  · rintro ⟨dst, hdst, hkdst⟩
    rw [convertBackends_mem isHealthy p.2.config p.2.config.Backends
      p.2.destinations hconv dst] at hdst
    obtain ⟨b2, hb2m, hc2, hcv2⟩ := hdst
    by_cases hen : p.2.config.HealthCheck.IsEnabled = true
    · refine Or.inr ?_
      have hbd2 : backendDestKey b2 = some dk :=
        (backendDestKey_some b2 dk).mpr ⟨dst, hcv2, hkdst⟩
      have hhe : isHealthy b2.Address = true := by
        by_cases hh : isHealthy b2.Address = true
        · exact hh
        · exact absurd ⟨hen, hh⟩ hc2
      rw [← hinj b2 hb2m hbd2]
      exact hhe
    · exact Or.inl hen
  · intro hcond
    obtain ⟨dst, hcv, hkd⟩ := (backendDestKey_some b dk).mp hdk
    refine ⟨dst, ?_, hkd⟩
    rw [convertBackends_mem isHealthy p.2.config p.2.config.Backends
      p.2.destinations hconv dst]
    refine ⟨b, hb, ?_, hcv⟩
    rcases hcond with hen | hh
    · exact fun hc => hen hc.1
    · exact fun hc => hc.2 hh

/-- C2 counterexample: with health checks enabled, the spellings
"192.168.1.1:80" and "192.168.1.1:+80" denote the same endpoint; when only
the "+80" spelling is unhealthy, its endpoint is nevertheless present in the
table written for the service, refuting the unconditional per-backend iff. -/
theorem claim_C2_counterexample :
    svcAlias.HealthCheck.IsEnabled = true ∧
    ({ Address := "192.168.1.1:+80", Weight := 1 } : BackendConfig) ∈ svcAlias.Backends ∧
    aliasHealth "192.168.1.1:+80" = false ∧
    backendDestKey { Address := "192.168.1.1:+80", Weight := 1 } =
      some { Address := "192.168.1.1", Port := 80 } ∧
    isOkE (buildOne aliasHealth svcAlias) = true ∧
    (lookupDest (runReconcile aliasHealth [] Kernel.empty [svcAlias]).kernel
      { Address := "10.0.0.2", Port := 90, Protocol := 6 }
      { Address := "192.168.1.1", Port := 80 }).isSome = true := by
  refine ⟨?_, ?_, ?_, ?_, ?_, ?_⟩ <;> decide

/-- An all-healthy pass over `svcAlias`: the "80"-spelled backend's endpoint
is present, matching its healthy state. -/
theorem claim_C2_backend_inclusion_witness :
    Kernel.empty.WF ∧
    (runReconcile allHealthy [] Kernel.empty [svcAlias]).errs = [] ∧
    buildDesiredState allHealthy [svcAlias] = .ok dmAlias ∧
    pAlias ∈ dmAlias ∧
    ({ Address := "192.168.1.1:80", Weight := 1 } : BackendConfig) ∈ pAlias.2.config.Backends ∧
    backendDestKey { Address := "192.168.1.1:80", Weight := 1 } =
      some { Address := "192.168.1.1", Port := 80 } ∧
    ((lookupDest (runReconcile allHealthy [] Kernel.empty [svcAlias]).kernel pAlias.1
        { Address := "192.168.1.1", Port := 80 }).isSome = true ↔
      (¬ pAlias.2.config.HealthCheck.IsEnabled = true ∨
        allHealthy "192.168.1.1:80" = true)) := by
  have hdm : buildDesiredState allHealthy [svcAlias] = .ok dmAlias := rfl
  refine ⟨Kernel_empty_WF, by decide, hdm, by decide, by decide, by decide, ?_⟩
  exact claim_C2_backend_inclusion allHealthy [] Kernel.empty [svcAlias] dmAlias pAlias
    { Address := "192.168.1.1:80", Weight := 1 } { Address := "192.168.1.1", Port := 80 }
    Kernel_empty_WF (by decide) hdm (by decide) (by decide) (by decide)
    (fun b2 hb2 hk2 => rfl)

end Ezlb
